import Mathlib

/-!
# Notifiarr: action registry and file-tail watcher

A shallow embedding of `pkg/triggers/common/triggers.go` and
`pkg/triggers/filewatch/filewatch.go`, with `today` and `TodaysEmoji` of
`pkg/mnd/emoji.go`, `httpClient.Do` of `pkg/website/website.go` and
`buildDynamicTimerMenus` of `pkg/client/tray.go`.

Conventions of the embedding:

* a Go pointer that may be nil is an `Option`;
* a channel is identified by a number, a nil channel is `none`;
* channel operations performed by a function are returned as a trace, in
  program order;
* a function that can panic or block forever returns an `Outcome`;
* a loop that need not end takes fuel, and returns `none` when it runs out.
-/

namespace Notifiarr

/-- How the execution of a Go function ends. -/
inductive Outcome (α : Type) where
  /-- The function returned. -/
  | returned (val : α)
  /-- The function panicked with the given message. -/
  | panicked (msg : String)
  /-- The function blocks forever (an operation on a nil channel). -/
  | blocked
  deriving DecidableEq, Repr

/-- Identity of a Go channel. -/
abbrev Chan := Nat

namespace common

/-- Go `website.EventType`, a string type. -/
abbrev EventType := String

/-- Go `TriggerName`, a string type. -/
abbrev TriggerName := String

/-- Go `ActionInput`. -/
structure ActionInput where
  /-- Field `Type` of the source. -/
  Type_ : EventType
  Args : List String
  deriving DecidableEq, Repr

/-- Go `Action`. The callback `Fn` and the ticker `T` are kept as identifiers:
none of the registry methods below calls or reads them. -/
structure Action where
  Name : TriggerName
  Fn : Nat
  C : Option Chan
  T : Option Nat
  Hide : Bool
  deriving DecidableEq, Repr

/-- One channel operation. The message of a send is a `*ActionInput`. -/
inductive ChanOp where
  | send (ch : Chan) (msg : Option ActionInput)
  | recv (ch : Chan)
  deriving DecidableEq, Repr

/-- Go `Config`, restricted to the fields the registry methods read or write:
`stop`, `list` and `reloadCh`. The entries of `list` are non-nil `*Action`. -/
structure Config where
  stop : Option Action
  list : List Action
  reloadCh : Option Chan
  deriving DecidableEq, Repr

/-- The `for _, trigger := range c.list` loop of `Config.Get`. -/
def getLoop : List Action → TriggerName → Option Action
  | [], _ => none
  | trigger :: rest, name =>
    if trigger.Name = name then some trigger else getLoop rest name

/-- Go `Config.Get`: the list is only read. -/
def Config.Get (c : Config) (name : TriggerName) : Option Action :=
  getLoop c.list name

/-- Go `Config.Exec`: the returned boolean and the channel operations made.
The registry itself is not written. The send is recorded as made: how long it
waits for room in the channel is up to the receiver. -/
def Config.Exec (c : Config) (input : Option ActionInput) (name : TriggerName) :
    Bool × List ChanOp :=
  match c.stop, c.Get name with
  | none, _ => (false, [])
  | some _, none => (false, [])
  | some _, some trig =>
    match trig.C with
    | none => (false, [])
    | some ch => (true, [ChanOp.send ch input])

/-- Go `Config.Add`. -/
def Config.Add (c : Config) (action : List Action) : Config :=
  { c with list := c.list ++ action }

/-- Go `Config.Stop` on a receiver that may be nil: the channel operations
made, and the outcome with the registry after the call. A send on a nil
channel blocks forever; on a channel that is there the send and the receive
of the done signal are recorded as made. -/
def Config.Stop (c : Option Config) (event : EventType) :
    List ChanOp × Outcome Config :=
  match c with
  | none => ([], Outcome.panicked "Config is nil, cannot stop a nil config!!")
  | some cfg =>
    match cfg.stop with
    | none => ([], Outcome.panicked "Notifiarr Timers cannot be stopped: not running!!")
    | some stopAction =>
      match stopAction.C with
      | none => ([], Outcome.blocked)
      | some ch =>
        ([ChanOp.send ch (some { Type_ := event, Args := [] }), ChanOp.recv ch],
          Outcome.returned { cfg with stop := none })

end common

namespace website

/-- Go `website.Route`, a string type. -/
abbrev Route := String

/-- Go `website.Request` as `checkLineMatch` fills it; the payload is always a
`*Match` there, so it is given its fields directly. -/
structure Request where
  Route : Route
  Event : common.EventType
  LogPayload : Bool
  LogMsg : String
  PayloadFile : String
  PayloadMatches : List String
  PayloadLine : String
  deriving DecidableEq, Repr

end website

namespace regexp

/-- A compiled `*regexp.Regexp`, known by the expression it was compiled from. -/
structure Regexp where
  expr : String
  deriving DecidableEq, Repr

end regexp

namespace filewatch

/-- How many times to retry watching a file. -/
def maxRetries : Nat := 6

/-- The number of special channels at the head of the select cases. -/
def specialCase : Nat := 2

/-- Burst to this many matches before throttling. -/
def burstRate : Nat := 6

/-- One request per this period, in nanoseconds (`time.Second + 500*time.Millisecond`). -/
def requestPer : Nat := 1000000000 + 500 * 1000000

/-- How often channels are checked for being closed, in nanoseconds. -/
def retryInterval : Nat := 10 * 1000000000

/-- A `*tail.Tail` handle, known by its `Lines` channel. -/
structure Tail where
  Lines : Chan
  deriving DecidableEq, Repr

/-- Go `WatchFile` without its mutex. -/
structure WatchFile where
  Path : String
  Regexp : String
  Skip : String
  Poll : Bool
  Pipe : Bool
  MustExist : Bool
  LogMatch : Bool
  re : Option regexp.Regexp
  skip : Option regexp.Regexp
  tail : Option Tail
  retries : Nat
  deriving DecidableEq, Repr

/-- Go `Match`. -/
structure Match where
  File : String
  Matches : List String
  Line : String
  deriving DecidableEq, Repr

/-- Address of a `WatchFile`: the slices of the source hold `*WatchFile`. -/
abbrev FilePtr := Nat

/-- The errors `setup` and `addFileWatcher` return. -/
inductive Err where
  /-- `ErrInvalidRegexp`: no regexp match provided. -/
  | noRegexp
  /-- `ErrInvalidRegexp`: regexp match compile failed. -/
  | matchCompile
  /-- `ErrInvalidRegexp`: regexp skip compile failed. -/
  | skipCompile
  /-- The error of `tail.TailFile`, wrapped in "watching file". -/
  | watching
  /-- `common.ErrNoChannel`. -/
  | noChannel
  deriving DecidableEq, Repr

/-- Whether `errors.Is(err, ErrInvalidRegexp)`. -/
def Err.isInvalidRegexp : Err → Bool
  | Err.noRegexp => true
  | Err.matchCompile => true
  | Err.skipCompile => true
  | _ => false

/-- The channel `addWatcher`, made with capacity 1: its buffer of `*WatchFile`
(a nil pointer is `none`) and whether it has been closed. -/
structure AddChan where
  id : Chan
  buf : List (Option FilePtr)
  closed : Bool
  deriving DecidableEq, Repr

/-- The channel `stopWatcher`: nothing is ever sent on it, it is only closed. -/
structure StopChan where
  id : Chan
  closed : Bool
  deriving DecidableEq, Repr

/-- The counters of `mnd.FileWatcher`, an `expvar.Map` of integers: a key is
absent until the first `Add`. The values are taken as mathematical integers. -/
abbrev Metrics := String → Option Int

/-- Go `expvar.Map.Add`. -/
def Metrics.Add (m : Metrics) (key : String) (delta : Int) : Metrics :=
  fun k => if k = key then some ((m k).getD 0 + delta) else m k

/-- What lies outside the repository: the regexp library, the tail library,
the rate limiter and two constants of package website. Calls whose result can
change from one call to the next are indexed by the number of calls made
before. -/
structure Env where
  /-- Go `regexp.Compile`; `none` is a compile error. -/
  compile : String → Option regexp.Regexp
  /-- Go `(*Regexp).MatchString`. -/
  MatchString : regexp.Regexp → String → Bool
  /-- Go `(*Regexp).FindAllString` with `n = -1`. -/
  FindAllString : regexp.Regexp → String → List String
  /-- Go `tail.TailFile`, at the given call number; `none` is an error. -/
  tailFile : Nat → WatchFile → Option Tail
  /-- Go `(*tail.Tail).Stop`, at the given call number; `true` is an error. -/
  tailStopFails : Nat → Tail → Bool
  /-- Go `limiter.Pour(1)`, at the given call number. -/
  pour : Nat → Bool
  /-- Go `website.LogLineRoute`. -/
  LogLineRoute : website.Route
  /-- Go `website.EventFile`. -/
  EventFile : common.EventType

/-- The state shared between the loop and the rest of the program: the fields
of `cmd`, the `WatchFile`s behind the pointers, the counters, and a record of
the calls made to the outside. Log output is left out. -/
structure World where
  /-- The `WatchFile` at each address. -/
  heap : FilePtr → WatchFile
  /-- Field `c.files`. -/
  files : List FilePtr
  /-- Field `c.addWatcher`. -/
  addWatcher : Option AddChan
  /-- Field `c.stopWatcher`. -/
  stopWatcher : Option StopChan
  /-- Whether `c.awMutex` is held by a writer. -/
  awLocked : Bool
  /-- The map `mnd.FileWatcher`. -/
  metrics : Metrics
  /-- Number of calls of `c.limiter.Pour` so far. -/
  pours : Nat
  /-- Number of calls of `tail.TailFile` so far. -/
  opens : Nat
  /-- Number of calls of `(*tail.Tail).Stop` so far. -/
  stops : Nat
  /-- The requests handed to `c.SendData`, latest last. -/
  sent : List website.Request
  /-- Number of calls of `ticker.Stop` so far. -/
  tickerStops : Nat
  /-- Number of times `stopWatcher` has been closed. -/
  stopCloses : Nat

/-- Go `unicode.IsSpace`. -/
def isSpace (c : Char) : Bool :=
  let n := c.toNat
  n == 0x09 || n == 0x0A || n == 0x0B || n == 0x0C || n == 0x0D || n == 0x20 ||
  n == 0x85 || n == 0xA0 || n == 0x1680 || (0x2000 ≤ n && n ≤ 0x200A) ||
  n == 0x2028 || n == 0x2029 || n == 0x202F || n == 0x205F || n == 0x3000

/-- Go `strings.TrimSpace`, on valid UTF-8. -/
def TrimSpace (s : String) : String :=
  String.mk ((s.data.dropWhile isSpace).reverse.dropWhile isSpace).reverse

/-- Write the `WatchFile` at an address. -/
def World.setFile (w : World) (p : FilePtr) (f : WatchFile) : World :=
  { w with heap := fun q => if q = p then f else w.heap q }

/-- Go `mnd.FileWatcher.Add(key, delta)`. -/
def World.count (w : World) (key : String) (delta : Int) : World :=
  { w with metrics := w.metrics.Add key delta }

/-- Go `WatchFile.Active`. -/
def Active (w : World) (p : FilePtr) : Bool :=
  (w.heap p).tail.isSome

/-- Go `WatchFile.stop`: the world after, and whether an error is returned.
Calling `Stop` on a nil `*tail.Tail` is a nil dereference. -/
def stop (env : Env) (w : World) (p : FilePtr) : World × Outcome Bool :=
  match (w.heap p).tail with
  | none => (w, Outcome.panicked "invalid memory address or nil pointer dereference")
  | some t => ({ w with stops := w.stops + 1 }, Outcome.returned (env.tailStopFails w.stops t))

/-- Go `WatchFile.deactivate`: the deferred function clears the tail handle
whatever `stop` did. -/
def deactivate (env : Env) (w : World) (p : FilePtr) : World × Outcome Bool :=
  let r := stop env w p
  (r.1.setFile p { r.1.heap p with tail := none }, r.2)

/-- Go `cmd.killWatcher`. -/
def killWatcher (env : Env) (w : World) (p : FilePtr) : World × Outcome Bool :=
  match deactivate env w p with
  | (w1, Outcome.returned true) =>
    ((w1.count ((w1.heap p).Path ++ " Errors") 1), Outcome.returned true)
  | (w1, Outcome.returned false) => (w1, Outcome.returned false)
  | (w1, Outcome.panicked msg) => (w1, Outcome.panicked msg)
  | (w1, Outcome.blocked) => (w1, Outcome.blocked)

/-- Go `WatchFile.setup`: the world after, and the error returned, if any. -/
def setup (env : Env) (w : World) (p : FilePtr) : World × Option Err :=
  let f0 := { w.heap p with retries := maxRetries }
  if f0.Regexp = "" then
    (w.setFile p f0, some Err.noRegexp)
  else
    let f1 := { f0 with re := env.compile f0.Regexp }
    if f1.re.isNone then
      (w.setFile p f1, some Err.matchCompile)
    else
      let f2 := { f1 with skip := env.compile f1.Skip }
      if f2.skip.isNone then
        (w.setFile p f2, some Err.skipCompile)
      else
        let f3 := { f2 with tail := env.tailFile w.opens f2 }
        let w3 := { w with opens := w.opens + 1 }
        if f3.tail.isNone then
          ((w3.setFile p f3).count (f3.Path ++ " Errors") 1, some Err.watching)
        else
          (w3.setFile p { f3 with retries := 0 }, none)

/-- Go `cmd.addFileWatcher`. Taking the read lock blocks while a writer holds
the mutex; a send on a closed channel panics; a send on a full buffer blocks. -/
def addFileWatcher (env : Env) (w : World) (file : FilePtr) : World × Outcome (Option Err) :=
  if w.awLocked then (w, Outcome.blocked)
  else
    match w.addWatcher with
    | none => (w, Outcome.returned (some Err.noChannel))
    | some _ =>
      match setup env w file with
      | (w1, some err) => (w1, Outcome.returned (some err))
      | (w1, none) =>
        match w1.addWatcher with
        | none => (w1, Outcome.blocked)
        | some ch =>
          if ch.closed then (w1, Outcome.panicked "send on closed channel")
          else if 1 ≤ ch.buf.length then (w1, Outcome.blocked)
          else
            ({ w1 with addWatcher := some { ch with buf := ch.buf ++ [some file] } },
              Outcome.returned none)

/-- The loop `for _, item := range c.files` of `cmd.fileWatcherTicker`, with
the value of `stilldead` so far. -/
def tickerLoop (env : Env) : World → List FilePtr → Bool → World × Outcome Bool
  | w, [], stilldead => (w, Outcome.returned stilldead)
  | w, item :: rest, stilldead =>
    if Active w item || decide (maxRetries ≤ (w.heap item).retries) then
      tickerLoop env w rest stilldead
    else
      let w1 := (w.setFile item
        { w.heap item with retries := (w.heap item).retries + 1 }).count
          ((w.heap item).Path ++ " Retries") 1
      match addFileWatcher env w1 item with
      | (w2, Outcome.returned (some _)) =>
        tickerLoop env (w2.count ((w2.heap item).Path ++ " Errors") 1) rest true
      | (w2, Outcome.returned none) =>
        tickerLoop env
          ((w2.setFile item { w2.heap item with retries := 0 }).count
            ((w2.heap item).Path ++ " Restarts") 1) rest stilldead
      | (w2, Outcome.panicked msg) => (w2, Outcome.panicked msg)
      | (w2, Outcome.blocked) => (w2, Outcome.blocked)

/-- Go `cmd.fileWatcherTicker`. -/
def fileWatcherTicker (env : Env) (w : World) (died : Bool) : World × Outcome Bool :=
  if !died then (w, Outcome.returned false)
  else tickerLoop env w w.files false

/-- Go `cmd.checkLineMatch` on a non-nil line with the given text. -/
def checkLineMatch (env : Env) (w : World) (text : String) (p : FilePtr) : World :=
  let tail := w.heap p
  match tail.re with
  | none => w
  | some re =>
    if text = "" || !env.MatchString re text then w
    else if (match tail.skip with
        | none => false
        | some sk => tail.Skip != "" && env.MatchString sk text) then
      w.count (tail.Path ++ " Skipped") 1
    else
      let w1 := w.count (tail.Path ++ " Matched") 1
      let m : Match :=
        { File := tail.Path, Line := TrimSpace text, Matches := env.FindAllString re text }
      let w2 := { w1 with pours := w1.pours + 1 }
      if !env.pour w1.pours then
        w2.count (tail.Path ++ " Dropped") 1
      else
        { w2 with sent := w2.sent ++ [{
            Route := env.LogLineRoute
            Event := env.EventFile
            LogPayload := tail.LogMatch
            LogMsg := "Watched-File Line Match: " ++ tail.Path ++ ": " ++ m.Line
            PayloadFile := m.File
            PayloadMatches := m.Matches
            PayloadLine := m.Line }] }

/-- The value `reflect.Select` hands back next to the index. -/
inductive Data where
  /-- The zero `Value` that comes with a closed channel. -/
  | zero
  /-- A nil pointer was received. -/
  | nilPtr
  /-- A `*WatchFile` was received, from the add channel. -/
  | watchFile (p : FilePtr)
  /-- A `*tail.Line` with this text was received, from a `Lines` channel. -/
  | line (text : String)
  /-- A `time.Time` was received, from the ticker. -/
  | time
  deriving DecidableEq, Repr

/-- One result of `reflect.Select(cases)`: `idx, data, running`. -/
structure Event where
  idx : Nat
  data : Data
  running : Bool
  deriving DecidableEq, Repr

/-- The variables of the loop of `tailFiles`. A select case is known by its
channel: all of them are receive cases. -/
structure LoopState where
  cases : List Chan
  tails : List FilePtr
  died : Bool
  deriving DecidableEq, Repr

/-- Where the loop of `tailFiles` stands. -/
inductive Status where
  /-- The loop is at the top, waiting in `reflect.Select`. -/
  | running
  /-- The loop has left through its `return`. -/
  | returned
  /-- The loop has left through a panic. -/
  | panicked (msg : String)
  /-- The loop is blocked inside a step. -/
  | blocked
  /-- The loop was offered an event `reflect.Select` cannot produce. -/
  | infeasible
  deriving DecidableEq, Repr

/-- The shared state, the loop's variables and where the loop stands. -/
structure LoopCfg where
  w : World
  st : LoopState
  status : Status

/-- Whether the value is a `*WatchFile`. -/
def Data.isWatchFile : Data → Bool
  | Data.watchFile _ => true
  | _ => false

/-- Whether the value is a `*tail.Line`. -/
def Data.isLine : Data → Bool
  | Data.line _ => true
  | _ => false

/-- What `reflect.Select(cases)` can hand back: an index below `len(cases)`;
from the add channel a `*WatchFile`, from the ticker a time, from a `Lines`
channel a `*tail.Line`, the pointers possibly nil; a closed channel comes with
the zero value, and the channel of a `time.Ticker` is never closed. -/
def Event.selectable (cases : List Chan) (ev : Event) : Bool :=
  decide (ev.idx < cases.length) &&
  (if !ev.running then ev.data == Data.zero && ev.idx != 1
   else if ev.idx == 0 then ev.data == Data.nilPtr || ev.data.isWatchFile
   else if ev.idx == 1 then ev.data == Data.time
   else ev.data == Data.nilPtr || ev.data.isLine)

/-- One turn of the `for` loop of `tailFiles`, from the result of
`reflect.Select` on. The switch is followed case by case; a value of a type
that the channel of that index does not carry is no result of
`reflect.Select`. -/
def loopBody (env : Env) (w : World) (st : LoopState) (ev : Event) : LoopCfg :=
  match st.tails[ev.idx]? with
  | none => ⟨w, st, Status.panicked "index out of range"⟩
  | some item =>
    if !ev.running && ev.idx == 0 then
      if st.cases.length ≤ specialCase then ⟨w, st, Status.returned⟩
      else ⟨w, st, Status.running⟩
    else if !ev.running then
      let st1 : LoopState :=
        { st with tails := st.tails.eraseIdx ev.idx, cases := st.cases.eraseIdx ev.idx }
      match killWatcher env w item with
      | (w1, Outcome.returned died) => ⟨w1, { st1 with died := died }, Status.running⟩
      | (w1, Outcome.panicked msg) => ⟨w1, st1, Status.panicked msg⟩
      | (w1, Outcome.blocked) => ⟨w1, st1, Status.blocked⟩
    else if ev.idx == 1 then
      match fileWatcherTicker env w st.died with
      | (w1, Outcome.returned died) => ⟨w1, { st with died := died }, Status.running⟩
      | (w1, Outcome.panicked msg) => ⟨w1, st, Status.panicked msg⟩
      | (w1, Outcome.blocked) => ⟨w1, st, Status.blocked⟩
    else
      match ev.data with
      | Data.nilPtr => ⟨w.count ((w.heap item).Path ++ " Errors") 1, st, Status.running⟩
      | Data.watchFile p =>
        if ev.idx == 0 then
          match (w.heap p).tail with
          | none =>
            ⟨w, { st with tails := st.tails ++ [p] },
              Status.panicked "invalid memory address or nil pointer dereference"⟩
          | some t =>
            ⟨w, { st with tails := st.tails ++ [p], cases := st.cases ++ [t.Lines] },
              Status.running⟩
        else ⟨w, st, Status.infeasible⟩
      | Data.line text =>
        if ev.idx == 0 then ⟨w, st, Status.infeasible⟩
        else
          let w1 := w.count ((w.heap item).Path ++ " Lines") 1
          let w2 := checkLineMatch env w1 text item
          ⟨w2.count ((w.heap item).Path ++ " Bytes") text.utf8ByteSize, st, Status.running⟩
      | Data.time => ⟨w, st, Status.infeasible⟩
      | Data.zero => ⟨w, st, Status.infeasible⟩

/-- One turn of the loop: `reflect.Select` hands back the event, then the body runs. -/
def loopStep (env : Env) (w : World) (st : LoopState) (ev : Event) : LoopCfg :=
  if ev.selectable st.cases then loopBody env w st ev
  else ⟨w, st, Status.infeasible⟩

/-- What happens between two looks at the loop: the loop takes an event, or
the rest of the program (other goroutines) changes the shared state. -/
inductive Item where
  | ev (e : Event)
  | env (f : World → World)

/-- One item taken by a running loop. -/
def applyItem (env : Env) (c : LoopCfg) : Item → LoopCfg
  | Item.ev e => loopStep env c.w c.st e
  | Item.env f => { c with w := f c.w }

/-- The loop of `tailFiles` over a sequence of items: the configuration
reached and the items left over once the loop has stopped running. -/
def runLoop (env : Env) : LoopCfg → List Item → LoopCfg × List Item
  | c, [] => (c, [])
  | c, it :: rest =>
    if c.status = Status.running then runLoop env (applyItem env c it) rest
    else (c, it :: rest)

/-- The deferred function of `tailFiles`, up to `close(c.stopWatcher)`: the
world after, and the panic of `close` on a nil or closed channel, if any. -/
def tailFilesDeferred (w : World) : World × Option String :=
  let w1 := { w with tickerStops := w.tickerStops + 1 }
  match w1.stopWatcher with
  | none => (w1, some "close of nil channel")
  | some ch =>
    if ch.closed then (w1, some "close of closed channel")
    else
      ({ w1 with stopWatcher := some { ch with closed := true },
                 stopCloses := w1.stopCloses + 1 }, none)

/-- Go `tailFiles` from a configuration of its loop: the loop runs over the
items; when it leaves, by `return` or by a panic, the deferred function runs. -/
def tailFilesFrom (env : Env) (c : LoopCfg) (items : List Item) : LoopCfg × List Item :=
  let r := runLoop env c items
  match r.1.status with
  | Status.returned =>
    match tailFilesDeferred r.1.w with
    | (w1, none) => ({ r.1 with w := w1 }, r.2)
    | (w1, some msg) => ({ r.1 with w := w1, status := Status.panicked msg }, r.2)
  | Status.panicked msg =>
    match tailFilesDeferred r.1.w with
    | (w1, none) => ({ r.1 with w := w1, status := Status.panicked msg }, r.2)
    | (w1, some msg1) => ({ r.1 with w := w1, status := Status.panicked msg1 }, r.2)
  | _ => r

/-- Go `cmd.tailFiles(cases, tails, ticker)`. -/
def tailFiles (env : Env) (w : World) (cases : List Chan) (tails : List FilePtr)
    (items : List Item) : LoopCfg × List Item :=
  tailFilesFrom env ⟨w, ⟨cases, tails, false⟩, Status.running⟩ items

/-- Number of data sources in the active set. -/
def LoopState.sources (st : LoopState) : Nat :=
  st.cases.length - specialCase

/-- An add event: index 0, open, carrying a `*WatchFile`. The step of such an
event goes through only when the file has its tail handle. -/
def Event.isAdd (ev : Event) : Bool :=
  ev.idx == 0 && ev.running && ev.data.isWatchFile

/-- A closed event on a data source. -/
def Event.isClose (ev : Event) : Bool :=
  !ev.running && decide (specialCase ≤ ev.idx)

/-- Number of add events among the items. -/
def countAdds : List Item → Nat
  | [] => 0
  | Item.ev e :: rest => (if e.isAdd then 1 else 0) + countAdds rest
  | Item.env _ :: rest => countAdds rest

/-- Number of closed events on data sources among the items. -/
def countCloses : List Item → Nat
  | [] => 0
  | Item.ev e :: rest => (if e.isClose then 1 else 0) + countCloses rest
  | Item.env _ :: rest => countCloses rest

/-- The pair of channel and file that an item appends to the active set, if
it is an add event for a file with its tail handle. -/
def registeredBy (c : LoopCfg) : Item → List (Chan × FilePtr)
  | Item.ev e =>
    if e.isAdd then
      match e.data with
      | Data.watchFile p =>
        match (c.w.heap p).tail with
        | some t => [(t.Lines, p)]
        | none => []
      | _ => []
    else []
  | Item.env _ => []

/-- The pairs of channel and file that the add events of a run append to the
active set, in the order of the run. -/
def registered (env : Env) : LoopCfg → List Item → List (Chan × FilePtr)
  | _, [] => []
  | c, it :: rest =>
    if c.status = Status.running then
      registeredBy c it ++ registered env (applyItem env c it) rest
    else []

/-- A sequence of closed events that closes each of `n` data sources: every
event is a closed event on an index that holds a data source at that time. -/
def closesAll : Nat → List Event → Prop
  | 0, [] => True
  | n + 1, e :: es =>
    e.running = false ∧ e.data = Data.zero ∧ specialCase ≤ e.idx ∧
      e.idx < specialCase + (n + 1) ∧ closesAll n es
  | _, _ => False

/-- The closed event on the add channel. -/
def addClosed : Event := ⟨0, Data.zero, false⟩

/-- Go `WatchFile.Stop`: the world after, and whether an error is returned. -/
def Stop (env : Env) (w : World) (p : FilePtr) : World × Outcome Bool :=
  if !Active w p then (w, Outcome.returned false)
  else stop env (w.setFile p { w.heap p with retries := maxRetries }) p

/-- The loop `for _, tail := range c.files` of `cmd.stop`: an error of `Stop`
is only logged. -/
def stopFiles (env : Env) : World → List FilePtr → World × Outcome Unit
  | w, [] => (w, Outcome.returned ())
  | w, tail :: rest =>
    match Stop env w tail with
    | (w1, Outcome.returned _) => stopFiles env w1 rest
    | (w1, Outcome.panicked msg) => (w1, Outcome.panicked msg)
    | (w1, Outcome.blocked) => (w1, Outcome.blocked)

/-- Go `cmd.stop` up to its wait `<-c.stopWatcher`: the mutex is taken, every
file is stopped, the add channel is closed. The deferred unlock runs when
`close` panics. -/
def cmd.stopUntilWait (env : Env) (w : World) : World × Outcome Unit :=
  if w.awLocked then (w, Outcome.blocked)
  else
    match stopFiles env { w with awLocked := true } w.files with
    | (w1, Outcome.returned _) =>
      match w1.addWatcher with
      | none => ({ w1 with awLocked := false }, Outcome.panicked "close of nil channel")
      | some ch =>
        if ch.closed then
          ({ w1 with awLocked := false }, Outcome.panicked "close of closed channel")
        else ({ w1 with addWatcher := some { ch with closed := true } }, Outcome.returned ())
    | (w1, Outcome.panicked msg) => ({ w1 with awLocked := false }, Outcome.panicked msg)
    | (w1, Outcome.blocked) => (w1, Outcome.blocked)

/-- Go `cmd.stop` from its wait `<-c.stopWatcher` on: the receive returns once
the channel has been closed, and blocks for ever on a nil channel; then both
channel fields are cleared and the mutex is released. -/
def cmd.stopAfterWait (w : World) : World × Outcome Unit :=
  match w.stopWatcher with
  | none => (w, Outcome.blocked)
  | some ch =>
    if ch.closed then
      ({ w with addWatcher := none, stopWatcher := none, awLocked := false },
        Outcome.returned ())
    else (w, Outcome.blocked)

/-- Whether `pat` occurs in the text as a run of consecutive characters. -/
def containsSub (pat : List Char) : List Char → Bool
  | [] => pat.isEmpty
  | c :: cs => pat.isPrefixOf (c :: cs) || containsSub pat cs

/-- The occurrences of a non-empty `pat` in the text, from left to right and
not overlapping; `skip` is the number of characters still inside the
occurrence found last. -/
def findLiteral (pat : List Char) : Nat → List Char → List String
  | _, [] => []
  | skip + 1, _ :: cs => findLiteral pat skip cs
  | 0, c :: cs =>
    if pat.isPrefixOf (c :: cs) then String.mk pat :: findLiteral pat (pat.length - 1) cs
    else findLiteral pat 0 cs

/-- An instance of the outside world for the examples. The regexp functions
agree with Go's on the expressions the examples use: the expression `.*`,
which matches every text, the empty one too, and non-empty expressions without
metacharacters, which match the texts they occur in. Every compile and every
`TailFile` succeeds, no `Stop` fails, the limiter grants every token. -/
def sampleEnv : Env where
  compile := fun s => some ⟨s⟩
  MatchString := fun r text => r.expr == ".*" || containsSub r.expr.data text.data
  FindAllString := fun r text =>
    if r.expr == ".*" then [text] else findLiteral r.expr.data 0 text.data
  tailFile := fun k _ => some ⟨100 + k⟩
  tailStopFails := fun _ _ => false
  pour := fun _ => true
  LogLineRoute := "LogLineRoute"
  EventFile := "EventFile"

/-- A `WatchFile` as `run` makes the two reserved ones: only the path is set. -/
def reservedFile (path : String) : WatchFile :=
  ⟨path, "", "", false, false, false, false, none, none, none, 0⟩

/-- The file of the examples, after `setup`: `app.log`, match `ERROR`, skip `DEBUG`. -/
def appLog : WatchFile :=
  ⟨"app.log", "ERROR", "DEBUG", false, false, false, false,
    some ⟨"ERROR"⟩, some ⟨"DEBUG"⟩, some ⟨12⟩, 0⟩

/-- A file, after `setup`, whose two expressions match every line. -/
def anyLog : WatchFile :=
  ⟨"any.log", ".*", ".*", false, false, false, false,
    some ⟨".*"⟩, some ⟨".*"⟩, some ⟨13⟩, 0⟩

/-- A world for the examples: the two reserved files at addresses 0 and 1,
`app.log` at 2, `any.log` at 3; `app.log` is configured; both channels of the
loop are made and open; no counter is set. -/
def sampleWorld : World where
  heap := fun p =>
    match p with
    | 0 => reservedFile "/add watcher channel/"
    | 1 => reservedFile "/retry ticker/"
    | 2 => appLog
    | 3 => anyLog
    | _ => reservedFile ""
  files := [2]
  addWatcher := some ⟨10, [], false⟩
  stopWatcher := some ⟨9, false⟩
  awLocked := false
  metrics := fun _ => none
  pours := 0
  opens := 0
  stops := 0
  sent := []
  tickerStops := 0
  stopCloses := 0

/-- The loop as `run` starts it on the world of the examples: the add channel,
the ticker, and `app.log`. -/
def sampleCfg : LoopCfg :=
  ⟨sampleWorld, ⟨[10, 11, 12], [0, 1, 2], false⟩, Status.running⟩

/-- The skip test of `checkLineMatch`: the skip regexp is there, `Skip` is not
empty, and the skip regexp matches the text. -/
def isSkipped (env : Env) (f : WatchFile) (text : String) : Bool :=
  match f.skip with
  | none => false
  | some sk => f.Skip != "" && env.MatchString sk text

/-- The request `checkLineMatch` hands to `SendData` for a line of a file. -/
def matchRequest (env : Env) (f : WatchFile) (re : regexp.Regexp) (text : String) :
    website.Request where
  Route := env.LogLineRoute
  Event := env.EventFile
  LogPayload := f.LogMatch
  LogMsg := "Watched-File Line Match: " ++ f.Path ++ ": " ++ TrimSpace text
  PayloadFile := f.Path
  PayloadMatches := env.FindAllString re text
  PayloadLine := TrimSpace text

/-- The lines of one file, handed to `checkLineMatch` one after the other. -/
def checkLines (env : Env) (w : World) (texts : List String) (p : FilePtr) : World :=
  texts.foldl (fun w1 text => checkLineMatch env w1 text p) w

/-- The file of the examples without a skip pattern, after `setup`: the empty
skip expression compiles. -/
def errLog : WatchFile :=
  ⟨"app.log", "ERROR", "", false, false, false, false,
    some ⟨"ERROR"⟩, some ⟨""⟩, some ⟨14⟩, 0⟩

/-- The world of the examples with `errLog` at address 4. -/
def errWorld : World := sampleWorld.setFile 4 errLog

end filewatch
end Notifiarr

namespace Notifiarr
namespace ratelimiter

/-- Modelled from the spec: the leaky-bucket limiter, which is package
`ratelimiter` of the tail library and not among the sources. The spec gives it
a capacity (the burst size), a refill interval and a number of tokens between
0 and the capacity; `Pour(n)` takes `n` tokens when that many are left and
fails otherwise, without waiting; the tokens are topped back up to the
capacity once per refill interval. The interval is taken to start with the
first `Pour` after a top-up; an unused limiter is full. Times are in
nanoseconds. -/
structure LeakyBucket where
  Capacity : Nat
  RefillInterval : Nat
  tokens : Nat
  windowStart : Option Nat
  deriving DecidableEq, Repr

/-- Modelled from the spec: a new limiter is unused and full. -/
def NewLeakyBucket (size : Nat) (interval : Nat) : LeakyBucket :=
  ⟨size, interval, size, none⟩

/-- Modelled from the spec: the top-up that precedes a `Pour` at time `now`:
on the first use, and when a refill interval has gone by since the start of
the running one. -/
def LeakyBucket.refill (b : LeakyBucket) (now : Nat) : LeakyBucket :=
  match b.windowStart with
  | none => { b with tokens := b.Capacity, windowStart := some now }
  | some start =>
    if b.RefillInterval ≤ now - start then
      { b with tokens := b.Capacity, windowStart := some now }
    else b

/-- Modelled from the spec: `Pour(n)` at time `now`: whether the tokens were
granted, and the limiter after. -/
def LeakyBucket.Pour (b : LeakyBucket) (now : Nat) (n : Nat) : Bool × LeakyBucket :=
  let b1 := b.refill now
  if n ≤ b1.tokens then (true, { b1 with tokens := b1.tokens - n })
  else (false, b1)

/-- The answers of a limiter to calls of `Pour(1)` at the given times, in order. -/
def pourAll : LeakyBucket → List Nat → List Bool
  | _, [] => []
  | b, now :: rest => (b.Pour now 1).1 :: pourAll (b.Pour now 1).2 rest

end ratelimiter

namespace filewatch

/-- The limiter that `New` gives the watcher:
`ratelimiter.NewLeakyBucket(burstRate, requestPer)`. -/
def newLimiter : ratelimiter.LeakyBucket :=
  ratelimiter.NewLeakyBucket burstRate requestPer

/-- How many of the `n` calls of `Pour(1)` from call number `k` on are granted. -/
def granted (env : Env) : Nat → Nat → Nat
  | _, 0 => 0
  | k, n + 1 => (if env.pour k then 1 else 0) + granted env (k + 1) n

/-- The file as `setup` hands it to `tail.TailFile`: retries at `maxRetries`,
both expressions compiled. -/
def validated (env : Env) (f : WatchFile) : WatchFile :=
  { f with retries := maxRetries, re := env.compile f.Regexp, skip := env.compile f.Skip }

/-- The world of the examples with a file at address 5 that is configured with
a path and no match expression. -/
def emptyWorld : World := sampleWorld.setFile 5 (reservedFile "empty.log")

/-- Whether the loop of `fileWatcherTicker` passes a file over: the file is
active or its retries are used up. -/
def passedOver (w : World) (item : FilePtr) : Bool :=
  Active w item || decide (maxRetries ≤ (w.heap item).retries)

/-- The world in which `fileWatcherTicker` calls `addFileWatcher` for a file:
the retries of the file are one up and its "Retries" counter is one up. -/
def beforeRestart (w : World) (item : FilePtr) : World :=
  (w.setFile item { w.heap item with retries := (w.heap item).retries + 1 }).count
    ((w.heap item).Path ++ " Retries") 1

/-- The restart attempts of the loop of `fileWatcherTicker`, in order: each
file handed to `addFileWatcher`, with whether nil came back. The loop is
followed as in `tickerLoop`; an attempt that panics or blocks is the last. -/
def tickerLog (env : Env) : World → List FilePtr → List (FilePtr × Bool)
  | _, [] => []
  | w, item :: rest =>
    if passedOver w item then tickerLog env w rest
    else
      match addFileWatcher env (beforeRestart w item) item with
      | (w2, Outcome.returned (some _)) =>
        (item, false) :: tickerLog env (w2.count ((w2.heap item).Path ++ " Errors") 1) rest
      | (w2, Outcome.returned none) =>
        (item, true) :: tickerLog env
          ((w2.setFile item { w2.heap item with retries := 0 }).count
            ((w2.heap item).Path ++ " Restarts") 1) rest
      | (_, Outcome.panicked _) => [(item, false)]
      | (_, Outcome.blocked) => [(item, false)]

/-- The restart attempts of one call of `fileWatcherTicker`. -/
def fileWatcherTickerLog (env : Env) (w : World) (died : Bool) : List (FilePtr × Bool) :=
  if !died then [] else tickerLog env w w.files

/-- What happens between two looks at the watcher, as far as restarts go: a
maintenance tick, with the `died` flag the loop has then, or a change of the
shared state by anything else. -/
inductive TickItem where
  | tick (died : Bool)
  | other (f : World → World)

/-- The restart attempts over a sequence of ticks and other changes, in order.
A tick that panics or blocks ends the loop, and with it the ticks. -/
def ticksLog (env : Env) : World → List TickItem → List (FilePtr × Bool)
  | _, [] => []
  | w, TickItem.tick died :: rest =>
    fileWatcherTickerLog env w died ++
      (match fileWatcherTicker env w died with
        | (w1, Outcome.returned _) => ticksLog env w1 rest
        | (_, Outcome.panicked _) => []
        | (_, Outcome.blocked) => [])
  | w, TickItem.other f :: rest => ticksLog env (f w) rest

/-- The world after a sequence of ticks and other changes; a tick that panics
or blocks is the last. -/
def runTicks (env : Env) : World → List TickItem → World
  | w, [] => w
  | w, TickItem.tick died :: rest =>
    match fileWatcherTicker env w died with
    | (w1, Outcome.returned _) => runTicks env w1 rest
    | (w1, Outcome.panicked _) => w1
    | (w1, Outcome.blocked) => w1
  | w, TickItem.other f :: rest => runTicks env (f w) rest

/-- The number of attempts for a file that failed since its last restart that
went through, after the attempts of a log, starting from `n`. -/
def failedSince (p : FilePtr) : Nat → List (FilePtr × Bool) → Nat
  | n, [] => n
  | n, (q, ok) :: rest =>
    if q = p then (if ok then failedSince p 0 rest else failedSince p (n + 1) rest)
    else failedSince p n rest

/-- The world of the examples after the tail of `app.log` has closed: the file
is inactive, its retries are 0. -/
def deadWorld : World := sampleWorld.setFile 2 { appLog with tail := none }

/-- The outside world of the examples, except that no tail opens. -/
def failEnv : Env := { sampleEnv with tailFile := fun _ _ => none }

/-- The largest value the number of failed attempts for a file since its last
restart that went through takes over a log, starting from `n`. -/
def worstFailed (p : FilePtr) : Nat → List (FilePtr × Bool) → Nat
  | n, [] => n
  | n, (q, ok) :: rest =>
    if q = p then (if ok then max n (worstFailed p 0 rest) else worstFailed p (n + 1) rest)
    else worstFailed p n rest

/-- The world of the examples after `any.log`, which was added at run time and
is not among the configured files, has lost its tail. -/
def addedDeadWorld : World := sampleWorld.setFile 3 { anyLog with tail := none }

/-- The world of the examples with one configured file, at address 5, that has
a path and no match expression and has not been set up. -/
def unsetWorld : World := { emptyWorld with files := [5] }

end filewatch
end Notifiarr


namespace Notifiarr
namespace filewatch

/-- The first test of `checkLineMatch`:
`tail.re == nil || line.Text == "" || !tail.re.MatchString(line.Text)`. -/
def noMatch (env : Env) (f : WatchFile) (text : String) : Bool :=
  match f.re with
  | none => true
  | some re => text == "" || !env.MatchString re text

/-- A file, after `setup`, whose match expression matches every line and whose
`Skip` is empty. -/
def rawLog : WatchFile :=
  ⟨"raw.log", ".*", "", false, false, false, false,
    some ⟨".*"⟩, some ⟨""⟩, some ⟨15⟩, 0⟩

/-- The world of the examples with `rawLog` at address 6. -/
def rawWorld : World := sampleWorld.setFile 6 rawLog

/-- The value of a counter of `mnd.FileWatcher`; a counter that was never
added to stands at 0. -/
def World.counter (w : World) (key : String) : Int :=
  (w.metrics key).getD 0

/-- How many of the requests handed to `SendData` carry a match of the file
with this path. -/
def sentFor (w : World) (path : String) : Nat :=
  (w.sent.filter (fun r => r.PayloadFile == path)).length

/-- The validation part of `setup`: a match expression is given, and both
expressions compile. -/
def validates (env : Env) (f : WatchFile) : Bool :=
  f.Regexp != "" && (env.compile f.Regexp).isSome && (env.compile f.Skip).isSome

/-- The world of the examples with `app.log` and `any.log` both configured and
both inactive after their tails have closed, their retries at 0; the add
channel is open and empty. -/
def twoDeadWorld : World :=
  { (sampleWorld.setFile 2 { appLog with tail := none }).setFile 3
      { anyLog with tail := none } with files := [2, 3] }

/-- The maintenance tick as `reflect.Select` hands it to the loop. -/
def tickEvent : Event := ⟨1, Data.time, true⟩

/-- Go `cmd.checkLineMatch` with what a panic of `c.SendData` does to it.
`SendData` is not among the sources; `sendPanics k` says whether its call
panics when `k` requests have been handed over before. `checkLineMatch` has no
deferred function, so the panic leaves it at once, with the world as it is at
the call. -/
def checkLineMatchMay (env : Env) (sendPanics : Nat → Bool) (w : World) (text : String)
    (p : FilePtr) : World × Outcome Unit :=
  let tail := w.heap p
  match tail.re with
  | none => (w, Outcome.returned ())
  | some re =>
    if text = "" || !env.MatchString re text then (w, Outcome.returned ())
    else if (match tail.skip with
        | none => false
        | some sk => tail.Skip != "" && env.MatchString sk text) then
      (w.count (tail.Path ++ " Skipped") 1, Outcome.returned ())
    else
      let w1 := w.count (tail.Path ++ " Matched") 1
      let m : Match :=
        { File := tail.Path, Line := TrimSpace text, Matches := env.FindAllString re text }
      let w2 := { w1 with pours := w1.pours + 1 }
      if !env.pour w1.pours then
        (w2.count (tail.Path ++ " Dropped") 1, Outcome.returned ())
      else if sendPanics w2.sent.length then
        (w2, Outcome.panicked "panic in SendData")
      else
        ({ w2 with sent := w2.sent ++ [{
            Route := env.LogLineRoute
            Event := env.EventFile
            LogPayload := tail.LogMatch
            LogMsg := "Watched-File Line Match: " ++ tail.Path ++ ": " ++ m.Line
            PayloadFile := m.File
            PayloadMatches := m.Matches
            PayloadLine := m.Line }] }, Outcome.returned ())

/-- The `default` branch of the switch of `tailFiles`, for the line of the
file `item`: nothing in the branch or around it in the loop recovers from a
panic, so a panic of the handling leaves the loop, before the "Bytes" counter
is reached. -/
def onLine (env : Env) (sendPanics : Nat → Bool) (w : World) (st : LoopState)
    (item : FilePtr) (text : String) : LoopCfg :=
  let w1 := w.count ((w.heap item).Path ++ " Lines") 1
  match checkLineMatchMay env sendPanics w1 text item with
  | (w2, Outcome.returned _) =>
    ⟨w2.count ((w.heap item).Path ++ " Bytes") text.utf8ByteSize, st, Status.running⟩
  | (w2, Outcome.panicked msg) => ⟨w2, st, Status.panicked msg⟩
  | (w2, Outcome.blocked) => ⟨w2, st, Status.blocked⟩

/-- The text of a `*tail.Line`. -/
def Data.text : Data → Option String
  | Data.line text => some text
  | _ => none

/-- One turn of the loop of `tailFiles` where `SendData` may panic: the line
of a data source goes through `onLine`, every other event is as in `loopStep`. -/
def loopStepMay (env : Env) (sendPanics : Nat → Bool) (w : World) (st : LoopState)
    (ev : Event) : LoopCfg :=
  if ev.selectable st.cases && ev.running && decide (specialCase ≤ ev.idx) then
    match ev.data.text with
    | some text =>
      match st.tails[ev.idx]? with
      | some item => onLine env sendPanics w st item text
      | none => ⟨w, st, Status.panicked "index out of range"⟩
    | none => loopStep env w st ev
  else loopStep env w st ev

/-- One item taken by a running loop, where `SendData` may panic. -/
def applyItemMay (env : Env) (sendPanics : Nat → Bool) (c : LoopCfg) : Item → LoopCfg
  | Item.ev e => loopStepMay env sendPanics c.w c.st e
  | Item.env f => { c with w := f c.w }

/-- The loop of `tailFiles` over a sequence of items, where `SendData` may
panic: the configuration reached and the items left over once the loop has
stopped running. -/
def runLoopMay (env : Env) (sendPanics : Nat → Bool) : LoopCfg → List Item → LoopCfg × List Item
  | c, [] => (c, [])
  | c, it :: rest =>
    if c.status = Status.running then
      runLoopMay env sendPanics (applyItemMay env sendPanics c it) rest
    else (c, it :: rest)

/-- Go `tailFiles` from a configuration of its loop, where `SendData` may
panic: when the loop leaves, by `return` or by a panic, the deferred function
runs. -/
def tailFilesMay (env : Env) (sendPanics : Nat → Bool) (c : LoopCfg) (items : List Item) :
    LoopCfg × List Item :=
  let r := runLoopMay env sendPanics c items
  match r.1.status with
  | Status.returned =>
    match tailFilesDeferred r.1.w with
    | (w1, none) => ({ r.1 with w := w1 }, r.2)
    | (w1, some msg) => ({ r.1 with w := w1, status := Status.panicked msg }, r.2)
  | Status.panicked msg =>
    match tailFilesDeferred r.1.w with
    | (w1, none) => ({ r.1 with w := w1, status := Status.panicked msg }, r.2)
    | (w1, some msg1) => ({ r.1 with w := w1, status := Status.panicked msg1 }, r.2)
  | _ => r

/-- The world of the examples with `app.log` and `raw.log` both watched. -/
def twoWorld : World := { rawWorld with files := [2, 6] }

/-- The loop on `twoWorld`: the add channel, the ticker, `app.log`, `raw.log`. -/
def twoCfg : LoopCfg :=
  ⟨twoWorld, ⟨[10, 11, 12, 15], [0, 1, 2, 6], false⟩, Status.running⟩

/-- The outside world of the examples, except that stopping a tail returns an
error. -/
def stopFailEnv : Env := { sampleEnv with tailStopFails := fun _ _ => true }

/-- The outside world of the examples, except that the first call that stops a
tail returns an error. -/
def firstStopFailEnv : Env := { sampleEnv with tailStopFails := fun k _ => k == 0 }

/-- The loop on the world of the examples after `any.log` has been added at
run time: the add channel, the ticker, `app.log`, `any.log`; `app.log` is the
one configured file. -/
def addedCfg : LoopCfg :=
  ⟨sampleWorld, ⟨[10, 11, 12, 13], [0, 1, 2, 3], false⟩, Status.running⟩

/-- The loop `for _, item := range c.files` of `cmd.run`, with `validTails` so
far: a file whose `setup` returns an error is left out. -/
def runSetups (env : Env) : World → List FilePtr → List FilePtr → World × List FilePtr
  | w, [], validTails => (w, validTails)
  | w, item :: rest, validTails =>
    match setup env w item with
    | (w1, some _) => runSetups env w1 rest validTails
    | (w1, none) => runSetups env w1 rest (validTails ++ [item])

/-- The loop `for idx, item := range tails` of `collectFileTails` from index
`idx` on: the select cases made, by their channels. Reading the `Lines` of a
nil tail handle is a nil dereference. -/
def collectLoop (addId tickerId : Chan) : World → Nat → List FilePtr → World × Outcome (List Chan)
  | w, _, [] => (w, Outcome.returned [])
  | w, idx, item :: rest =>
    let head : World × Outcome Chan :=
      if idx = 0 then (w, Outcome.returned addId)
      else if idx = 1 then (w, Outcome.returned tickerId)
      else
        match (w.heap item).tail with
        | none => (w, Outcome.panicked "invalid memory address or nil pointer dereference")
        | some t =>
          (if (w.metrics ((w.heap item).Path ++ " Matched")).isNone then
              w.count ((w.heap item).Path ++ " Matched") 0
            else w, Outcome.returned t.Lines)
    match head with
    | (w1, Outcome.returned ch) =>
      match collectLoop addId tickerId w1 (idx + 1) rest with
      | (w2, Outcome.returned chans) => (w2, Outcome.returned (ch :: chans))
      | (w2, Outcome.panicked msg) => (w2, Outcome.panicked msg)
      | (w2, Outcome.blocked) => (w2, Outcome.blocked)
    | (w1, Outcome.panicked msg) => (w1, Outcome.panicked msg)
    | (w1, Outcome.blocked) => (w1, Outcome.blocked)

/-- Go `cmd.collectFileTails`: the two channels are made, with the given new
identities, then the cases are collected. The ticker is known by its channel. -/
def collectFileTails (w : World) (addId stopId tickerId : Chan) (tails : List FilePtr) :
    World × Outcome (List Chan) :=
  collectLoop addId tickerId
    { w with addWatcher := some ⟨addId, [], false⟩, stopWatcher := some ⟨stopId, false⟩ }
    0 tails

/-- The two fake tails that `cmd.run` makes for the internal channels, at the
new addresses `a0` and `a1`. -/
def makeReserved (w : World) (a0 a1 : FilePtr) : World :=
  (w.setFile a0 (reservedFile "/add watcher channel/")).setFile a1
    (reservedFile "/retry ticker/")

/-- Go `cmd.run`: the two reserved files are made at the new addresses `a0`
and `a1`, every configured file is set up, and the loop of `tailFiles` is
started in its own goroutine: what is returned is the configuration that loop
starts from, if it is started. -/
def cmd.run (env : Env) (w : World) (a0 a1 : FilePtr) (addId stopId tickerId : Chan) :
    World × Outcome (Option LoopCfg) :=
  let w0 := makeReserved w a0 a1
  let r := runSetups env w0 w0.files [a0, a1]
  if r.2.length != 0 then
    match collectFileTails r.1 addId stopId tickerId r.2 with
    | (w1, Outcome.returned cases) =>
      (w1, Outcome.returned (some ⟨w1, ⟨cases, r.2, false⟩, Status.running⟩))
    | (w1, Outcome.panicked msg) => (w1, Outcome.panicked msg)
    | (w1, Outcome.blocked) => (w1, Outcome.blocked)
  else (r.1, Outcome.returned none)

/-- The calls of `setup` that the loop of `cmd.run` makes, in order: each file
with what its call returned. -/
def setupLog (env : Env) : World → List FilePtr → List (FilePtr × Option Err)
  | _, [] => []
  | w, item :: rest => (item, (setup env w item).2) :: setupLog env (setup env w item).1 rest

/-- The files of a log of `setup` calls whose call returned nil. -/
def setUp (log : List (FilePtr × Option Err)) : List FilePtr :=
  (log.filter (fun e => e.2.isNone)).map Prod.fst

/-- The world of the examples before `run`: three files are configured and
none is set up: `app.log` at 2, `empty.log` without match expression at 5,
`raw.log` at 6; no channel is made. -/
def freshWorld : World :=
  { ((sampleWorld.setFile 2 { appLog with re := none, skip := none, tail := none }).setFile 5
      (reservedFile "empty.log")).setFile 6
        { rawLog with re := none, skip := none, tail := none } with
    files := [2, 5, 6], addWatcher := none, stopWatcher := none }

end filewatch
end Notifiarr

namespace Notifiarr
namespace mnd

/-- Day of year leap day falls on. -/
def leapDay : Int := 60

/-- The number `today` gives on leap day. -/
def altLeapDay : Int := 366

/-- The year, month and day of a `time.Time`; the month is 1 for January. -/
structure Date where
  Year : Int
  Month : Nat
  Day : Nat
  deriving DecidableEq, Repr

/-- The leap year test of Go package `time`:
`year%4 == 0 && (year%100 != 0 || year%400 == 0)`; the `%` of Go truncates
toward zero. -/
def timeIsLeap (year : Int) : Bool :=
  year.tmod 4 == 0 && (year.tmod 100 != 0 || year.tmod 400 == 0)

/-- The table `daysBefore` of Go package `time`: the days of a non-leap year
before the first of the month. -/
def daysBefore : Nat → Nat
  | 1 => 0
  | 2 => 31
  | 3 => 59
  | 4 => 90
  | 5 => 120
  | 6 => 151
  | 7 => 181
  | 8 => 212
  | 9 => 243
  | 10 => 273
  | 11 => 304
  | 12 => 334
  | _ => 0

/-- The number of days of a month, as in Go package `time`. -/
def daysIn (year : Int) (month : Nat) : Nat :=
  if month = 2 then (if timeIsLeap year then 29 else 28)
  else if month = 4 ∨ month = 6 ∨ month = 9 ∨ month = 11 then 30
  else 31

/-- A date of the calendar. -/
def Date.valid (d : Date) : Bool :=
  decide (1 ≤ d.Month) && decide (d.Month ≤ 12) && decide (1 ≤ d.Day) &&
    decide (d.Day ≤ daysIn d.Year d.Month)

/-- Go `time.Time.YearDay`: the day of the year, from 1 to 365, or to 366 in a
leap year. -/
def YearDay (d : Date) : Int :=
  ((daysBefore d.Month + d.Day + (if timeIsLeap d.Year && decide (3 ≤ d.Month) then 1 else 0) :
    Nat) : Int)

/-- Go `isLeapYear`. -/
def isLeapYear (year : Int) : Bool :=
  year.tmod 400 == 0 || (year.tmod 4 == 0 && year.tmod 100 != 0)

/-- Go `today`. -/
def today (when : Date) : Int :=
  let today := YearDay when
  if !isLeapYear when.Year || decide (today < leapDay) then today
  else if today == leapDay then altLeapDay
  else today - 1

/-- Go `emojiMonth`. -/
def emojiMonth (when : Date) : String :=
  match when.Month with
  | 1 => "🤖"
  | 2 => "😻"
  | 3 => "🗼"
  | 4 => "🌧"
  | 5 => "🌸"
  | 6 => "🍄"
  | 7 => "🌵"
  | 8 => "🔥"
  | 9 => "🐸"
  | 10 => "🍁"
  | 11 => "👽"
  | 12 => "⛄"
  | _ => ""

/-- The map of `TodaysEmoji`, from the number `today` gives to the emoji. -/
def emojiTable : List (Int × String) :=
  [(1, "🎉"), (45, "💝"), (185, "🧨"), (229, "🏄"), (254, "⛑"), (304, "🎃"),
    (315, "🪖"), (328, "🦃"), (359, "🎄"), (altLeapDay, "🤹")]

/-- Go `TodaysEmoji`, for a program started at the given date. -/
def TodaysEmoji (started : Date) : String :=
  match emojiTable.lookup (today started) with
  | some emoji => emoji
  | none => emojiMonth started

/-- The dates the comments of the map of `TodaysEmoji` name, as month and day,
with the key each stands at. -/
def namedDates : List (Int × Nat × Nat) :=
  [(1, 1, 1), (45, 2, 14), (185, 7, 4), (229, 8, 17), (254, 9, 11), (304, 10, 31),
    (315, 11, 11), (328, 11, 24), (359, 12, 25), (366, 2, 29)]

end mnd
end Notifiarr

namespace Notifiarr
namespace website

/-- Go `http.StatusInternalServerError`. -/
def StatusInternalServerError : Int := 500

/-- Go `http.StatusBadRequest`. -/
def StatusBadRequest : Int := 400

/-- The errors of `h.Client.Do` as `httpClient.Do` tells them apart:
`errors.Is(err, context.DeadlineExceeded)`, `errors.Is(err, context.Canceled)`,
or neither. -/
inductive ClientErr where
  | deadlineExceeded
  | canceled
  | other
  deriving DecidableEq, Repr

/-- What `httpClient.Do` reads of a response: the status code and the
`content-type` header. -/
structure Resp where
  StatusCode : Int
  contentType : String
  deriving DecidableEq, Repr

/-- What one call of `h.Client.Do(req)` gives: a response with a nil error, or
an error. -/
inductive Attempt where
  | response (resp : Resp)
  | error (err : ClientErr)
  deriving DecidableEq, Repr

/-- The errors `httpClient.Do` returns. -/
inductive DoErr where
  /-- "website req timed out", wrapping the error of the attempt. -/
  | timedOut (err : ClientErr)
  /-- "website req failed", wrapping `ErrNon200`. -/
  | failedNon200
  /-- "website req failed", wrapping the error of the attempt. -/
  | failed (err : ClientErr)
  deriving DecidableEq, Repr

/-- What `httpClient.Do` returns, with the number of calls of `h.Client.Do` it
has made and the number of times it has slept. -/
structure DoResult where
  resp : Option Resp
  err : Option DoErr
  attempts : Nat
  sleeps : Nat
  deriving DecidableEq, Repr

/-- The test on a response in `httpClient.Do`:
`resp.StatusCode < http.StatusInternalServerError &&
(resp.StatusCode != http.StatusBadRequest || resp.Header.Get("content-type") != "text/html")`. -/
def Resp.accepted (resp : Resp) : Bool :=
  decide (resp.StatusCode < StatusInternalServerError) &&
    (resp.StatusCode != StatusBadRequest || resp.contentType != "text/html")

/-- Whether `errors.Is(err, context.DeadlineExceeded)` or
`errors.Is(err, context.Canceled)`. -/
def ClientErr.isContext : ClientErr → Bool
  | ClientErr.deadlineExceeded => true
  | ClientErr.canceled => true
  | ClientErr.other => false

/-- The loop `for retry := 0; ; retry++` of `httpClient.Do` from the given
value of `retry`, for at most `fuel` turns; `outcomes k` is what the call of
`h.Client.Do` gives in the turn with `retry = k`. The error made from a
response that is not accepted wraps `ErrNon200`, which is no context error. -/
def doLoop (Retries : Int) (outcomes : Nat → Attempt) : Nat → Nat → Option DoResult
  | 0, _ => none
  | fuel + 1, retry =>
    match outcomes retry with
    | Attempt.response resp =>
      if resp.accepted then some ⟨some resp, none, retry + 1, retry⟩
      else if (retry : Int) = Retries then
        some ⟨some resp, some DoErr.failedNon200, retry + 1, retry⟩
      else doLoop Retries outcomes fuel (retry + 1)
    | Attempt.error err =>
      if err.isContext then some ⟨none, some (DoErr.timedOut err), retry + 1, retry⟩
      else if (retry : Int) = Retries then
        some ⟨none, some (DoErr.failed err), retry + 1, retry⟩
      else doLoop Retries outcomes fuel (retry + 1)

/-- Go `httpClient.Do` for at most `fuel` turns of its loop; `none` when the
loop has not returned by then. -/
def httpClient.Do (Retries : Int) (outcomes : Nat → Attempt) (fuel : Nat) : Option DoResult :=
  doLoop Retries outcomes fuel 0

/-- An attempt that ends the loop with a nil error. -/
def Attempt.good : Attempt → Bool
  | Attempt.response resp => resp.accepted
  | Attempt.error _ => false

/-- An attempt that fails with context deadline exceeded or cancelled. -/
def Attempt.contextError : Attempt → Bool
  | Attempt.response _ => false
  | Attempt.error err => err.isContext

/-- The attempts of the examples: a 502, then an error that is no context
error, then a 200, then errors. -/
def sampleOutcomes : Nat → Attempt
  | 0 => Attempt.response ⟨502, "text/html"⟩
  | 1 => Attempt.error ClientErr.other
  | 2 => Attempt.response ⟨200, "application/json"⟩
  | _ => Attempt.error ClientErr.other

end website

namespace client

/-- A custom timer of `c.triggers.CronTimer.List()`, known by its name. -/
structure Timer where
  Name : String
  deriving DecidableEq, Repr

/-- What happens on a menu channel: a click is received, or the channel is
found closed. -/
inductive MenuEvent where
  | click (ch : Chan)
  | closed (ch : Chan)
  deriving DecidableEq, Repr

/-- The channel of a menu event. -/
def MenuEvent.chan : MenuEvent → Chan
  | MenuEvent.click ch => ch
  | MenuEvent.closed ch => ch

/-- Where the loop of `buildDynamicTimerMenus` stands. -/
inductive MenuStatus where
  | running
  | returned
  | panicked (msg : String)
  /-- The loop was offered an event on a channel it does not select on. -/
  | infeasible
  deriving DecidableEq, Repr

/-- The select cases left, the timers run so far, latest last, and where the
loop stands. -/
structure MenuCfg where
  cases : List Chan
  ran : List Timer
  status : MenuStatus
  deriving DecidableEq, Repr

/-- One turn of the loop of `buildDynamicTimerMenus`: `reflect.Select(cases)`
hands back the index of the channel of the event among the cases, with `ok`
true for a click; then `timers[idx].Run` on a click, and on a closed channel
`cases = append(cases[:idx], cases[idx+1:]...)` and the return when no case is
left. The slice `timers` stays as it is. -/
def menuStep (timers : List Timer) (cases : List Chan) (ran : List Timer) (ev : MenuEvent) :
    MenuCfg :=
  let idx := cases.indexOf ev.chan
  if idx < cases.length then
    match ev with
    | MenuEvent.click _ =>
      match timers[idx]? with
      | some timer => ⟨cases, ran ++ [timer], MenuStatus.running⟩
      | none => ⟨cases, ran, MenuStatus.panicked "index out of range"⟩
    | MenuEvent.closed _ =>
      if (cases.eraseIdx idx).length < 1 then ⟨cases.eraseIdx idx, ran, MenuStatus.returned⟩
      else ⟨cases.eraseIdx idx, ran, MenuStatus.running⟩
  else ⟨cases, ran, MenuStatus.infeasible⟩

/-- The loop of `buildDynamicTimerMenus` over a sequence of events. -/
def menuLoop (timers : List Timer) : MenuCfg → List MenuEvent → MenuCfg
  | c, [] => c
  | c, ev :: rest =>
    if c.status = MenuStatus.running then menuLoop timers (menuStep timers c.cases c.ran ev) rest
    else c

/-- Go `buildDynamicTimerMenus`, as far as the channels go: `chans` are the
`ClickedCh` channels of the menu items, one for each timer in order; with no
timer the function returns at once. -/
def buildDynamicTimerMenus (timers : List Timer) (chans : List Chan)
    (events : List MenuEvent) : MenuCfg :=
  if timers.length = 0 then ⟨[], [], MenuStatus.returned⟩
  else menuLoop timers ⟨chans, [], MenuStatus.running⟩ events

end client
end Notifiarr
namespace Notifiarr
namespace common

/-- The scan of `Get` finds nothing exactly when no entry carries the name. -/
theorem getLoop_eq_none_iff (l : List Action) (n : TriggerName) :
    getLoop l n = none ↔ ∀ a ∈ l, a.Name ≠ n := by
  induction l with
  | nil => simp [getLoop]
  | cons x xs ih =>
    by_cases hx : x.Name = n
    · simp [getLoop, hx]
    · simp [getLoop, hx, ih]

/-- A result of the scan of `Get` splits the list at the first entry with the name. -/
theorem getLoop_eq_some_split (l : List Action) (n : TriggerName) (a : Action)
    (h : getLoop l n = some a) :
    ∃ pre post, l = pre ++ a :: post ∧ a.Name = n ∧ ∀ b ∈ pre, b.Name ≠ n := by
  induction l with
  | nil => simp [getLoop] at h
  | cons x xs ih =>
    by_cases hx : x.Name = n
    · simp [getLoop, hx] at h
      subst h
      exact ⟨[], xs, rfl, hx, by simp⟩
    · simp [getLoop, hx] at h
      obtain ⟨pre, post, hl, hn, hp⟩ := ih h
      refine ⟨x :: pre, post, by simp [hl], hn, ?_⟩
      intro b hb
      rcases List.mem_cons.mp hb with hb | hb
      · subst hb; exact hx
      · exact hp b hb

/-- The scan of `Get` over two lists in a row. -/
theorem getLoop_append (l m : List Action) (n : TriggerName) :
    getLoop (l ++ m) n = (getLoop l n).orElse (fun _ => getLoop m n) := by
  induction l with
  | nil => simp [getLoop, Option.orElse]
  | cons x xs ih =>
    by_cases hx : x.Name = n
    · simp [getLoop, hx, Option.orElse]
    · simp [getLoop, hx, ih]

/-- C1: `Exec` returns false and performs no channel operation when the
registry is not running, the name is unknown, or the action found has a nil
channel; in every other case it returns true and its only channel operation is
one send of the input on the channel of the action that `Get` returns. -/
theorem exec_contract (c : Config) (input : Option ActionInput) (name : TriggerName) :
    ((c.stop = none ∨ c.Get name = none ∨ ∃ a, c.Get name = some a ∧ a.C = none) →
      c.Exec input name = (false, [])) ∧
    (¬ (c.stop = none ∨ c.Get name = none ∨ ∃ a, c.Get name = some a ∧ a.C = none) →
      ∃ a ch, c.Get name = some a ∧ a.C = some ch ∧
        c.Exec input name = (true, [ChanOp.send ch input])) := by
  unfold Config.Exec
  cases hs : c.stop with
  | none => simp
  | some s =>
    cases hg : c.Get name with
    | none => simp
    | some a =>
      cases hc : a.C with
      | none => simp [hc]
      | some ch => simp [hc]

/-- C1 at a running registry with two actions: the send goes to the channel of
the action named, and to no other. -/
theorem exec_contract_witness :
    ∃ a ch, (Config.mk (some ⟨"stop", 0, some 9, none, true⟩)
        [⟨"a", 1, some 3, none, false⟩, ⟨"b", 2, some 4, none, false⟩] none).Get "b" = some a ∧
      a.C = some ch ∧
      (Config.mk (some ⟨"stop", 0, some 9, none, true⟩)
        [⟨"a", 1, some 3, none, false⟩, ⟨"b", 2, some 4, none, false⟩] none).Exec
          (some ⟨"user", []⟩) "b" = (true, [ChanOp.send ch (some ⟨"user", []⟩)]) :=
  (exec_contract _ (some ⟨"user", []⟩) "b").2 (by decide)

/-- C2: `Get` returns nil exactly when no action of the list has the name, and
otherwise the first action of the list, in list order, with that name; it is a
total function of the list, which it leaves as it is. -/
theorem get_first_match (c : Config) (n : TriggerName) :
    (c.Get n = none ↔ ∀ a ∈ c.list, a.Name ≠ n) ∧
    (∀ a, c.Get n = some a →
      ∃ pre post, c.list = pre ++ a :: post ∧ a.Name = n ∧ ∀ b ∈ pre, b.Name ≠ n) ∧
    ((∃ a ∈ c.list, a.Name = n) → ∃ a, c.Get n = some a) := by
  refine ⟨getLoop_eq_none_iff c.list n, fun a h => getLoop_eq_some_split c.list n a h, ?_⟩
  rintro ⟨a, ha, hn⟩
  cases hg : c.Get n with
  | some b => exact ⟨b, rfl⟩
  | none => exact absurd hn ((getLoop_eq_none_iff c.list n).mp hg a ha)

/-- C2 on a list holding the name twice: the first of the two is returned. -/
theorem get_first_match_witness :
    ∃ a, (Config.mk none
      [⟨"a", 1, some 3, none, false⟩, ⟨"b", 2, some 4, none, false⟩,
       ⟨"b", 5, none, none, true⟩] none).Get "b" = some a :=
  (get_first_match _ "b").2.2 ⟨⟨"b", 2, some 4, none, false⟩, by decide, by decide⟩

/-- C3: `Exec` returns false, with no channel operation, for every name that no
action of the list carries; and in the registry left by a completed `Stop` it
returns false, with no channel operation, for every name and every input. -/
theorem exec_false_when_absent_or_stopped (c : Config) :
    (∀ input name, (∀ a ∈ c.list, a.Name ≠ name) → c.Exec input name = (false, [])) ∧
    (∀ event ops c', Config.Stop (some c) event = (ops, Outcome.returned c') →
      ∀ input name, c'.Exec input name = (false, [])) := by
  constructor
  · intro input name h
    have hg : c.Get name = none := (getLoop_eq_none_iff c.list name).mpr h
    unfold Config.Exec
    rw [hg]
    cases c.stop <;> rfl
  · intro event ops c' h input name
    unfold Config.Stop at h
    cases hs : c.stop with
    | none => simp [hs] at h
    | some s =>
      cases hc : s.C with
      | none => simp [hs, hc] at h
      | some ch =>
        simp [hs, hc] at h
        obtain ⟨-, h⟩ := h
        subst h
        simp [Config.Exec]

/-- C3 after a completed `Stop` of a running registry: a registered action
with an input channel is no longer reached. -/
theorem exec_false_when_absent_or_stopped_witness :
    (Config.mk none [⟨"a", 1, some 3, none, false⟩] none).Exec (some ⟨"user", []⟩) "a"
      = (false, []) :=
  (exec_false_when_absent_or_stopped
    (Config.mk (some ⟨"stop", 0, some 9, none, true⟩) [⟨"a", 1, some 3, none, false⟩] none)).2
    "reload" _ _ rfl (some ⟨"user", []⟩) "a"

/-- C4: `Stop` panics exactly when the receiver is nil or the registry is not
running; a panicking `Stop` has made no channel operation; a `Stop` that
returns leaves the registry not running, and every further `Stop` on that
registry panics without a channel operation. -/
theorem stop_panics_iff (c : Option Config) (event : EventType) :
    ((∃ msg, (Config.Stop c event).2 = Outcome.panicked msg) ↔
      (c = none ∨ ∃ cfg, c = some cfg ∧ cfg.stop = none)) ∧
    ((∃ msg, (Config.Stop c event).2 = Outcome.panicked msg) → (Config.Stop c event).1 = []) ∧
    (∀ c', (Config.Stop c event).2 = Outcome.returned c' →
      c'.stop = none ∧
      ∀ event', ∃ msg, Config.Stop (some c') event' = ([], Outcome.panicked msg)) := by
  unfold Config.Stop
  cases c with
  | none => simp
  | some cfg =>
    cases hs : cfg.stop with
    | none => simp [hs]
    | some s =>
      cases hc : s.C with
      | none => simp [hs, hc]
      | some ch => simp [hs, hc]

/-- C5: `Add` leaves the list as the previous list followed by the arguments in
order; a name that `Get` found before is still answered by the same action, and
a name that it did not find is answered by the first argument carrying it, or
by nil when there is none. -/
theorem add_appends (c : Config) (action : List Action) (n : TriggerName) :
    (c.Add action).list = c.list ++ action ∧
    (∀ a, c.Get n = some a → (c.Add action).Get n = some a) ∧
    (c.Get n = none →
      (c.Add action).Get n = getLoop action n ∧
      ((c.Add action).Get n = none ↔ ∀ a ∈ action, a.Name ≠ n) ∧
      (∀ a, (c.Add action).Get n = some a →
        ∃ pre post, action = pre ++ a :: post ∧ a.Name = n ∧ ∀ b ∈ pre, b.Name ≠ n)) := by
  refine ⟨rfl, ?_, ?_⟩
  · intro a h
    show getLoop (c.list ++ action) n = some a
    rw [getLoop_append]
    have h' : getLoop c.list n = some a := h
    simp [h', Option.orElse]
  · intro h
    have h' : getLoop c.list n = none := h
    have e : (c.Add action).Get n = getLoop action n := by
      show getLoop (c.list ++ action) n = getLoop action n
      rw [getLoop_append]
      simp [h', Option.orElse]
    refine ⟨e, ?_, ?_⟩
    · rw [e]; exact getLoop_eq_none_iff action n
    · intro a ha
      rw [e] at ha
      exact getLoop_eq_some_split action n a ha

/-- C5 with a duplicate name among the added actions: the existing
registration keeps answering. -/
theorem add_appends_witness :
    ((Config.mk none [⟨"a", 1, some 3, none, false⟩] none).Add
      [⟨"a", 7, some 8, none, false⟩]).Get "a" = some ⟨"a", 1, some 3, none, false⟩ :=
  (add_appends (Config.mk none [⟨"a", 1, some 3, none, false⟩] none)
    [⟨"a", 7, some 8, none, false⟩] "a").2.1 _ (by decide)

end common
end Notifiarr

namespace Notifiarr
namespace filewatch

/-- A loop that is not running takes no item. -/
theorem runLoop_of_not_running (env : Env) (c : LoopCfg) (items : List Item)
    (h : c.status ≠ Status.running) : runLoop env c items = (c, items) := by
  cases items with
  | nil => rfl
  | cons it rest => simp [runLoop, h]

/-- Unfolding of the run at its first item. -/
theorem runLoop_cons (env : Env) (c : LoopCfg) (it : Item) (rest : List Item)
    (h : c.status = Status.running) :
    runLoop env c (it :: rest) = runLoop env (applyItem env c it) rest := by
  simp [runLoop, h]

/-- An event that `reflect.Select` cannot produce changes nothing. -/
theorem loopStep_not_selectable (env : Env) (w : World) (st : LoopState) (ev : Event)
    (h : ev.selectable st.cases = false) :
    loopStep env w st ev = ⟨w, st, Status.infeasible⟩ := by
  simp [loopStep, h]

/-- A selectable event has its index below the number of cases. -/
theorem selectable_lt (cases : List Chan) (ev : Event) (h : ev.selectable cases = true) :
    ev.idx < cases.length := by
  simp only [Event.selectable, Bool.and_eq_true, decide_eq_true_eq] at h
  exact h.1

/-- A closed event on a data source removes the entry at its index from both
lists, whatever stopping the tail does. -/
theorem loopStep_close (env : Env) (w : World) (st : LoopState) (ev : Event)
    (hsel : ev.selectable st.cases = true) (hc : ev.isClose = true)
    (hlen : st.cases.length = st.tails.length) :
    (loopStep env w st ev).st.cases = st.cases.eraseIdx ev.idx ∧
    (loopStep env w st ev).st.tails = st.tails.eraseIdx ev.idx := by
  have hlt := selectable_lt _ _ hsel
  simp only [Event.isClose, Bool.and_eq_true, Bool.not_eq_true', decide_eq_true_eq,
    specialCase] at hc
  obtain ⟨hr, hi⟩ := hc
  have h0 : (ev.idx == 0) = false := by simp; omega
  have ht : ∃ item, st.tails[ev.idx]? = some item :=
    ⟨st.tails[ev.idx], List.getElem?_eq_getElem (by omega)⟩
  obtain ⟨item, ht⟩ := ht
  simp only [loopStep, hsel, if_true, loopBody, ht, hr, h0]
  simp only [Bool.not_false, Bool.and_false, Bool.false_eq_true, if_false, if_true]
  split <;> exact ⟨rfl, rfl⟩

/-- An add event appends the file to the tails and, when the file has its tail
handle, the `Lines` channel of that handle to the cases; without the handle the
step panics. -/
theorem loopStep_add (env : Env) (w : World) (st : LoopState) (p : FilePtr)
    (hsel : (Event.mk 0 (Data.watchFile p) true).selectable st.cases = true)
    (hlen : st.cases.length = st.tails.length) :
    (∀ t, (w.heap p).tail = some t →
      loopStep env w st ⟨0, Data.watchFile p, true⟩ =
        ⟨w, { st with tails := st.tails ++ [p], cases := st.cases ++ [t.Lines] },
          Status.running⟩) ∧
    ((w.heap p).tail = none →
      ∃ msg, (loopStep env w st ⟨0, Data.watchFile p, true⟩).status = Status.panicked msg) := by
  have hlt := selectable_lt _ _ hsel
  have ht : ∃ item, st.tails[0]? = some item :=
    ⟨st.tails[0], List.getElem?_eq_getElem (by simp at hlt; omega)⟩
  obtain ⟨item, ht⟩ := ht
  constructor
  · intro t htl
    simp [loopStep, hsel, loopBody, ht, htl]
  · intro htl
    simp [loopStep, hsel, loopBody, ht, htl]

/-- An event that is neither a closed event on a data source nor an add event
leaves both lists as they are, whatever else the step does. -/
theorem loopStep_other (env : Env) (w : World) (st : LoopState) (ev : Event)
    (hc : ev.isClose = false) (ha : ev.isAdd = false) :
    (loopStep env w st ev).st.cases = st.cases ∧
    (loopStep env w st ev).st.tails = st.tails := by
  by_cases hsel : ev.selectable st.cases = true
  swap
  · simp [loopStep, hsel]
  · rcases ev with ⟨idx, data, running⟩
    simp only [loopStep, hsel, if_true, loopBody]
    cases htl : st.tails[idx]? with
    | none => exact ⟨rfl, rfl⟩
    | some item =>
      simp only []
      cases running with
      | false =>
        simp only [Event.isClose, specialCase, Bool.not_false, Bool.true_and,
          decide_eq_false_iff_not, not_le] at hc
        simp only [Event.selectable, Bool.not_false, if_true, Bool.and_eq_true,
          decide_eq_true_eq, bne_iff_ne, ne_eq] at hsel
        have h0 : idx = 0 := by omega
        subst h0
        simp only [Bool.not_false, beq_self_eq_true, Bool.and_self, if_true]
        split <;> exact ⟨rfl, rfl⟩
      | true =>
        simp only [Bool.not_true, Bool.false_and, Bool.false_eq_true, if_false]
        by_cases h1 : idx = 1
        · subst h1
          simp only [beq_self_eq_true, if_true]
          split <;> exact ⟨rfl, rfl⟩
        · have h1' : (idx == 1) = false := by simpa using h1
          simp only [h1', Bool.false_eq_true, if_false]
          cases data with
          | zero => exact ⟨rfl, rfl⟩
          | nilPtr => exact ⟨rfl, rfl⟩
          | time => exact ⟨rfl, rfl⟩
          | line text =>
            simp only []
            split <;> exact ⟨rfl, rfl⟩
          | watchFile p =>
            simp only []
            by_cases h0 : idx = 0
            · subst h0
              simp [Event.isAdd, Data.isWatchFile] at ha
            · have h0' : (idx == 0) = false := by simpa using h0
              simp [h0']

/-- An add event, spelled out. -/
theorem isAdd_eq (ev : Event) (h : ev.isAdd = true) :
    ∃ p, ev = ⟨0, Data.watchFile p, true⟩ := by
  rcases ev with ⟨idx, data, running⟩
  simp only [Event.isAdd, Bool.and_eq_true, beq_iff_eq] at h
  obtain ⟨⟨h0, hr⟩, hd⟩ := h
  cases data with
  | watchFile p => exact ⟨p, by rw [h0, hr]⟩
  | zero => simp [Data.isWatchFile] at hd
  | nilPtr => simp [Data.isWatchFile] at hd
  | line text => simp [Data.isWatchFile] at hd
  | time => simp [Data.isWatchFile] at hd

/-- A closed event is no add event. -/
theorem isAdd_of_isClose (ev : Event) (h : ev.isClose = true) : ev.isAdd = false := by
  simp only [Event.isClose, Bool.and_eq_true, Bool.not_eq_true'] at h
  simp [Event.isAdd, h.1]

/-- The index of a selectable closed event on a data source is at least 2 and
below the number of cases. -/
theorem isClose_bounds (cases : List Chan) (ev : Event)
    (hsel : ev.selectable cases = true) (hc : ev.isClose = true) :
    2 ≤ ev.idx ∧ ev.idx < cases.length := by
  refine ⟨?_, selectable_lt _ _ hsel⟩
  simp only [Event.isClose, Bool.and_eq_true, decide_eq_true_eq, specialCase] at hc
  exact hc.2

/-- One step that leaves the loop running or returned changes the number of
cases by one up for an add event, one down for a closed event on a data
source, and not at all otherwise; the two lists stay of one length, at least 2. -/
theorem loopStep_count (env : Env) (w : World) (st : LoopState) (ev : Event)
    (hlen : st.cases.length = st.tails.length) (h2 : 2 ≤ st.cases.length)
    (hok : (loopStep env w st ev).status = Status.running ∨
      (loopStep env w st ev).status = Status.returned) :
    (loopStep env w st ev).st.cases.length + (if ev.isClose then 1 else 0) =
      st.cases.length + (if ev.isAdd then 1 else 0) ∧
    (loopStep env w st ev).st.cases.length = (loopStep env w st ev).st.tails.length ∧
    2 ≤ (loopStep env w st ev).st.cases.length := by
  by_cases hsel : ev.selectable st.cases = true
  swap
  · simp [loopStep, hsel] at hok
  by_cases hc : ev.isClose = true
  · obtain ⟨h1, h3⟩ := loopStep_close env w st ev hsel hc hlen
    obtain ⟨hb1, hb2⟩ := isClose_bounds _ _ hsel hc
    have ha := isAdd_of_isClose ev hc
    rw [h1, h3]
    simp only [hc, ha, if_true, List.length_eraseIdx]
    simp only [Bool.false_eq_true, if_false]
    have hb3 : ev.idx < st.tails.length := by omega
    simp only [hb2, hb3, if_true]
    omega
  · have hc' : ev.isClose = false := by simpa using hc
    by_cases ha : ev.isAdd = true
    · obtain ⟨p, rfl⟩ := isAdd_eq ev ha
      obtain ⟨hs, hn⟩ := loopStep_add env w st p hsel hlen
      cases htl : (w.heap p).tail with
      | none =>
        obtain ⟨msg, hm⟩ := hn htl
        rw [hm] at hok
        simp at hok
      | some t =>
        rw [hs t htl]
        simp only [hc', ha, if_true, List.length_append, List.length_singleton]
        simp only [Bool.false_eq_true, if_false]
        exact ⟨trivial, by omega, by omega⟩
    · have ha' : ev.isAdd = false := by simpa using ha
      obtain ⟨h1, h3⟩ := loopStep_other env w st ev hc' ha'
      rw [h1, h3]
      refine ⟨by simp [hc', ha'], hlen, h2⟩

/-- The count of the active set over a run, in natural numbers. -/
theorem runLoop_count (env : Env) (items : List Item) :
    ∀ c : LoopCfg, c.st.cases.length = c.st.tails.length → 2 ≤ c.st.cases.length →
      (runLoop env c items).2 = [] →
      ((runLoop env c items).1.status = Status.running ∨
        (runLoop env c items).1.status = Status.returned) →
      (runLoop env c items).1.st.cases.length + countCloses items =
        c.st.cases.length + countAdds items ∧
      2 ≤ (runLoop env c items).1.st.cases.length := by
  induction items with
  | nil => intro c _ h2 _ _; simpa [runLoop, countCloses, countAdds] using h2
  | cons it rest ih =>
    intro c hlen h2 hall hok
    by_cases hrun : c.status = Status.running
    swap
    · rw [runLoop_of_not_running env c _ hrun] at hall
      simp at hall
    rw [runLoop_cons env c it rest hrun] at hall hok ⊢
    cases it with
    | env f =>
      have := ih (applyItem env c (Item.env f)) hlen h2 hall hok
      simpa [countCloses, countAdds, applyItem] using this
    | ev e =>
      simp only [applyItem] at hall hok ⊢
      by_cases hr' : (loopStep env c.w c.st e).status = Status.running
      · obtain ⟨hcnt, hlen', h2'⟩ := loopStep_count env c.w c.st e hlen h2 (Or.inl hr')
        have := ih (loopStep env c.w c.st e) hlen' h2' hall hok
        simp only [countCloses, countAdds]
        omega
      · rw [runLoop_of_not_running env _ _ hr'] at hall hok ⊢
        simp only at hall hok ⊢
        subst hall
        obtain ⟨hcnt, -, h2'⟩ := loopStep_count env c.w c.st e hlen h2 hok
        simp only [countCloses, countAdds]
        omega

/-- C6: from an active set of the 2 reserved entries and `k` data sources,
after every sequence of items that the loop has taken in full without a panic,
the number of data sources is `k` plus the number of add events minus the
number of closed events on data sources. -/
theorem sources_count (env : Env) (c : LoopCfg) (k : Nat) (items : List Item)
    (hk : c.st.cases.length = specialCase + k)
    (hlen : c.st.tails.length = c.st.cases.length)
    (hall : (runLoop env c items).2 = [])
    (hok : (runLoop env c items).1.status = Status.running ∨
      (runLoop env c items).1.status = Status.returned) :
    ((runLoop env c items).1.st.sources : Int) = k + countAdds items - countCloses items := by
  have h2 : 2 ≤ c.st.cases.length := by simp [hk, specialCase]
  obtain ⟨h, h3⟩ := runLoop_count env items c hlen.symm h2 hall hok
  have hk' : c.st.cases.length = 2 + k := hk
  simp only [LoopState.sources, specialCase]
  omega

/-- Deleting at one index in two lists deletes at that index in their zip. -/
theorem zip_eraseIdx_both {α β : Type} (l : List α) (m : List β) (i : Nat) :
    (l.eraseIdx i).zip (m.eraseIdx i) = (l.zip m).eraseIdx i := by
  induction l generalizing m i with
  | nil => simp
  | cons x xs ih =>
    cases m with
    | nil => simp
    | cons y ys =>
      cases i with
      | zero => simp
      | succ j => simp [ih]

/-- Deleting at an index from 2 on keeps the first two entries. -/
theorem take_two_eraseIdx {α : Type} (l : List α) (i : Nat) (hi : 2 ≤ i) :
    (l.eraseIdx i).take 2 = l.take 2 := by
  match l, i, hi with
  | [], _, _ => simp
  | [_], i + 2, _ => simp
  | _ :: _ :: _, i + 2, _ => simp

/-- One step that does not panic keeps the two lists of one length, keeps the
two reserved entries, and leaves a zip that is the zip before followed by the
pair the step registered, with entries deleted at most. -/
theorem loopStep_pairs (env : Env) (c : LoopCfg) (ev : Event)
    (hlen : c.st.cases.length = c.st.tails.length) (h2 : 2 ≤ c.st.cases.length)
    (hok : ∀ msg, (loopStep env c.w c.st ev).status ≠ Status.panicked msg) :
    (loopStep env c.w c.st ev).st.cases.length = (loopStep env c.w c.st ev).st.tails.length ∧
    2 ≤ (loopStep env c.w c.st ev).st.cases.length ∧
    ((loopStep env c.w c.st ev).st.cases.zip (loopStep env c.w c.st ev).st.tails).Sublist
      (c.st.cases.zip c.st.tails ++ registeredBy c (Item.ev ev)) ∧
    (loopStep env c.w c.st ev).st.cases.take 2 = c.st.cases.take 2 ∧
    (loopStep env c.w c.st ev).st.tails.take 2 = c.st.tails.take 2 := by
  by_cases hsel : ev.selectable c.st.cases = true
  swap
  · simp only [Bool.not_eq_true] at hsel
    rw [loopStep_not_selectable env c.w c.st ev hsel]
    exact ⟨hlen, h2, List.sublist_append_left _ _, rfl, rfl⟩
  by_cases hc : ev.isClose = true
  · obtain ⟨h1, h3⟩ := loopStep_close env c.w c.st ev hsel hc hlen
    obtain ⟨hb1, hb2⟩ := isClose_bounds _ _ hsel hc
    rw [h1, h3]
    refine ⟨?_, ?_, ?_, take_two_eraseIdx _ _ hb1, take_two_eraseIdx _ _ hb1⟩
    · rw [List.length_eraseIdx_of_lt hb2, List.length_eraseIdx_of_lt (by omega)]; omega
    · rw [List.length_eraseIdx_of_lt hb2]; omega
    · rw [zip_eraseIdx_both]
      exact (List.eraseIdx_sublist _ _).trans (List.sublist_append_left _ _)
  · have hc' : ev.isClose = false := by simpa using hc
    by_cases ha : ev.isAdd = true
    · obtain ⟨p, rfl⟩ := isAdd_eq ev ha
      obtain ⟨hs, hn⟩ := loopStep_add env c.w c.st p hsel hlen
      cases htl : (c.w.heap p).tail with
      | none =>
        obtain ⟨msg, hm⟩ := hn htl
        exact absurd hm (hok msg)
      | some t =>
        rw [hs t htl]
        refine ⟨by simp [hlen], by simp; omega, ?_, ?_, ?_⟩
        · simp only [registeredBy, ha, if_true, htl]
          rw [List.zip_append hlen]
          exact List.Sublist.refl _
        · exact List.take_append_of_le_length h2
        · exact List.take_append_of_le_length (by omega)
    · have ha' : ev.isAdd = false := by simpa using ha
      obtain ⟨h1, h3⟩ := loopStep_other env c.w c.st ev hc' ha'
      rw [h1, h3]
      exact ⟨hlen, h2, List.sublist_append_left _ _, rfl, rfl⟩

/-- Over a run that does not end in a panic the two lists stay of one length,
the two reserved entries stay, and the zip of the lists is the zip at the start
followed by the registered pairs, with entries deleted at most. -/
theorem runLoop_pairs (env : Env) (items : List Item) :
    ∀ c : LoopCfg, c.st.cases.length = c.st.tails.length → 2 ≤ c.st.cases.length →
      (∀ msg, (runLoop env c items).1.status ≠ Status.panicked msg) →
      (runLoop env c items).1.st.cases.length = (runLoop env c items).1.st.tails.length ∧
      ((runLoop env c items).1.st.cases.zip (runLoop env c items).1.st.tails).Sublist
        (c.st.cases.zip c.st.tails ++ registered env c items) ∧
      (runLoop env c items).1.st.cases.take 2 = c.st.cases.take 2 ∧
      (runLoop env c items).1.st.tails.take 2 = c.st.tails.take 2 := by
  induction items with
  | nil =>
    intro c hlen _ _
    exact ⟨hlen, by simp [runLoop, registered], rfl, rfl⟩
  | cons it rest ih =>
    intro c hlen h2 hok
    by_cases hrun : c.status = Status.running
    swap
    · rw [runLoop_of_not_running env c _ hrun]
      exact ⟨hlen, List.sublist_append_left _ _, rfl, rfl⟩
    rw [runLoop_cons env c it rest hrun] at hok ⊢
    have hreg : registered env c (it :: rest) =
        registeredBy c it ++ registered env (applyItem env c it) rest := by
      simp [registered, hrun]
    rw [hreg]
    cases it with
    | env f =>
      obtain ⟨a1, a2, a3, a4⟩ := ih (applyItem env c (Item.env f)) hlen h2 hok
      refine ⟨a1, ?_, a3, a4⟩
      simpa [registeredBy, applyItem] using a2
    | ev e =>
      simp only [applyItem] at hok ⊢
      have hstep : ∀ msg, (loopStep env c.w c.st e).status ≠ Status.panicked msg := by
        intro msg hm
        have hnr : (loopStep env c.w c.st e).status ≠ Status.running := by rw [hm]; simp
        rw [runLoop_of_not_running env _ _ hnr] at hok
        exact hok msg hm
      obtain ⟨s1, s2, s3, s4, s5⟩ := loopStep_pairs env c e hlen h2 hstep
      obtain ⟨a1, a2, a3, a4⟩ := ih (loopStep env c.w c.st e) s1 s2 hok
      refine ⟨a1, ?_, a3.trans s4, a4.trans s5⟩
      rw [← List.append_assoc]
      exact a2.trans (List.Sublist.append s3 (List.Sublist.refl _))

/-- C7: every step applies one edit to both lists: a closed event on a data
source deletes the entry at its index from both and keeps the order of the
rest, an add event for a file with its tail handle appends the file to the
tails and the `Lines` channel of the handle to the cases, every other event
leaves both as they are. Hence over every run that does not end in a panic the
lists have one length, the two reserved entries stay in place, and at every
index the case stands next to the file it was registered with, at the start
or by an add event. -/
theorem parallel_lists (env : Env) (c : LoopCfg) (items : List Item)
    (hlen : c.st.cases.length = c.st.tails.length) (h2 : 2 ≤ c.st.cases.length) :
    (∀ ev : Event, ev.selectable c.st.cases = true →
      (ev.isClose = true →
        (loopStep env c.w c.st ev).st.cases = c.st.cases.eraseIdx ev.idx ∧
        (loopStep env c.w c.st ev).st.tails = c.st.tails.eraseIdx ev.idx) ∧
      (∀ p t, ev = ⟨0, Data.watchFile p, true⟩ → (c.w.heap p).tail = some t →
        (loopStep env c.w c.st ev).st.cases = c.st.cases ++ [t.Lines] ∧
        (loopStep env c.w c.st ev).st.tails = c.st.tails ++ [p]) ∧
      (ev.isClose = false → ev.isAdd = false →
        (loopStep env c.w c.st ev).st.cases = c.st.cases ∧
        (loopStep env c.w c.st ev).st.tails = c.st.tails)) ∧
    ((∀ msg, (runLoop env c items).1.status ≠ Status.panicked msg) →
      (runLoop env c items).1.st.cases.length = (runLoop env c items).1.st.tails.length ∧
      (runLoop env c items).1.st.cases.take 2 = c.st.cases.take 2 ∧
      (runLoop env c items).1.st.tails.take 2 = c.st.tails.take 2 ∧
      ((runLoop env c items).1.st.cases.zip (runLoop env c items).1.st.tails).Sublist
        (c.st.cases.zip c.st.tails ++ registered env c items) ∧
      ∀ (i : Nat) (hi : i < (runLoop env c items).1.st.cases.length)
        (hj : i < (runLoop env c items).1.st.tails.length),
        ((runLoop env c items).1.st.cases[i], (runLoop env c items).1.st.tails[i]) ∈
          c.st.cases.zip c.st.tails ++ registered env c items) := by
  constructor
  · intro ev hsel
    refine ⟨fun hc => loopStep_close env c.w c.st ev hsel hc hlen, ?_,
      fun hc ha => loopStep_other env c.w c.st ev hc ha⟩
    intro p t he htl
    subst he
    rw [(loopStep_add env c.w c.st p hsel hlen).1 t htl]
    exact ⟨rfl, rfl⟩
  · intro hok
    obtain ⟨a1, a2, a3, a4⟩ := runLoop_pairs env items c hlen h2 hok
    refine ⟨a1, a3, a4, a2, ?_⟩
    intro i hi hj
    apply a2.subset
    have hz : i < ((runLoop env c items).1.st.cases.zip (runLoop env c items).1.st.tails).length := by
      simp; omega
    have := List.getElem_mem hz
    rwa [List.getElem_zip] at this

/-- Stopping a watcher returns or panics, and leaves the stop channel and the
ticker alone. -/
theorem killWatcher_frame (env : Env) (w : World) (p : FilePtr) :
    ((∃ b, (killWatcher env w p).2 = Outcome.returned b) ∨
      (∃ msg, (killWatcher env w p).2 = Outcome.panicked msg)) ∧
    (killWatcher env w p).1.stopWatcher = w.stopWatcher ∧
    (killWatcher env w p).1.tickerStops = w.tickerStops ∧
    (killWatcher env w p).1.stopCloses = w.stopCloses := by
  unfold killWatcher deactivate stop
  cases h : (w.heap p).tail with
  | none => simp [World.setFile]
  | some t =>
    cases hb : env.tailStopFails w.stops t <;> simp [hb, World.setFile, World.count]

/-- C8: at a step the loop returns exactly when the ready source is index 0,
it reports closed, and no more than the two reserved cases are left; when
index 0 reports closed while a data source is left, the step changes nothing
and the loop keeps running. -/
theorem loop_returns_iff (env : Env) (w : World) (st : LoopState) (ev : Event)
    (hsel : ev.selectable st.cases = true) (hlen : st.cases.length = st.tails.length) :
    ((loopStep env w st ev).status = Status.returned ↔
      (ev.idx = 0 ∧ ev.running = false ∧ st.cases.length ≤ specialCase)) ∧
    (ev.idx = 0 → ev.running = false → specialCase < st.cases.length →
      loopStep env w st ev = ⟨w, st, Status.running⟩) := by
  have hlt := selectable_lt _ _ hsel
  have ht : ∃ item, st.tails[ev.idx]? = some item :=
    ⟨st.tails[ev.idx], List.getElem?_eq_getElem (by omega)⟩
  obtain ⟨item, ht⟩ := ht
  rcases ev with ⟨idx, data, running⟩
  simp only at ht hlt
  simp only [loopStep, hsel, if_true, loopBody, ht]
  cases running with
  | false =>
    by_cases h0 : idx = 0
    · subst h0
      by_cases hl : st.cases.length ≤ specialCase
      · simp [hl]
      · simp only [Bool.not_false, beq_self_eq_true, Bool.and_self, if_true, hl, if_false]
        simp only [not_le] at hl
        simp [hl.not_le]
    · have h0' : (idx == 0) = false := by simpa using h0
      simp only [Bool.not_false, h0', Bool.and_false, Bool.false_eq_true, if_false, if_true]
      constructor
      · constructor
        · intro h
          exfalso
          split at h <;> simp at h
        · intro h; exact absurd h.1 h0
      · intro h; exact absurd h h0
  | true =>
    simp only [Bool.not_true, Bool.false_and, Bool.false_eq_true, if_false]
    constructor
    · constructor
      · intro h
        exfalso
        by_cases h1 : idx = 1
        · subst h1
          simp only [beq_self_eq_true, if_true] at h
          split at h <;> simp at h
        · have h1' : (idx == 1) = false := by simpa using h1
          simp only [h1', Bool.false_eq_true, if_false] at h
          cases data with
          | zero => simp at h
          | nilPtr => simp at h
          | time => simp at h
          | line text =>
            simp only [] at h
            split at h <;> simp at h
          | watchFile p =>
            simp only [] at h
            split at h
            · split at h <;> simp at h
            · simp at h
      · intro h; simp at h
    · intro _ h; simp at h

/-- C8 at the last step of a drained loop: only the two reserved cases are
left and the add channel reports closed. -/
theorem loop_returns_iff_witness :
    (loopStep sampleEnv sampleWorld ⟨[10, 11], [0, 1], false⟩ addClosed).status =
      Status.returned :=
  (loop_returns_iff sampleEnv sampleWorld ⟨[10, 11], [0, 1], false⟩ addClosed
    (by decide) (by decide)).1.mpr
    ⟨rfl, rfl, by decide⟩

/-- A closed event on a data source leaves the loop running or panicked, and
leaves the stop channel and the ticker alone. -/
theorem loopStep_close_frame (env : Env) (w : World) (st : LoopState) (ev : Event)
    (hsel : ev.selectable st.cases = true) (hc : ev.isClose = true)
    (hlen : st.cases.length = st.tails.length) :
    ((loopStep env w st ev).status = Status.running ∨
      ∃ msg, (loopStep env w st ev).status = Status.panicked msg) ∧
    (loopStep env w st ev).w.stopWatcher = w.stopWatcher ∧
    (loopStep env w st ev).w.tickerStops = w.tickerStops ∧
    (loopStep env w st ev).w.stopCloses = w.stopCloses := by
  have hlt := selectable_lt _ _ hsel
  simp only [Event.isClose, Bool.and_eq_true, Bool.not_eq_true', decide_eq_true_eq,
    specialCase] at hc
  obtain ⟨hr, hi⟩ := hc
  have h0 : (ev.idx == 0) = false := by simp; omega
  have ht : ∃ item, st.tails[ev.idx]? = some item :=
    ⟨st.tails[ev.idx], List.getElem?_eq_getElem (by omega)⟩
  obtain ⟨item, ht⟩ := ht
  obtain ⟨hk, f1, f2, f3⟩ := killWatcher_frame env w item
  simp only [loopStep, hsel, if_true, loopBody, ht, hr, h0]
  simp only [Bool.not_false, Bool.and_false, Bool.false_eq_true, if_false, if_true]
  rcases hk with ⟨b, hb⟩ | ⟨msg, hm⟩
  · rcases hkw : killWatcher env w item with ⟨w1, o⟩
    rw [hkw] at hb f1 f2 f3
    simp only at hb f1 f2 f3
    subst hb
    exact ⟨Or.inl rfl, f1, f2, f3⟩
  · rcases hkw : killWatcher env w item with ⟨w1, o⟩
    rw [hkw] at hm f1 f2 f3
    simp only at hm f1 f2 f3
    subst hm
    exact ⟨Or.inr ⟨msg, rfl⟩, f1, f2, f3⟩

/-- A closed event on a data source whose file has its tail handle leaves the
loop running, and changes no file but that one. -/
theorem loopStep_close_ok (env : Env) (w : World) (st : LoopState) (ev : Event)
    (hsel : ev.selectable st.cases = true) (hc : ev.isClose = true)
    (item : FilePtr) (ht : st.tails[ev.idx]? = some item)
    (htl : (w.heap item).tail ≠ none) :
    (loopStep env w st ev).status = Status.running ∧
    ∀ q, q ≠ item → (loopStep env w st ev).w.heap q = w.heap q := by
  simp only [Event.isClose, Bool.and_eq_true, Bool.not_eq_true', decide_eq_true_eq,
    specialCase] at hc
  obtain ⟨hr, hi⟩ := hc
  have h0 : (ev.idx == 0) = false := by simp; omega
  simp only [loopStep, hsel, if_true, loopBody, ht, hr, h0]
  simp only [Bool.not_false, Bool.and_false, Bool.false_eq_true, if_false, if_true]
  cases h : (w.heap item).tail with
  | none => exact absurd h htl
  | some t =>
    unfold killWatcher deactivate stop
    simp only [h]
    cases hb : env.tailStopFails w.stops t
    · refine ⟨rfl, ?_⟩
      intro q hq
      simp [World.setFile, hq]
    · refine ⟨rfl, ?_⟩
      intro q hq
      simp [World.setFile, World.count, hq]

/-- The closed event on the add channel makes a running loop with only the two
reserved cases return, with the world as it is. -/
theorem loopStep_addClosed (env : Env) (w : World) (st : LoopState)
    (hc : st.cases.length = 2) (ht : st.tails.length = 2) :
    loopStep env w st addClosed = ⟨w, st, Status.returned⟩ := by
  have hsel : addClosed.selectable st.cases = true := by
    simp [Event.selectable, addClosed, hc]
  have hi : ∃ item, st.tails[0]? = some item :=
    ⟨st.tails[0], List.getElem?_eq_getElem (by omega)⟩
  obtain ⟨item, hi⟩ := hi
  have hi0 : st.tails[addClosed.idx]? = some item := hi
  simp only [loopStep, hsel, if_true, loopBody, hi0]
  simp [addClosed, hc, specialCase]

/-- A closing sequence is made of selectable closed events on data sources. -/
theorem closesAll_head (n : Nat) (e : Event) (es : List Event) (cases : List Chan)
    (hlen : cases.length = 2 + (n + 1)) (h : closesAll (n + 1) (e :: es)) :
    e.selectable cases = true ∧ e.isClose = true ∧ closesAll n es := by
  simp only [closesAll, specialCase] at h
  obtain ⟨hr, hd, h2, hlt, hrest⟩ := h
  refine ⟨?_, ?_, hrest⟩
  · have h1 : e.idx ≠ 1 := by omega
    simp [Event.selectable, hr, hd, hlen, h1]
    omega
  · simp [Event.isClose, hr, specialCase, h2]

/-- The loop over a closing sequence followed by the closed event on the add
channel ends returned or panicked, and has left the stop channel and the
ticker alone. -/
theorem runLoop_closesAll (env : Env) (n : Nat) :
    ∀ (evs : List Event) (c : LoopCfg), c.status = Status.running →
      c.st.cases.length = 2 + n → c.st.tails.length = 2 + n → closesAll n evs →
      ((runLoop env c (evs.map Item.ev ++ [Item.ev addClosed])).1.status = Status.returned ∨
        ∃ msg, (runLoop env c (evs.map Item.ev ++ [Item.ev addClosed])).1.status =
          Status.panicked msg) ∧
      (runLoop env c (evs.map Item.ev ++ [Item.ev addClosed])).1.w.stopWatcher =
        c.w.stopWatcher ∧
      (runLoop env c (evs.map Item.ev ++ [Item.ev addClosed])).1.w.tickerStops =
        c.w.tickerStops ∧
      (runLoop env c (evs.map Item.ev ++ [Item.ev addClosed])).1.w.stopCloses =
        c.w.stopCloses := by
  induction n with
  | zero =>
    intro evs c hrun hc ht hall
    cases evs with
    | cons e es => simp [closesAll] at hall
    | nil =>
      simp only [List.map_nil, List.nil_append]
      rw [runLoop_cons env c _ _ hrun]
      simp only [applyItem]
      rw [loopStep_addClosed env c.w c.st hc ht]
      simp [runLoop]
  | succ n ih =>
    intro evs c hrun hc ht hall
    cases evs with
    | nil => simp [closesAll] at hall
    | cons e es =>
      obtain ⟨hsel, hcl, hrest⟩ := closesAll_head n e es c.st.cases hc hall
      have hlen : c.st.cases.length = c.st.tails.length := by omega
      obtain ⟨hst, f1, f2, f3⟩ := loopStep_close_frame env c.w c.st e hsel hcl hlen
      obtain ⟨e1, e2⟩ := loopStep_close env c.w c.st e hsel hcl hlen
      obtain ⟨-, hlt⟩ := isClose_bounds _ _ hsel hcl
      simp only [List.map_cons, List.cons_append]
      rw [runLoop_cons env c _ _ hrun]
      simp only [applyItem]
      rcases hst with hr | ⟨msg, hm⟩
      · have hc' : (loopStep env c.w c.st e).st.cases.length = 2 + n := by
          rw [e1, List.length_eraseIdx_of_lt hlt]; omega
        have ht' : (loopStep env c.w c.st e).st.tails.length = 2 + n := by
          rw [e2, List.length_eraseIdx_of_lt (by omega)]; omega
        obtain ⟨a1, a2, a3, a4⟩ := ih es (loopStep env c.w c.st e) hr hc' ht' hrest
        exact ⟨a1, a2.trans f1, a3.trans f2, a4.trans f3⟩
      · have hnr : (loopStep env c.w c.st e).status ≠ Status.running := by rw [hm]; simp
        rw [runLoop_of_not_running env _ _ hnr]
        exact ⟨Or.inr ⟨msg, hm⟩, f1, f2, f3⟩

/-- When every data source has its own file and every such file has its tail
handle, the loop over a closing sequence followed by the closed event on the
add channel returns, having taken every event, with the two reserved cases
left. -/
theorem runLoop_closesAll_returns (env : Env) (n : Nat) :
    ∀ (evs : List Event) (c : LoopCfg), c.status = Status.running →
      c.st.cases.length = 2 + n → c.st.tails.length = 2 + n → closesAll n evs →
      (∀ i p, 2 ≤ i → c.st.tails[i]? = some p → (c.w.heap p).tail ≠ none) →
      (∀ i j p, 2 ≤ i → i < j → c.st.tails[i]? = some p → c.st.tails[j]? ≠ some p) →
      (runLoop env c (evs.map Item.ev ++ [Item.ev addClosed])).1.status = Status.returned ∧
      (runLoop env c (evs.map Item.ev ++ [Item.ev addClosed])).2 = [] ∧
      (runLoop env c (evs.map Item.ev ++ [Item.ev addClosed])).1.st.cases.length = 2 := by
  induction n with
  | zero =>
    intro evs c hrun hc ht hall _ _
    cases evs with
    | cons e es => simp [closesAll] at hall
    | nil =>
      simp only [List.map_nil, List.nil_append]
      rw [runLoop_cons env c _ _ hrun]
      simp only [applyItem]
      rw [loopStep_addClosed env c.w c.st hc ht]
      simp [runLoop, hc]
  | succ n ih =>
    intro evs c hrun hc ht hall hw1 hw2
    cases evs with
    | nil => simp [closesAll] at hall
    | cons e es =>
      obtain ⟨hsel, hcl, hrest⟩ := closesAll_head n e es c.st.cases hc hall
      have hlen : c.st.cases.length = c.st.tails.length := by omega
      obtain ⟨e1, e2⟩ := loopStep_close env c.w c.st e hsel hcl hlen
      obtain ⟨hge, hlt⟩ := isClose_bounds _ _ hsel hcl
      have hit : c.st.tails[e.idx]? = some c.st.tails[e.idx] :=
        List.getElem?_eq_getElem (by omega)
      obtain ⟨hr, hheap⟩ := loopStep_close_ok env c.w c.st e hsel hcl _ hit
        (hw1 e.idx _ hge hit)
      simp only [List.map_cons, List.cons_append]
      rw [runLoop_cons env c _ _ hrun]
      simp only [applyItem]
      have hc' : (loopStep env c.w c.st e).st.cases.length = 2 + n := by
        rw [e1, List.length_eraseIdx_of_lt hlt]; omega
      have ht' : (loopStep env c.w c.st e).st.tails.length = 2 + n := by
        rw [e2, List.length_eraseIdx_of_lt (by omega)]; omega
      have hne : ∀ i p, 2 ≤ i → (c.st.tails.eraseIdx e.idx)[i]? = some p →
          p ≠ c.st.tails[e.idx] := by
        intro i p hi hp hpe
        subst hpe
        rw [List.getElem?_eraseIdx] at hp
        split at hp
        · rename_i hlt'
          exact hw2 i e.idx _ hi hlt' hp hit
        · rename_i hge'
          exact hw2 e.idx (i + 1) _ hge (by omega) hit hp
      apply ih es (loopStep env c.w c.st e) hr hc' ht' hrest
      · intro i p hi hp
        rw [e2] at hp
        rw [hheap p (hne i p hi hp)]
        rw [List.getElem?_eraseIdx] at hp
        split at hp
        · exact hw1 i p hi hp
        · exact hw1 (i + 1) p (by omega) hp
      · intro i j p hi hij hp
        rw [e2] at hp ⊢
        rw [List.getElem?_eraseIdx] at hp ⊢
        split at hp
        · split
          · exact hw2 i j p hi hij hp
          · exact hw2 i (j + 1) p hi (by omega) hp
        · split
          · omega
          · exact hw2 (i + 1) (j + 1) p (by omega) (by omega) hp

/-- C6 on the loop of the examples: `any.log` is added, then `app.log` closes;
one data source is left. -/
theorem sources_count_witness :
    (((runLoop sampleEnv sampleCfg
      [Item.ev ⟨0, Data.watchFile 3, true⟩, Item.ev ⟨2, Data.zero, false⟩]).1.st.sources : Nat)
      : Int) = (1 : Nat) +
        (countAdds [Item.ev ⟨0, Data.watchFile 3, true⟩, Item.ev ⟨2, Data.zero, false⟩] : Nat) -
        (countCloses [Item.ev ⟨0, Data.watchFile 3, true⟩, Item.ev ⟨2, Data.zero, false⟩] : Nat) :=
  sources_count sampleEnv sampleCfg 1 _ (by decide) (by decide) (by rfl) (Or.inl (by rfl))

/-- C7 on the loop of the examples: after `any.log` is added and `app.log`
closes, the lists have one length. -/
theorem parallel_lists_witness :
    (runLoop sampleEnv sampleCfg
      [Item.ev ⟨0, Data.watchFile 3, true⟩, Item.ev ⟨2, Data.zero, false⟩]).1.st.cases.length =
    (runLoop sampleEnv sampleCfg
      [Item.ev ⟨0, Data.watchFile 3, true⟩, Item.ev ⟨2, Data.zero, false⟩]).1.st.tails.length :=
  ((parallel_lists sampleEnv sampleCfg
    [Item.ev ⟨0, Data.watchFile 3, true⟩, Item.ev ⟨2, Data.zero, false⟩]
    (by decide) (by decide)).2 (by
      intro msg h
      have hs : (runLoop sampleEnv sampleCfg
        [Item.ev ⟨0, Data.watchFile 3, true⟩, Item.ev ⟨2, Data.zero, false⟩]).1.status =
          Status.running := by rfl
      rw [hs] at h
      exact Status.noConfusion h)).1

/-- C9: from a running loop with `n` data sources and an open stop channel,
one closed event for each data source, in any order, followed by the closed
event on the add channel makes `tailFiles` leave its loop; the deferred
function has then stopped the ticker once and closed the stop channel once, so
the wait of `cmd.stop` on that channel returns. When every data source has its own file and
each has its tail handle, every event is taken and the loop leaves by its
`return`, with the two reserved cases left. -/
theorem drain_terminates (env : Env) (c : LoopCfg) (n : Nat) (evs : List Event)
    (ch : StopChan) (hrun : c.status = Status.running)
    (hc : c.st.cases.length = specialCase + n) (ht : c.st.tails.length = specialCase + n)
    (hstop : c.w.stopWatcher = some ch) (hopen : ch.closed = false)
    (hall : closesAll n evs) :
    ((tailFilesFrom env c (evs.map Item.ev ++ [Item.ev addClosed])).1.status = Status.returned ∨
      ∃ msg, (tailFilesFrom env c (evs.map Item.ev ++ [Item.ev addClosed])).1.status =
        Status.panicked msg) ∧
    (tailFilesFrom env c (evs.map Item.ev ++ [Item.ev addClosed])).1.w.tickerStops =
      c.w.tickerStops + 1 ∧
    (tailFilesFrom env c (evs.map Item.ev ++ [Item.ev addClosed])).1.w.stopCloses =
      c.w.stopCloses + 1 ∧
    (tailFilesFrom env c (evs.map Item.ev ++ [Item.ev addClosed])).1.w.stopWatcher =
      some { ch with closed := true } ∧
    (cmd.stopAfterWait (tailFilesFrom env c (evs.map Item.ev ++ [Item.ev addClosed])).1.w).2 =
      Outcome.returned () ∧
    ((∀ i p, 2 ≤ i → c.st.tails[i]? = some p → (c.w.heap p).tail ≠ none) →
      (∀ i j p, 2 ≤ i → i < j → c.st.tails[i]? = some p → c.st.tails[j]? ≠ some p) →
      (tailFilesFrom env c (evs.map Item.ev ++ [Item.ev addClosed])).1.status =
        Status.returned ∧
      (tailFilesFrom env c (evs.map Item.ev ++ [Item.ev addClosed])).2 = [] ∧
      (tailFilesFrom env c (evs.map Item.ev ++ [Item.ev addClosed])).1.st.cases.length =
        specialCase) := by
  obtain ⟨hst, f1, f2, f3⟩ := runLoop_closesAll env n evs c hrun hc ht hall
  have hret := runLoop_closesAll_returns env n evs c hrun hc ht hall
  unfold tailFilesFrom
  simp only []
  generalize runLoop env c (evs.map Item.ev ++ [Item.ev addClosed]) = r at hst f1 f2 f3 hret
  rcases r with ⟨⟨w, st, status⟩, rest⟩
  simp only at hst f1 f2 f3 hret
  have hd : tailFilesDeferred w =
      ({ w with tickerStops := w.tickerStops + 1,
                stopWatcher := some { ch with closed := true },
                stopCloses := w.stopCloses + 1 }, none) := by
    simp [tailFilesDeferred, f1, hstop, hopen]
  rcases hst with h | ⟨msg, h⟩
  · subst h
    simp only [hd]
    refine ⟨by simp, by simp [f2], by simp [f3], by simp, by simp [cmd.stopAfterWait], ?_⟩
    intro h1 h2
    obtain ⟨-, a2, a3⟩ := hret h1 h2
    exact ⟨by simp, a2, a3⟩
  · subst h
    simp only [hd]
    refine ⟨by simp, by simp [f2], by simp [f3], by simp, by simp [cmd.stopAfterWait], ?_⟩
    intro h1 h2
    obtain ⟨a1, -, -⟩ := hret h1 h2
    simp at a1

/-- C9 on the loop of the examples: `app.log` closes, then the add channel;
`tailFiles` returns. -/
theorem drain_terminates_witness :
    (tailFilesFrom sampleEnv sampleCfg
      ([(⟨2, Data.zero, false⟩ : Event)].map Item.ev ++ [Item.ev addClosed])).1.status =
        Status.returned :=
  ((drain_terminates sampleEnv sampleCfg 1 [⟨2, Data.zero, false⟩] ⟨9, false⟩ rfl
    (by decide) (by decide) rfl rfl
    ⟨rfl, rfl, by decide, by decide, trivial⟩).2.2.2.2.2
    (by
      intro i p hi hp
      match i, hi with
      | 2, _ =>
        have hp2 : p = 2 := by simpa [sampleCfg] using hp.symm
        subst hp2
        decide
      | k + 3, _ => simp [sampleCfg] at hp)
    (by
      intro i j p hi hij hp
      match i, j, hi, hij with
      | 2, j + 3, _, _ => simp [sampleCfg]
      | k + 3, _, _, _ => simp [sampleCfg] at hp)).1

/-- Two counter names of one file differ when their suffixes differ. -/
theorem key_ne (path a b : String) (h : a ≠ b) : path ++ a ≠ path ++ b := by
  intro he
  apply h
  have hd : (path ++ a).data = (path ++ b).data := by rw [he]
  simp only [String.data_append] at hd
  exact String.ext (List.append_cancel_left hd)

/-- C10, as the code has it: for a file with a non-empty `Skip` and a non-empty
line that both the match regexp and the skip regexp of the file match,
`checkLineMatch` does nothing but add 1 to the "Skipped" counter of the file:
no request is sent, the limiter is not called, and the "Matched" and
"Dropped" counters stay as they are. -/
theorem skip_wins (env : Env) (w : World) (p : FilePtr) (text : String)
    (re sk : regexp.Regexp)
    (hre : (w.heap p).re = some re) (hsk : (w.heap p).skip = some sk)
    (hskip : (w.heap p).Skip ≠ "") (hne : text ≠ "")
    (hm : env.MatchString re text = true) (hs : env.MatchString sk text = true) :
    checkLineMatch env w text p = w.count ((w.heap p).Path ++ " Skipped") 1 ∧
    (checkLineMatch env w text p).sent = w.sent ∧
    (checkLineMatch env w text p).pours = w.pours ∧
    (checkLineMatch env w text p).metrics ((w.heap p).Path ++ " Skipped") =
      some ((w.metrics ((w.heap p).Path ++ " Skipped")).getD 0 + 1) ∧
    (checkLineMatch env w text p).metrics ((w.heap p).Path ++ " Matched") =
      w.metrics ((w.heap p).Path ++ " Matched") ∧
    (checkLineMatch env w text p).metrics ((w.heap p).Path ++ " Dropped") =
      w.metrics ((w.heap p).Path ++ " Dropped") := by
  have h : checkLineMatch env w text p = w.count ((w.heap p).Path ++ " Skipped") 1 := by
    simp [checkLineMatch, hre, hsk, hskip, hne, hm, hs]
  have k1 : (w.heap p).Path ++ " Matched" ≠ (w.heap p).Path ++ " Skipped" :=
    key_ne _ _ _ (by decide)
  have k2 : (w.heap p).Path ++ " Dropped" ≠ (w.heap p).Path ++ " Skipped" :=
    key_ne _ _ _ (by decide)
  rw [h]
  refine ⟨rfl, rfl, rfl, ?_, ?_, ?_⟩
  · simp [World.count, Metrics.Add]
  · simp [World.count, Metrics.Add, k1]
  · simp [World.count, Metrics.Add, k2]

/-- C10 on the line of the examples: `app.log` with match `ERROR` and skip
`DEBUG`; the line is counted as skipped. -/
theorem skip_wins_witness :
    (checkLineMatch sampleEnv sampleWorld "2024-01-01 DEBUG ERROR test" 2).metrics
        ((sampleWorld.heap 2).Path ++ " Skipped") =
      some ((sampleWorld.metrics ((sampleWorld.heap 2).Path ++ " Skipped")).getD 0 + 1) ∧
    (checkLineMatch sampleEnv sampleWorld "2024-01-01 DEBUG ERROR test" 2).sent = [] :=
  ⟨(skip_wins sampleEnv sampleWorld 2 "2024-01-01 DEBUG ERROR test" ⟨"ERROR"⟩ ⟨"DEBUG"⟩
    rfl rfl (by decide) (by decide) (by rfl) (by rfl)).2.2.2.1,
   (skip_wins sampleEnv sampleWorld 2 "2024-01-01 DEBUG ERROR test" ⟨"ERROR"⟩ ⟨"DEBUG"⟩
    rfl rfl (by decide) (by decide) (by rfl) (by rfl)).2.1⟩

/-- C10 as stated fails on an empty line: `any.log` has a non-empty `Skip`, its
match regexp and its skip regexp both match the empty line, and
`checkLineMatch` leaves the "Skipped" counter of the file as it was. -/
theorem empty_line_not_counted_as_skipped :
    (sampleWorld.heap 3).Skip ≠ "" ∧
    (sampleWorld.heap 3).re = some ⟨".*"⟩ ∧
    (sampleWorld.heap 3).skip = some ⟨".*"⟩ ∧
    sampleEnv.MatchString ⟨".*"⟩ "" = true ∧
    (checkLineMatch sampleEnv sampleWorld "" 3).metrics "any.log Skipped" =
      sampleWorld.metrics "any.log Skipped" ∧
    (checkLineMatch sampleEnv sampleWorld "" 3).metrics "any.log Skipped" ≠
      some ((sampleWorld.metrics "any.log Skipped").getD 0 + 1) := by
  refine ⟨by decide, rfl, rfl, rfl, rfl, ?_⟩
  have h : (checkLineMatch sampleEnv sampleWorld "" 3).metrics "any.log Skipped" = none := rfl
  rw [h]
  simp

/-- What `checkLineMatch` does with a non-empty line that the match regexp
matches and the skip test lets through. -/
theorem checkLineMatch_pass (env : Env) (w : World) (p : FilePtr) (text : String)
    (re : regexp.Regexp) (hre : (w.heap p).re = some re) (hne : text ≠ "")
    (hm : env.MatchString re text = true)
    (hns : isSkipped env (w.heap p) text = false) :
    checkLineMatch env w text p =
      if env.pour w.pours then
        { w.count ((w.heap p).Path ++ " Matched") 1 with
          pours := w.pours + 1
          sent := w.sent ++ [matchRequest env (w.heap p) re text] }
      else
        ({ w.count ((w.heap p).Path ++ " Matched") 1 with
          pours := w.pours + 1 }).count ((w.heap p).Path ++ " Dropped") 1 := by
  unfold isSkipped at hns
  unfold checkLineMatch
  simp only [hre]
  cases hsk : (w.heap p).skip with
  | none =>
    simp only [hsk] at hns
    cases hp : env.pour w.pours <;>
      simp [hne, hm, hp, World.count, matchRequest]
  | some sk =>
    simp only [hsk] at hns
    cases hp : env.pour w.pours <;>
      simp [hne, hm, hns, hp, World.count, matchRequest]

/-- C12: for a non-empty line that the match regexp of the file matches and
that is not skipped, `checkLineMatch` calls `Pour(1)` once; when `Pour` grants
the token it sends one request, with route `LogLineRoute`, event `EventFile`,
`LogPayload` the `LogMatch` flag of the file and the match as payload, and the
"Dropped" counter stays; when `Pour` refuses it sends nothing and adds 1 to the
"Dropped" counter of the file. -/
theorem pour_decides (env : Env) (w : World) (p : FilePtr) (text : String)
    (re : regexp.Regexp) (hre : (w.heap p).re = some re) (hne : text ≠ "")
    (hm : env.MatchString re text = true)
    (hns : isSkipped env (w.heap p) text = false) :
    (checkLineMatch env w text p).pours = w.pours + 1 ∧
    (env.pour w.pours = true →
      (checkLineMatch env w text p).sent = w.sent ++
        [{ Route := env.LogLineRoute
           Event := env.EventFile
           LogPayload := (w.heap p).LogMatch
           LogMsg := "Watched-File Line Match: " ++ (w.heap p).Path ++ ": " ++ TrimSpace text
           PayloadFile := (w.heap p).Path
           PayloadMatches := env.FindAllString re text
           PayloadLine := TrimSpace text }] ∧
      (checkLineMatch env w text p).metrics ((w.heap p).Path ++ " Dropped") =
        w.metrics ((w.heap p).Path ++ " Dropped")) ∧
    (env.pour w.pours = false →
      (checkLineMatch env w text p).sent = w.sent ∧
      (checkLineMatch env w text p).metrics ((w.heap p).Path ++ " Dropped") =
        some ((w.metrics ((w.heap p).Path ++ " Dropped")).getD 0 + 1)) := by
  have h := checkLineMatch_pass env w p text re hre hne hm hns
  have k : (w.heap p).Path ++ " Dropped" ≠ (w.heap p).Path ++ " Matched" :=
    key_ne _ _ _ (by decide)
  refine ⟨?_, ?_, ?_⟩
  · rw [h]; split <;> rfl
  · intro hp
    rw [h]
    simp [hp, World.count, Metrics.Add, k, matchRequest]
  · intro hp
    rw [h]
    simp [hp, World.count, Metrics.Add, k]

/-- C12 on the line of the examples that is forwarded: the limiter of the
examples grants the token. -/
theorem pour_decides_witness :
    (checkLineMatch sampleEnv sampleWorld "2024-01-01 ERROR disk full" 2).pours = 1 ∧
    (checkLineMatch sampleEnv sampleWorld "2024-01-01 ERROR disk full" 2).sent.length = 1 :=
  ⟨(pour_decides sampleEnv sampleWorld 2 "2024-01-01 ERROR disk full" ⟨"ERROR"⟩
      rfl (by decide) (by rfl) (by rfl)).1,
   by
    rw [((pour_decides sampleEnv sampleWorld 2 "2024-01-01 ERROR disk full" ⟨"ERROR"⟩
      rfl (by decide) (by rfl) (by rfl)).2.1 rfl).1]
    rfl⟩

/-- What `TrimSpace` takes away is white space, at both ends, and what it
leaves neither starts nor ends with white space. -/
theorem trimSpace_spec (text : String) :
    ∃ pre post, text.data = pre ++ (TrimSpace text).data ++ post ∧
      (∀ c ∈ pre, isSpace c = true) ∧ (∀ c ∈ post, isSpace c = true) ∧
      (∀ c, (TrimSpace text).data.head? = some c → isSpace c = false) ∧
      (∀ c, (TrimSpace text).data.getLast? = some c → isSpace c = false) := by
  have e1 := List.takeWhile_append_dropWhile isSpace text.data
  have e2 := List.takeWhile_append_dropWhile isSpace (text.data.dropWhile isSpace).reverse
  refine ⟨text.data.takeWhile isSpace,
    ((text.data.dropWhile isSpace).reverse.takeWhile isSpace).reverse, ?_, ?_, ?_, ?_, ?_⟩
  · have e3 : text.data.dropWhile isSpace =
        ((text.data.dropWhile isSpace).reverse.dropWhile isSpace).reverse ++
        ((text.data.dropWhile isSpace).reverse.takeWhile isSpace).reverse := by
      rw [← List.reverse_append, e2, List.reverse_reverse]
    simp only [TrimSpace]
    rw [List.append_assoc, ← e3, e1]
  · intro c hc
    exact List.mem_takeWhile_imp hc
  · intro c hc
    exact List.mem_takeWhile_imp (List.mem_reverse.mp hc)
  · intro c hc
    have e3 : text.data.dropWhile isSpace =
        ((text.data.dropWhile isSpace).reverse.dropWhile isSpace).reverse ++
        ((text.data.dropWhile isSpace).reverse.takeWhile isSpace).reverse := by
      rw [← List.reverse_append, e2, List.reverse_reverse]
    have hd : (text.data.dropWhile isSpace).head? = some c := by
      rw [e3]
      simp only [TrimSpace] at hc
      cases hl : ((text.data.dropWhile isSpace).reverse.dropWhile isSpace).reverse with
      | nil => rw [hl] at hc; simp at hc
      | cons x xs => rw [hl] at hc; simpa using hc
    have hn := List.head?_dropWhile_not isSpace text.data
    rw [hd] at hn
    exact hn
  · intro c hc
    simp only [TrimSpace, List.getLast?_reverse] at hc
    have hn := List.head?_dropWhile_not isSpace (text.data.dropWhile isSpace).reverse
    rw [hc] at hn
    exact hn

/-- Every occurrence found of a literal is the literal. -/
theorem findLiteral_replicate (pat : List Char) (text : List Char) :
    ∀ skip, findLiteral pat skip text =
      List.replicate (findLiteral pat skip text).length (String.mk pat) := by
  induction text with
  | nil => intro skip; simp [findLiteral]
  | cons c cs ih =>
    intro skip
    cases skip with
    | succ k => simpa [findLiteral] using ih k
    | zero =>
      by_cases h : pat.isPrefixOf (c :: cs) = true
      · simp only [findLiteral, h, if_true, List.length_cons, List.replicate_succ]
        rw [← ih]
      · simp only [findLiteral, h, if_false]
        simpa using ih 0

/-- A text that holds a non-empty literal has at least one occurrence found. -/
theorem findLiteral_ne_nil (pat : List Char) (hpat : pat ≠ []) (text : List Char)
    (h : containsSub pat text = true) : findLiteral pat 0 text ≠ [] := by
  induction text with
  | nil =>
    cases pat with
    | nil => exact absurd rfl hpat
    | cons x xs => simp [containsSub] at h
  | cons c cs ih =>
    by_cases hp : pat.isPrefixOf (c :: cs) = true
    · simp [findLiteral, hp]
    · simp only [containsSub, hp, Bool.false_or] at h
      simp only [findLiteral, hp, if_false]
      exact ih h

/-- C11, as the code has it: on a file whose match expression is `ERROR` and
whose `Skip` is empty, with the regexp library matching a literal where it
occurs and the limiter granting the token, `checkLineMatch` sends one request
for a line that `ERROR` matches. The payload has one `"ERROR"` for each
occurrence of `ERROR` in the line, from left to right and not overlapping, at
least one; its `Line` is the text without the white space at its two ends; its
`File` is the path of the file. -/
theorem error_line_forwarded (env : Env) (w : World) (p : FilePtr) (text : String)
    (hM : env.MatchString ⟨"ERROR"⟩ text = containsSub "ERROR".data text.data)
    (hF : env.FindAllString ⟨"ERROR"⟩ text = findLiteral "ERROR".data 0 text.data)
    (hre : (w.heap p).re = some ⟨"ERROR"⟩) (hskip : (w.heap p).Skip = "")
    (hm : env.MatchString ⟨"ERROR"⟩ text = true) (hp : env.pour w.pours = true) :
    ∃ req k, (checkLineMatch env w text p).sent = w.sent ++ [req] ∧
      1 ≤ k ∧ k = (findLiteral "ERROR".data 0 text.data).length ∧
      req.PayloadMatches = List.replicate k "ERROR" ∧
      req.PayloadLine = TrimSpace text ∧
      req.PayloadFile = (w.heap p).Path ∧
      ∃ pre post, text.data = pre ++ req.PayloadLine.data ++ post ∧
        (∀ c ∈ pre, isSpace c = true) ∧ (∀ c ∈ post, isSpace c = true) ∧
        (∀ c, req.PayloadLine.data.head? = some c → isSpace c = false) ∧
        (∀ c, req.PayloadLine.data.getLast? = some c → isSpace c = false) := by
  have hc : containsSub "ERROR".data text.data = true := by rw [← hM]; exact hm
  have hne : text ≠ "" := by
    intro he
    subst he
    simp [containsSub] at hc
  have hns : isSkipped env (w.heap p) text = false := by
    unfold isSkipped
    cases (w.heap p).skip <;> simp [hskip]
  have h := checkLineMatch_pass env w p text ⟨"ERROR"⟩ hre hne hm hns
  simp only [hp, if_true] at h
  refine ⟨matchRequest env (w.heap p) ⟨"ERROR"⟩ text,
    (findLiteral "ERROR".data 0 text.data).length, ?_, ?_, rfl, ?_, rfl, rfl,
    trimSpace_spec text⟩
  · rw [h]
  · have := findLiteral_ne_nil "ERROR".data (by decide) text.data hc
    exact Nat.pos_of_ne_zero (fun h0 => this (List.length_eq_zero.mp h0))
  · show env.FindAllString ⟨"ERROR"⟩ text = _
    rw [hF]
    exact findLiteral_replicate "ERROR".data text.data 0

/-- C11 on the line of the examples, `ERROR` occurring once: the request sent
carries `["ERROR"]`. -/
theorem error_line_forwarded_witness :
    ∃ req k, (checkLineMatch sampleEnv errWorld "2024-01-01 ERROR disk full" 4).sent =
        errWorld.sent ++ [req] ∧
      1 ≤ k ∧ k = (findLiteral "ERROR".data 0 "2024-01-01 ERROR disk full".data).length ∧
      req.PayloadMatches = List.replicate k "ERROR" ∧
      req.PayloadLine = TrimSpace "2024-01-01 ERROR disk full" ∧
      req.PayloadFile = (errWorld.heap 4).Path ∧
      ∃ pre post, "2024-01-01 ERROR disk full".data = pre ++ req.PayloadLine.data ++ post ∧
        (∀ c ∈ pre, isSpace c = true) ∧ (∀ c ∈ post, isSpace c = true) ∧
        (∀ c, req.PayloadLine.data.head? = some c → isSpace c = false) ∧
        (∀ c, req.PayloadLine.data.getLast? = some c → isSpace c = false) :=
  error_line_forwarded sampleEnv errWorld 4 "2024-01-01 ERROR disk full"
    (by rfl) (by rfl) (by rfl) (by rfl) (by rfl) (by rfl)

/-- C11 as stated fails on a line that holds `ERROR` twice: the file has no
skip pattern, the line matches, the limiter grants the token, and the one
request sent carries `["ERROR", "ERROR"]`. -/
theorem error_twice_gives_two_matches :
    (errWorld.heap 4).Regexp = "ERROR" ∧ (errWorld.heap 4).Skip = "" ∧
    sampleEnv.MatchString ⟨"ERROR"⟩ "ERROR after ERROR" = true ∧
    sampleEnv.pour errWorld.pours = true ∧
    ((checkLineMatch sampleEnv errWorld "ERROR after ERROR" 4).sent.map
      (fun r => r.PayloadMatches)) = [["ERROR", "ERROR"]] ∧
    ((checkLineMatch sampleEnv errWorld "ERROR after ERROR" 4).sent.map
      (fun r => r.PayloadMatches)) ≠ [["ERROR"]] := by
  refine ⟨rfl, rfl, by rfl, rfl, by rfl, ?_⟩
  have h : ((checkLineMatch sampleEnv errWorld "ERROR after ERROR" 4).sent.map
      (fun r => r.PayloadMatches)) = [["ERROR", "ERROR"]] := by rfl
  rw [h]
  decide

end filewatch
end Notifiarr

namespace Notifiarr
namespace ratelimiter

/-- Inside a running interval a limiter with `k` tokens grants the first `k`
calls of `Pour(1)` and refuses the others. -/
theorem pourAll_in_window (cap interval start : Nat) (times : List Nat) :
    ∀ k, (∀ t ∈ times, t - start < interval) →
      pourAll ⟨cap, interval, k, some start⟩ times =
        List.replicate (min k times.length) true ++
          List.replicate (times.length - k) false := by
  induction times with
  | nil => intro k _; simp [pourAll]
  | cons t rest ih =>
    intro k h
    have ht : ¬ interval ≤ t - start := by
      have := h t (List.mem_cons_self _ _)
      omega
    have hrest : ∀ u ∈ rest, u - start < interval :=
      fun u hu => h u (List.mem_cons_of_mem _ hu)
    cases k with
    | zero =>
      have h0 := ih 0 hrest
      simp only [pourAll, LeakyBucket.Pour, LeakyBucket.refill, ht, if_false]
      simp only [Nat.zero_min, List.replicate_zero, List.nil_append, Nat.sub_zero,
        List.length_cons, List.replicate_succ] at h0 ⊢
      simp [h0]
    | succ j =>
      have hj := ih j hrest
      simp only [pourAll, LeakyBucket.Pour, LeakyBucket.refill, ht, if_false]
      simp only [List.length_cons]
      have e1 : min (j + 1) (rest.length + 1) = min j rest.length + 1 := by omega
      have e2 : rest.length + 1 - (j + 1) = rest.length - j := by omega
      rw [e1, e2, List.replicate_succ]
      simp [hj]

end ratelimiter
end Notifiarr

namespace Notifiarr
namespace filewatch

/-- No more calls are granted than are made. -/
theorem granted_le (env : Env) (n : Nat) : ∀ k, granted env k n ≤ n := by
  induction n with
  | zero => intro k; simp [granted]
  | succ m ih =>
    intro k
    have := ih (k + 1)
    simp only [granted]
    split <;> omega

/-- `checkLineMatch` leaves the files as they are. -/
theorem checkLineMatch_heap (env : Env) (w : World) (text : String) (p : FilePtr) :
    (checkLineMatch env w text p).heap = w.heap := by
  simp only [checkLineMatch]
  repeat' split
  all_goals rfl

/-- The counts of one line that is non-empty, matched and not skipped. -/
theorem checkLineMatch_pass_counts (env : Env) (w : World) (p : FilePtr) (text : String)
    (re : regexp.Regexp) (hre : (w.heap p).re = some re) (hne : text ≠ "")
    (hm : env.MatchString re text = true)
    (hns : isSkipped env (w.heap p) text = false) :
    (checkLineMatch env w text p).pours = w.pours + 1 ∧
    (checkLineMatch env w text p).sent.length =
      w.sent.length + (if env.pour w.pours then 1 else 0) ∧
    (((checkLineMatch env w text p).metrics ((w.heap p).Path ++ " Dropped")).getD 0 : Int) +
        ((if env.pour w.pours then 1 else 0 : Nat) : Int) =
      (w.metrics ((w.heap p).Path ++ " Dropped")).getD 0 + 1 ∧
    (((checkLineMatch env w text p).metrics ((w.heap p).Path ++ " Matched")).getD 0 : Int) =
      (w.metrics ((w.heap p).Path ++ " Matched")).getD 0 + 1 := by
  have h := checkLineMatch_pass env w p text re hre hne hm hns
  have k1 : (w.heap p).Path ++ " Dropped" ≠ (w.heap p).Path ++ " Matched" :=
    key_ne _ _ _ (by decide)
  rw [h]
  cases hp : env.pour w.pours with
  | true => simp [World.count, Metrics.Add, k1]
  | false => simp [World.count, Metrics.Add, k1, k1.symm]

/-- Over lines of one file that are non-empty, matched and not skipped, every
line is counted as matched and costs one call of `Pour(1)`; a line is sent when
its call is granted and counted as dropped when it is not. -/
theorem checkLines_pass (env : Env) (p : FilePtr) (re : regexp.Regexp) (texts : List String) :
    ∀ w : World, (w.heap p).re = some re →
      (∀ text ∈ texts, text ≠ "" ∧ env.MatchString re text = true ∧
        isSkipped env (w.heap p) text = false) →
      (checkLines env w texts p).heap = w.heap ∧
      (checkLines env w texts p).pours = w.pours + texts.length ∧
      (checkLines env w texts p).sent.length =
        w.sent.length + granted env w.pours texts.length ∧
      (((checkLines env w texts p).metrics ((w.heap p).Path ++ " Dropped")).getD 0 : Int) +
          (granted env w.pours texts.length : Int) =
        (w.metrics ((w.heap p).Path ++ " Dropped")).getD 0 + (texts.length : Int) ∧
      (((checkLines env w texts p).metrics ((w.heap p).Path ++ " Matched")).getD 0 : Int) =
        (w.metrics ((w.heap p).Path ++ " Matched")).getD 0 + (texts.length : Int) := by
  induction texts with
  | nil => intro w _ _; simp [checkLines, granted]
  | cons text rest ih =>
    intro w hre hall
    obtain ⟨hne, hm, hns⟩ := hall text (List.mem_cons_self _ _)
    obtain ⟨s1, s2, s3, s4⟩ := checkLineMatch_pass_counts env w p text re hre hne hm hns
    have hheap := checkLineMatch_heap env w text p
    have hrest : ∀ t ∈ rest, t ≠ "" ∧ env.MatchString re t = true ∧
        isSkipped env ((checkLineMatch env w text p).heap p) t = false := by
      intro t ht
      rw [hheap]
      exact hall t (List.mem_cons_of_mem _ ht)
    have hre' : ((checkLineMatch env w text p).heap p).re = some re := by rw [hheap]; exact hre
    obtain ⟨a1, a2, a3, a4, a5⟩ := ih (checkLineMatch env w text p) hre' hrest
    have hfold : checkLines env w (text :: rest) p =
        checkLines env (checkLineMatch env w text p) rest p := rfl
    rw [hheap] at a4 a5
    rw [s1] at a2 a3 a4
    have hg : granted env w.pours (rest.length + 1) =
        (if env.pour w.pours then 1 else 0) + granted env (w.pours + 1) rest.length := rfl
    rw [hfold]
    simp only [List.length_cons, hg]
    refine ⟨a1.trans hheap, by omega, by omega, ?_, ?_⟩
    · push_cast
      push_cast at a4 s3
      omega
    · push_cast
      omega

/-- Ten calls of `Pour(1)` on the unused limiter of the watcher, all less than
`requestPer` after the first: the first six are granted, the last four are not. -/
theorem pourAll_newLimiter (t0 : Nat) (rest : List Nat) (hlen : rest.length = 9)
    (hwin : ∀ t ∈ rest, t - t0 < requestPer) :
    ratelimiter.pourAll newLimiter (t0 :: rest) =
      [true, true, true, true, true, true, false, false, false, false] := by
  have h := ratelimiter.pourAll_in_window burstRate requestPer t0 rest 5 hwin
  have e : ratelimiter.pourAll newLimiter (t0 :: rest) =
      true :: ratelimiter.pourAll ⟨burstRate, requestPer, 5, some t0⟩ rest := by
    simp [ratelimiter.pourAll, newLimiter, ratelimiter.NewLeakyBucket,
      ratelimiter.LeakyBucket.Pour, ratelimiter.LeakyBucket.refill, burstRate]
  rw [e, h, hlen]
  decide

/-- C13: `New` gives the watcher a limiter of capacity 6 and interval 1.5 s,
unused and full. For every ten calls of `Pour(1)` on it that all come less
than 1.5 s after the first, exactly the first six are granted and the other
four are refused, whatever the times inside the window; and of ten lines of a
file that are non-empty, matched and not skipped, taken with these answers of
the limiter, six are sent and four are counted as dropped. -/
theorem burst_of_ten :
    newLimiter.Capacity = 6 ∧ newLimiter.RefillInterval = 1500000000 ∧
    newLimiter.tokens = 6 ∧ newLimiter.windowStart = none ∧
    (∀ (t0 : Nat) (rest : List Nat), rest.length = 9 →
      (∀ t ∈ rest, t - t0 < requestPer) →
      ratelimiter.pourAll newLimiter (t0 :: rest) =
        [true, true, true, true, true, true, false, false, false, false] ∧
      (ratelimiter.pourAll newLimiter (t0 :: rest)).count true = 6 ∧
      (ratelimiter.pourAll newLimiter (t0 :: rest)).count false = 4) ∧
    (∀ (env : Env) (w : World) (p : FilePtr) (re : regexp.Regexp) (texts : List String)
      (t0 : Nat) (rest : List Nat), rest.length = 9 →
      (∀ t ∈ rest, t - t0 < requestPer) →
      w.pours = 0 →
      (∀ i, i < 10 → env.pour i = (ratelimiter.pourAll newLimiter (t0 :: rest)).getD i false) →
      (w.heap p).re = some re → texts.length = 10 →
      (∀ text ∈ texts, text ≠ "" ∧ env.MatchString re text = true ∧
        isSkipped env (w.heap p) text = false) →
      (checkLines env w texts p).sent.length = w.sent.length + 6 ∧
      (((checkLines env w texts p).metrics ((w.heap p).Path ++ " Dropped")).getD 0 : Int) =
        (w.metrics ((w.heap p).Path ++ " Dropped")).getD 0 + 4) := by
  refine ⟨rfl, rfl, rfl, rfl, ?_, ?_⟩
  · intro t0 rest hlen hwin
    rw [pourAll_newLimiter t0 rest hlen hwin]
    exact ⟨rfl, by decide, by decide⟩
  · intro env w p re texts t0 rest hlen hwin hp0 hpour hre htl hall
    rw [pourAll_newLimiter t0 rest hlen hwin] at hpour
    obtain ⟨-, -, a3, a4, -⟩ := checkLines_pass env p re texts w hre hall
    have hg : granted env w.pours texts.length = 6 := by
      rw [hp0, htl]
      simp [granted, hpour 0 (by omega), hpour 1 (by omega), hpour 2 (by omega),
        hpour 3 (by omega), hpour 4 (by omega), hpour 5 (by omega), hpour 6 (by omega),
        hpour 7 (by omega), hpour 8 (by omega), hpour 9 (by omega)]
    rw [hg] at a3 a4
    rw [htl] at a4
    refine ⟨a3, ?_⟩
    push_cast at a4
    omega

/-- C13 at ten calls 0.1 s apart: six are granted, four are refused. -/
theorem burst_of_ten_witness :
    ratelimiter.pourAll newLimiter
      [0, 100000000, 200000000, 300000000, 400000000, 500000000, 600000000, 700000000,
        800000000, 900000000] =
      [true, true, true, true, true, true, false, false, false, false] :=
  (burst_of_ten.2.2.2.2.1 0
    [100000000, 200000000, 300000000, 400000000, 500000000, 600000000, 700000000,
      800000000, 900000000] rfl (by decide)).1

/-- `setup` on a file without a match expression. -/
theorem setup_noRegexp (env : Env) (w : World) (p : FilePtr)
    (h : (w.heap p).Regexp = "") :
    setup env w p =
      (w.setFile p { w.heap p with retries := maxRetries }, some Err.noRegexp) := by
  simp [setup, h]

/-- `setup` on a file whose match expression does not compile. -/
theorem setup_matchCompile (env : Env) (w : World) (p : FilePtr)
    (h : (w.heap p).Regexp ≠ "") (hc : env.compile (w.heap p).Regexp = none) :
    setup env w p =
      (w.setFile p { w.heap p with retries := maxRetries, re := none },
        some Err.matchCompile) := by
  simp [setup, h, hc]

/-- `setup` on a file whose skip expression does not compile. -/
theorem setup_skipCompile (env : Env) (w : World) (p : FilePtr) (r : regexp.Regexp)
    (h : (w.heap p).Regexp ≠ "") (hc : env.compile (w.heap p).Regexp = some r)
    (hs : env.compile (w.heap p).Skip = none) :
    setup env w p =
      (w.setFile p { w.heap p with retries := maxRetries, re := some r, skip := none },
        some Err.skipCompile) := by
  simp [setup, h, hc, hs]

/-- `setup` on a file that passes validation and whose tail does not open. -/
theorem setup_watching (env : Env) (w : World) (p : FilePtr) (r s : regexp.Regexp)
    (h : (w.heap p).Regexp ≠ "") (hc : env.compile (w.heap p).Regexp = some r)
    (hs : env.compile (w.heap p).Skip = some s)
    (ht : env.tailFile w.opens (validated env (w.heap p)) = none) :
    setup env w p =
      ((({ w with opens := w.opens + 1 } : World).setFile p
          { validated env (w.heap p) with tail := none }).count
            ((w.heap p).Path ++ " Errors") 1, some Err.watching) := by
  simp only [validated, hc, hs] at ht
  simp [setup, h, hc, hs, ht, validated]

/-- `setup` on a file that passes validation and whose tail opens. -/
theorem setup_ok (env : Env) (w : World) (p : FilePtr) (r s : regexp.Regexp) (t : Tail)
    (h : (w.heap p).Regexp ≠ "") (hc : env.compile (w.heap p).Regexp = some r)
    (hs : env.compile (w.heap p).Skip = some s)
    (ht : env.tailFile w.opens (validated env (w.heap p)) = some t) :
    setup env w p =
      (({ w with opens := w.opens + 1 } : World).setFile p
          { validated env (w.heap p) with tail := some t, retries := 0 }, none) := by
  simp only [validated, hc, hs] at ht
  simp [setup, h, hc, hs, ht, validated]

/-- The five ways through `setup`. -/
theorem setup_cases (env : Env) (w : World) (p : FilePtr) :
    ((w.heap p).Regexp = "" ∧
      setup env w p =
        (w.setFile p { w.heap p with retries := maxRetries }, some Err.noRegexp)) ∨
    ((w.heap p).Regexp ≠ "" ∧ env.compile (w.heap p).Regexp = none ∧
      setup env w p =
        (w.setFile p { w.heap p with retries := maxRetries, re := none },
          some Err.matchCompile)) ∨
    (∃ r, (w.heap p).Regexp ≠ "" ∧ env.compile (w.heap p).Regexp = some r ∧
      env.compile (w.heap p).Skip = none ∧
      setup env w p =
        (w.setFile p { w.heap p with retries := maxRetries, re := some r, skip := none },
          some Err.skipCompile)) ∨
    (∃ r s, (w.heap p).Regexp ≠ "" ∧ env.compile (w.heap p).Regexp = some r ∧
      env.compile (w.heap p).Skip = some s ∧
      env.tailFile w.opens (validated env (w.heap p)) = none ∧
      setup env w p =
        ((({ w with opens := w.opens + 1 } : World).setFile p
            { validated env (w.heap p) with tail := none }).count
              ((w.heap p).Path ++ " Errors") 1, some Err.watching)) ∨
    (∃ r s t, (w.heap p).Regexp ≠ "" ∧ env.compile (w.heap p).Regexp = some r ∧
      env.compile (w.heap p).Skip = some s ∧
      env.tailFile w.opens (validated env (w.heap p)) = some t ∧
      setup env w p =
        (({ w with opens := w.opens + 1 } : World).setFile p
            { validated env (w.heap p) with tail := some t, retries := 0 }, none)) := by
  by_cases h : (w.heap p).Regexp = ""
  · exact Or.inl ⟨h, setup_noRegexp env w p h⟩
  · rcases Option.eq_none_or_eq_some (env.compile (w.heap p).Regexp) with hc | ⟨r, hc⟩
    · exact Or.inr (Or.inl ⟨h, hc, setup_matchCompile env w p h hc⟩)
    · rcases Option.eq_none_or_eq_some (env.compile (w.heap p).Skip) with hs | ⟨s, hs⟩
      · exact Or.inr (Or.inr (Or.inl ⟨r, h, hc, hs, setup_skipCompile env w p r h hc hs⟩))
      · rcases Option.eq_none_or_eq_some
          (env.tailFile w.opens (validated env (w.heap p))) with ht | ⟨t, ht⟩
        · exact Or.inr (Or.inr (Or.inr (Or.inl
            ⟨r, s, h, hc, hs, ht, setup_watching env w p r s h hc hs ht⟩)))
        · exact Or.inr (Or.inr (Or.inr (Or.inr
            ⟨r, s, t, h, hc, hs, ht, setup_ok env w p r s t h hc hs ht⟩)))

/-- A file whose retries are at `maxRetries` or above is passed over by the
loop of the ticker. -/
theorem tickerLoop_skip (env : Env) (w : World) (p : FilePtr) (rest : List FilePtr)
    (sd : Bool) (h : maxRetries ≤ (w.heap p).retries) :
    tickerLoop env w (p :: rest) sd = tickerLoop env w rest sd := by
  rw [tickerLoop]
  simp [h]

/-- C14: `setup` returns an error that wraps `ErrInvalidRegexp` exactly when
`Regexp` is empty, `Regexp` does not compile or `Skip` does not compile; then
`tail.TailFile` has not been called, the tail handle of the file is as it was,
its retries are `maxRetries`, and the loop of the ticker passes the file over.
When validation passes and the tail opens, `setup` returns nil, the retries are
0 and the file is active. -/
theorem setup_invalid_regexp (env : Env) (w : World) (p : FilePtr) :
    ((∃ e, (setup env w p).2 = some e ∧ e.isInvalidRegexp = true) ↔
      ((w.heap p).Regexp = "" ∨ env.compile (w.heap p).Regexp = none ∨
        env.compile (w.heap p).Skip = none)) ∧
    (∀ e, (setup env w p).2 = some e → e.isInvalidRegexp = true →
      (setup env w p).1.opens = w.opens ∧
      ((setup env w p).1.heap p).tail = (w.heap p).tail ∧
      ((setup env w p).1.heap p).retries = maxRetries ∧
      ∀ rest sd, tickerLoop env (setup env w p).1 (p :: rest) sd =
        tickerLoop env (setup env w p).1 rest sd) ∧
    (∀ r s t, (w.heap p).Regexp ≠ "" → env.compile (w.heap p).Regexp = some r →
      env.compile (w.heap p).Skip = some s →
      env.tailFile w.opens (validated env (w.heap p)) = some t →
      (setup env w p).2 = none ∧ ((setup env w p).1.heap p).retries = 0 ∧
      ((setup env w p).1.heap p).tail = some t ∧ Active (setup env w p).1 p = true) := by
  refine ⟨?_, ?_, ?_⟩
  · rcases setup_cases env w p with ⟨h, e⟩ | ⟨h, hc, e⟩ | ⟨r, h, hc, hs, e⟩ |
      ⟨r, s, h, hc, hs, ht, e⟩ | ⟨r, s, t, h, hc, hs, ht, e⟩
    · rw [e]; simp [h, Err.isInvalidRegexp]
    · rw [e]; simp [hc, Err.isInvalidRegexp]
    · rw [e]; simp [hs, Err.isInvalidRegexp]
    · rw [e]; simp [h, hc, hs, Err.isInvalidRegexp]
    · rw [e]; simp [h, hc, hs]
  · intro err herr hinv
    have key : (setup env w p).1.opens = w.opens ∧
        ((setup env w p).1.heap p).tail = (w.heap p).tail ∧
        ((setup env w p).1.heap p).retries = maxRetries := by
      rcases setup_cases env w p with ⟨h, e⟩ | ⟨h, hc, e⟩ | ⟨r, h, hc, hs, e⟩ |
        ⟨r, s, h, hc, hs, ht, e⟩ | ⟨r, s, t, h, hc, hs, ht, e⟩
      · rw [e]; simp [World.setFile]
      · rw [e]; simp [World.setFile]
      · rw [e]; simp [World.setFile]
      · rw [e] at herr
        simp only [Option.some.injEq] at herr
        subst herr
        simp [Err.isInvalidRegexp] at hinv
      · rw [e] at herr
        simp at herr
    refine ⟨key.1, key.2.1, key.2.2, ?_⟩
    intro rest sd
    exact tickerLoop_skip env _ p rest sd (by rw [key.2.2])
  · intro r s t h hc hs ht
    rw [setup_ok env w p r s t h hc hs ht]
    simp [World.setFile, Active]

/-- C14 on the file without a match expression: the error wraps
`ErrInvalidRegexp`. -/
theorem setup_invalid_regexp_witness :
    ∃ e, (setup sampleEnv emptyWorld 5).2 = some e ∧ e.isInvalidRegexp = true :=
  (setup_invalid_regexp sampleEnv emptyWorld 5).1.mpr (Or.inl rfl)

/-- The counters of `setup` in each way it can fail: a file without a match
expression, a match expression that does not compile and a skip expression
that does not compile each make `setup` return its error with every counter as
it was and without a call of `tail.TailFile`; a tail that does not open makes
`setup` return its error after adding 1 to the "Errors" counter of the file;
`setup` calls `tail.TailFile` once at most. -/
theorem setup_counts_tail_errors (env : Env) (w : World) (p : FilePtr) :
    ((w.heap p).Regexp = "" →
      (setup env w p).2 = some Err.noRegexp ∧ (setup env w p).1.metrics = w.metrics ∧
      (setup env w p).1.opens = w.opens) ∧
    ((w.heap p).Regexp ≠ "" → env.compile (w.heap p).Regexp = none →
      (setup env w p).2 = some Err.matchCompile ∧ (setup env w p).1.metrics = w.metrics ∧
      (setup env w p).1.opens = w.opens) ∧
    ((w.heap p).Regexp ≠ "" → env.compile (w.heap p).Regexp ≠ none →
      env.compile (w.heap p).Skip = none →
      (setup env w p).2 = some Err.skipCompile ∧ (setup env w p).1.metrics = w.metrics ∧
      (setup env w p).1.opens = w.opens) ∧
    ((w.heap p).Regexp ≠ "" → env.compile (w.heap p).Regexp ≠ none →
      env.compile (w.heap p).Skip ≠ none →
      env.tailFile w.opens (validated env (w.heap p)) = none →
      (setup env w p).2 = some Err.watching ∧
      (setup env w p).1.metrics = w.metrics.Add ((w.heap p).Path ++ " Errors") 1 ∧
      (setup env w p).1.metrics ((w.heap p).Path ++ " Errors") =
        some ((w.metrics ((w.heap p).Path ++ " Errors")).getD 0 + 1) ∧
      (setup env w p).1.opens = w.opens + 1) ∧
    (setup env w p).1.opens ≤ w.opens + 1 := by
  rcases setup_cases env w p with ⟨h, e⟩ | ⟨h, hc, e⟩ | ⟨r, h, hc, hs, e⟩ |
    ⟨r, s, h, hc, hs, ht, e⟩ | ⟨r, s, t, h, hc, hs, ht, e⟩
  · rw [e]; simp [h, World.setFile]
  · rw [e]; simp [h, hc, World.setFile]
  · rw [e]; simp [h, hc, hs, World.setFile]
  · rw [e]; simp [h, hc, hs, ht, World.setFile, World.count, Metrics.Add]
  · rw [e]; simp [h, hc, hs, ht, World.setFile]

/-- The counters of `setup` on a tail that does not open: the "Errors" counter
of the file goes up by 1. -/
theorem setup_counts_tail_errors_witness :
    (setup { sampleEnv with tailFile := fun _ _ => none } sampleWorld 2).2 = some Err.watching ∧
    (setup { sampleEnv with tailFile := fun _ _ => none } sampleWorld 2).1.metrics
      ((sampleWorld.heap 2).Path ++ " Errors") =
        some ((sampleWorld.metrics ((sampleWorld.heap 2).Path ++ " Errors")).getD 0 + 1) :=
  ⟨((setup_counts_tail_errors { sampleEnv with tailFile := fun _ _ => none } sampleWorld 2).2.2.2.1
      (by decide) (by decide) (by decide) rfl).1,
   ((setup_counts_tail_errors { sampleEnv with tailFile := fun _ _ => none } sampleWorld 2).2.2.2.1
      (by decide) (by decide) (by decide) rfl).2.2.1⟩

/-- C15 at a file without a match expression: `setup` returns its error, which
wraps `ErrInvalidRegexp`, and the "Errors" counter of the file is as it was,
not one up. -/
theorem setup_no_regexp_not_counted :
    (emptyWorld.heap 5).Regexp = "" ∧
    (setup sampleEnv emptyWorld 5).2 = some Err.noRegexp ∧
    (setup sampleEnv emptyWorld 5).1.metrics "empty.log Errors" =
      emptyWorld.metrics "empty.log Errors" ∧
    (setup sampleEnv emptyWorld 5).1.metrics "empty.log Errors" ≠
      some ((emptyWorld.metrics "empty.log Errors").getD 0 + 1) := by
  refine ⟨rfl, rfl, rfl, ?_⟩
  have h : (setup sampleEnv emptyWorld 5).1.metrics "empty.log Errors" = none := rfl
  rw [h]
  simp

/-- `setup` leaves the add channel and the mutex alone. -/
theorem setup_frame (env : Env) (w : World) (p : FilePtr) :
    (setup env w p).1.addWatcher = w.addWatcher ∧
    (setup env w p).1.awLocked = w.awLocked ∧
    (setup env w p).1.files = w.files := by
  rcases setup_cases env w p with ⟨h, e⟩ | ⟨h, hc, e⟩ | ⟨r, h, hc, hs, e⟩ |
    ⟨r, s, h, hc, hs, ht, e⟩ | ⟨r, s, t, h, hc, hs, ht, e⟩ <;>
  · rw [e]; simp [World.setFile, World.count]

/-- C20: with a nil add channel `addFileWatcher` changes nothing, `setup` is
not called, and what it returns is `ErrNoChannel` (it waits as long as a
writer holds the mutex). With the channel there and `setup` failing it returns
the error of `setup` and the add channel is as it was. It returns nil only
when `setup` has succeeded, and then the file has been put on the add channel
once; whenever it does not return nil the add channel is as it was. With
`setup` succeeding and room in the open channel it does return nil. -/
theorem addFileWatcher_contract (env : Env) (w : World) (file : FilePtr) :
    (w.addWatcher = none →
      (addFileWatcher env w file).1 = w ∧
      ((addFileWatcher env w file).2 = Outcome.returned (some Err.noChannel) ∨
        (addFileWatcher env w file).2 = Outcome.blocked) ∧
      (w.awLocked = false →
        (addFileWatcher env w file).2 = Outcome.returned (some Err.noChannel))) ∧
    (∀ ch err, w.awLocked = false → w.addWatcher = some ch →
      (setup env w file).2 = some err →
      addFileWatcher env w file = ((setup env w file).1, Outcome.returned (some err)) ∧
      (addFileWatcher env w file).1.addWatcher = some ch) ∧
    ((addFileWatcher env w file).2 = Outcome.returned none →
      (setup env w file).2 = none ∧
      ∃ ch, w.addWatcher = some ch ∧
        (addFileWatcher env w file).1.addWatcher =
          some { ch with buf := ch.buf ++ [some file] }) ∧
    ((addFileWatcher env w file).2 ≠ Outcome.returned none →
      (addFileWatcher env w file).1.addWatcher = w.addWatcher) ∧
    (∀ ch, w.awLocked = false → w.addWatcher = some ch → ch.closed = false →
      ch.buf = [] → (setup env w file).2 = none →
      (addFileWatcher env w file).2 = Outcome.returned none ∧
      (addFileWatcher env w file).1.addWatcher = some { ch with buf := [some file] }) := by
  obtain ⟨f1, f2, -⟩ := setup_frame env w file
  refine ⟨?_, ?_, ?_, ?_, ?_⟩
  · intro hn
    cases hl : w.awLocked <;> simp [addFileWatcher, hl, hn]
  · intro ch err hl hch herr
    rcases hs : setup env w file with ⟨w1, o⟩
    rw [hs] at herr f1
    simp only at herr f1
    subst herr
    simp [addFileWatcher, hl, hch, hs, f1]
  · intro hret
    unfold addFileWatcher at hret ⊢
    cases hl : w.awLocked with
    | true => simp [hl] at hret
    | false =>
      cases hch : w.addWatcher with
      | none => simp [hl, hch] at hret
      | some ch =>
        rcases hs : setup env w file with ⟨w1, o⟩
        rw [hs] at f1
        simp only at f1
        rw [hch] at f1
        cases o with
        | some err => simp [hl, hch, hs] at hret
        | none =>
          simp only [hl, hch, hs, f1] at hret ⊢
          by_cases hc : ch.closed = true
          · simp [hc] at hret
          · by_cases hb : 1 ≤ ch.buf.length
            · simp [hc, hb] at hret
            · simp [hc, hb]
  · intro hnr
    unfold addFileWatcher at hnr ⊢
    cases hl : w.awLocked with
    | true => simp [hl]
    | false =>
      cases hch : w.addWatcher with
      | none => simp [hl, hch]
      | some ch =>
        rcases hs : setup env w file with ⟨w1, o⟩
        rw [hs] at f1
        simp only at f1
        rw [hch] at f1
        cases o with
        | some err => simp [hl, hch, hs, f1]
        | none =>
          simp only [hl, hch, hs, f1] at hnr ⊢
          by_cases hc : ch.closed = true
          · simp [hc, f1]
          · by_cases hb : 1 ≤ ch.buf.length
            · simp [hc, hb, f1]
            · simp [hc, hb] at hnr
  · intro ch hl hch hopen hbuf hok
    rcases hs : setup env w file with ⟨w1, o⟩
    rw [hs] at hok f1
    simp only at hok f1
    subst hok
    rw [hch] at f1
    simp [addFileWatcher, hl, hch, hs, f1, hopen, hbuf]

/-- C20 on the world of the examples: `any.log` is set up and put on the add
channel. -/
theorem addFileWatcher_contract_witness :
    (addFileWatcher sampleEnv sampleWorld 3).2 = Outcome.returned none ∧
    (addFileWatcher sampleEnv sampleWorld 3).1.addWatcher = some ⟨10, [some 3], false⟩ :=
  (addFileWatcher_contract sampleEnv sampleWorld 3).2.2.2.2 ⟨10, [], false⟩
    rfl rfl rfl rfl rfl

/-- `killWatcher` clears the tail handle of the file whatever stopping the
tail does, and changes the retries of no file. -/
theorem killWatcher_clears (env : Env) (w : World) (p : FilePtr) :
    ((killWatcher env w p).1.heap p).tail = none ∧
    (∀ q, ((killWatcher env w p).1.heap q).retries = (w.heap q).retries) ∧
    (killWatcher env w p).1.files = w.files := by
  unfold killWatcher deactivate stop
  cases h : (w.heap p).tail with
  | none =>
    refine ⟨by simp [World.setFile], ?_, by simp [World.setFile]⟩
    intro q
    by_cases hq : q = p <;> simp [World.setFile, hq]
  | some t =>
    cases hb : env.tailStopFails w.stops t
    · refine ⟨by simp [hb, World.setFile], ?_, by simp [hb, World.setFile]⟩
      intro q
      by_cases hq : q = p <;> simp [hb, World.setFile, hq]
    · refine ⟨by simp [hb, World.setFile, World.count], ?_,
        by simp [hb, World.setFile, World.count]⟩
      intro q
      by_cases hq : q = p <;> simp [hb, World.setFile, World.count, hq]

/-- `killWatcher` on a file with its tail handle returns whether stopping the
tail failed. -/
theorem killWatcher_returns (env : Env) (w : World) (p : FilePtr) (t : Tail)
    (h : (w.heap p).tail = some t) :
    (killWatcher env w p).2 = Outcome.returned (env.tailStopFails w.stops t) := by
  unfold killWatcher deactivate stop
  cases hb : env.tailStopFails w.stops t <;> simp [h, hb]

/-- The step of a closed event on a data source, in terms of `killWatcher`. -/
theorem loopStep_close_eq (env : Env) (w : World) (st : LoopState) (ev : Event)
    (hsel : ev.selectable st.cases = true) (hc : ev.isClose = true)
    (item : FilePtr) (hitem : st.tails[ev.idx]? = some item) :
    (loopStep env w st ev).w = (killWatcher env w item).1 ∧
    (∀ b, (killWatcher env w item).2 = Outcome.returned b →
      (loopStep env w st ev).status = Status.running ∧ (loopStep env w st ev).st.died = b) := by
  simp only [Event.isClose, Bool.and_eq_true, Bool.not_eq_true', decide_eq_true_eq,
    specialCase] at hc
  obtain ⟨hr, hi⟩ := hc
  have h0 : (ev.idx == 0) = false := by simp; omega
  simp only [loopStep, hsel, if_true, loopBody, hitem, hr, h0]
  simp only [Bool.not_false, Bool.and_false, Bool.false_eq_true, if_false, if_true]
  rcases hk : killWatcher env w item with ⟨w1, o⟩
  cases o with
  | returned b => simp
  | panicked msg => simp
  | blocked => simp

/-- One turn of the loop of the ticker. -/
theorem tickerLoop_cons (env : Env) (w : World) (item : FilePtr) (rest : List FilePtr)
    (sd : Bool) :
    tickerLoop env w (item :: rest) sd =
      if passedOver w item then tickerLoop env w rest sd
      else
        match addFileWatcher env (beforeRestart w item) item with
        | (w2, Outcome.returned (some _)) =>
          tickerLoop env (w2.count ((w2.heap item).Path ++ " Errors") 1) rest true
        | (w2, Outcome.returned none) =>
          tickerLoop env
            ((w2.setFile item { w2.heap item with retries := 0 }).count
              ((w2.heap item).Path ++ " Restarts") 1) rest sd
        | (w2, Outcome.panicked msg) => (w2, Outcome.panicked msg)
        | (w2, Outcome.blocked) => (w2, Outcome.blocked) := by
  rw [tickerLoop]
  rfl

/-- One turn of the log of the ticker. -/
theorem tickerLog_cons (env : Env) (w : World) (item : FilePtr) (rest : List FilePtr) :
    tickerLog env w (item :: rest) =
      if passedOver w item then tickerLog env w rest
      else
        match addFileWatcher env (beforeRestart w item) item with
        | (w2, Outcome.returned (some _)) =>
          (item, false) :: tickerLog env (w2.count ((w2.heap item).Path ++ " Errors") 1) rest
        | (w2, Outcome.returned none) =>
          (item, true) :: tickerLog env
            ((w2.setFile item { w2.heap item with retries := 0 }).count
              ((w2.heap item).Path ++ " Restarts") 1) rest
        | (_, Outcome.panicked _) => [(item, false)]
        | (_, Outcome.blocked) => [(item, false)] := by
  rw [tickerLog]

/-- `setup` changes no file but its own. -/
theorem setup_heap_other (env : Env) (w : World) (p q : FilePtr) (h : q ≠ p) :
    (setup env w p).1.heap q = w.heap q := by
  rcases setup_cases env w p with ⟨_, e⟩ | ⟨_, _, e⟩ | ⟨r, _, _, _, e⟩ |
    ⟨r, s, _, _, _, _, e⟩ | ⟨r, s, t, _, _, _, _, e⟩ <;>
  · rw [e]; simp [World.setFile, World.count, h]

/-- `addFileWatcher` changes no file but its own, and leaves the list of
configured files alone. -/
theorem addFileWatcher_heap_other (env : Env) (w : World) (p q : FilePtr) (h : q ≠ p) :
    (addFileWatcher env w p).1.heap q = w.heap q ∧
    (addFileWatcher env w p).1.files = w.files := by
  have hs := setup_heap_other env w p q h
  obtain ⟨-, -, hf⟩ := setup_frame env w p
  unfold addFileWatcher
  cases hl : w.awLocked with
  | true => simp
  | false =>
    cases hch : w.addWatcher with
    | none => simp
    | some ch =>
      rcases hsu : setup env w p with ⟨w1, o⟩
      rw [hsu] at hs hf
      simp only at hs hf
      cases o with
      | some err => simp [hs, hf]
      | none =>
        simp only [Bool.false_eq_true, if_false]
        cases w1.addWatcher with
        | none => simp [hs, hf]
        | some ch1 =>
          by_cases hc : ch1.closed = true
          · simp [hc, hs, hf]
          · by_cases hb : 1 ≤ ch1.buf.length
            · simp [hc, hb, hs, hf]
            · simp [hc, hb, hs, hf]

/-- What `addFileWatcher` leaves in the file it is called for: after an error
the retries are as before the call or at `maxRetries`, and the file is
inactive unless it was active and `setup` was not reached or failed at
validation; after nil the retries are 0 and the file is active. -/
theorem addFileWatcher_self (env : Env) (w : World) (p : FilePtr) :
    (∀ err, (addFileWatcher env w p).2 = Outcome.returned (some err) →
      (((addFileWatcher env w p).1.heap p).retries = (w.heap p).retries ∧
        err = Err.noChannel ∧ (addFileWatcher env w p).1 = w) ∨
      (((addFileWatcher env w p).1.heap p).retries = maxRetries ∧
        (addFileWatcher env w p).1 = (setup env w p).1 ∧ (setup env w p).2 = some err)) ∧
    ((addFileWatcher env w p).2 = Outcome.returned none →
      ((addFileWatcher env w p).1.heap p).retries = 0 ∧
      Active (addFileWatcher env w p).1 p = true) := by
  unfold addFileWatcher
  cases hl : w.awLocked with
  | true => simp
  | false =>
    cases hch : w.addWatcher with
    | none => simp
    | some ch =>
      simp only [Bool.false_eq_true, if_false]
      rcases setup_cases env w p with ⟨_, e⟩ | ⟨_, _, e⟩ | ⟨r, _, _, _, e⟩ |
        ⟨r, s, _, _, _, _, e⟩ | ⟨r, s, t, _, _, _, _, e⟩
      · rw [e]; simp [World.setFile]
      · rw [e]; simp [World.setFile]
      · rw [e]; simp [World.setFile]
      · rw [e]; simp [World.setFile, World.count, validated]
      · rw [e]
        simp only [World.setFile, hch]
        by_cases hc : ch.closed = true
        · simp [hc]
        · by_cases hb : 1 ≤ ch.buf.length
          · simp [hc, hb]
          · simp [hc, hb, Active]

/-- The world in which the ticker calls `addFileWatcher`. -/
theorem beforeRestart_heap (w : World) (item : FilePtr) :
    ((beforeRestart w item).heap item).retries = (w.heap item).retries + 1 ∧
    ((beforeRestart w item).heap item).tail = (w.heap item).tail ∧
    (∀ q, q ≠ item → (beforeRestart w item).heap q = w.heap q) ∧
    (beforeRestart w item).files = w.files := by
  refine ⟨by simp [beforeRestart, World.setFile, World.count],
    by simp [beforeRestart, World.setFile, World.count], ?_, rfl⟩
  intro q hq
  simp [beforeRestart, World.setFile, World.count, hq]

/-- The largest value of the count is at least its starting value. -/
theorem le_worstFailed (p : FilePtr) (log : List (FilePtr × Bool)) :
    ∀ n, n ≤ worstFailed p n log := by
  induction log with
  | nil => intro n; simp [worstFailed]
  | cons e rest ih =>
    intro n
    rcases e with ⟨q, ok⟩
    simp only [worstFailed]
    split
    · split
      · exact Nat.le_max_left _ _
      · exact Nat.le_trans (Nat.le_succ n) (ih (n + 1))
    · exact ih n

/-- A bound on the count over two logs in a row. -/
theorem worstFailed_append (p : FilePtr) (bound : Nat) (l1 l2 : List (FilePtr × Bool)) :
    ∀ n, worstFailed p n l1 ≤ bound → worstFailed p (failedSince p n l1) l2 ≤ bound →
      worstFailed p n (l1 ++ l2) ≤ bound := by
  induction l1 with
  | nil => intro n _ h2; simpa [failedSince] using h2
  | cons e rest ih =>
    intro n h1 h2
    rcases e with ⟨q, ok⟩
    simp only [List.cons_append, worstFailed, failedSince] at h1 h2 ⊢
    by_cases hq : q = p
    · simp only [hq, if_true] at h1 h2 ⊢
      cases ok with
      | true =>
        simp only [if_true] at h1 h2 ⊢
        have hn : n ≤ bound := Nat.le_trans (Nat.le_max_left _ _) h1
        have hr : worstFailed p 0 rest ≤ bound := Nat.le_trans (Nat.le_max_right _ _) h1
        exact Nat.max_le.mpr ⟨hn, ih 0 hr h2⟩
      | false =>
        simp only [Bool.false_eq_true, if_false] at h1 h2 ⊢
        exact ih (n + 1) h1 h2
    · simp only [hq, if_false] at h1 h2 ⊢
      exact ih n h1 h2

/-- The count after two logs in a row. -/
theorem failedSince_append (p : FilePtr) (l1 l2 : List (FilePtr × Bool)) :
    ∀ n, failedSince p n (l1 ++ l2) = failedSince p (failedSince p n l1) l2 := by
  induction l1 with
  | nil => intro n; rfl
  | cons e rest ih =>
    intro n
    rcases e with ⟨q, ok⟩
    simp only [List.cons_append, failedSince]
    split
    · split
      · exact ih 0
      · exact ih (n + 1)
    · exact ih n

/-- The loop of the ticker keeps the count of failed attempts for a file since
its last restart at `maxRetries` at most: when the count is not 0 it is at
most the retries of the file, which are at most `maxRetries`. -/
theorem tickerLog_bound (env : Env) (p : FilePtr) (files : List FilePtr) :
    ∀ (w : World) (n : Nat),
      (n = 0 ∨ (n ≤ (w.heap p).retries ∧ (w.heap p).retries ≤ maxRetries)) →
      worstFailed p n (tickerLog env w files) ≤ maxRetries ∧
      ∀ sd w1 b, tickerLoop env w files sd = (w1, Outcome.returned b) →
        (failedSince p n (tickerLog env w files) = 0 ∨
          (failedSince p n (tickerLog env w files) ≤ (w1.heap p).retries ∧
            (w1.heap p).retries ≤ maxRetries)) := by
  induction files with
  | nil =>
    intro w n hinv
    refine ⟨?_, ?_⟩
    · simp only [tickerLog, worstFailed]
      rcases hinv with h | h
      · omega
      · omega
    · intro sd w1 b h
      simp only [tickerLoop, Prod.mk.injEq] at h
      obtain ⟨hw, -⟩ := h
      subst hw
      simpa [tickerLog, failedSince] using hinv
  | cons item rest ih =>
    intro w n hinv
    have hn6 : n ≤ maxRetries := by
      rcases hinv with h | h
      · omega
      · omega
    rw [tickerLog_cons]
    by_cases hpo : passedOver w item = true
    · simp only [hpo, if_true]
      obtain ⟨i1, i2⟩ := ih w n hinv
      refine ⟨i1, ?_⟩
      intro sd w1 b h
      rw [tickerLoop_cons] at h
      simp only [hpo, if_true] at h
      exact i2 sd w1 b h
    · simp only [hpo, if_false]
      have hel : (w.heap item).retries < maxRetries := by
        simp only [passedOver, Bool.or_eq_true, decide_eq_true_eq, not_or] at hpo
        omega
      obtain ⟨b1, b2, b3, b4⟩ := beforeRestart_heap w item
      obtain ⟨s1, s2⟩ := addFileWatcher_self env (beforeRestart w item) item
      have hoth : ∀ q, q ≠ item →
          (addFileWatcher env (beforeRestart w item) item).1.heap q = w.heap q := by
        intro q hq
        rw [(addFileWatcher_heap_other env (beforeRestart w item) item q hq).1, b3 q hq]
      rcases hadd : addFileWatcher env (beforeRestart w item) item with ⟨w2, o⟩
      rw [hadd] at s1 s2 hoth
      simp only at s1 s2 hoth
      cases o with
      | panicked msg =>
        simp only []
        refine ⟨?_, ?_⟩
        · by_cases hip : item = p
          · subst hip
            simp only [worstFailed, if_true, Bool.false_eq_true, if_false]
            rcases hinv with h | h <;> omega
          · simp only [worstFailed, hip, if_false]
            exact hn6
        · intro sd w1 b h
          rw [tickerLoop_cons] at h
          simp [hpo, hadd] at h
      | blocked =>
        simp only []
        refine ⟨?_, ?_⟩
        · by_cases hip : item = p
          · subst hip
            simp only [worstFailed, if_true, Bool.false_eq_true, if_false]
            rcases hinv with h | h <;> omega
          · simp only [worstFailed, hip, if_false]
            exact hn6
        · intro sd w1 b h
          rw [tickerLoop_cons] at h
          simp [hpo, hadd] at h
      | returned oe =>
        cases oe with
        | some err =>
          simp only []
          have hinv' : (if item = p then n + 1 else n) = 0 ∨
              ((if item = p then n + 1 else n) ≤
                ((w2.count ((w2.heap item).Path ++ " Errors") 1).heap p).retries ∧
              ((w2.count ((w2.heap item).Path ++ " Errors") 1).heap p).retries ≤ maxRetries) := by
            by_cases hip : item = p
            · subst hip
              simp only [if_true]
              right
              have hr : (w2.heap item).retries = (w.heap item).retries + 1 ∨
                  (w2.heap item).retries = maxRetries := by
                rcases s1 err rfl with ⟨h1, -, -⟩ | ⟨h1, -, -⟩
                · left; rw [h1, b1]
                · right; exact h1
              have hcnt : ((w2.count ((w2.heap item).Path ++ " Errors") 1).heap item).retries =
                  (w2.heap item).retries := rfl
              rw [hcnt]
              rcases hinv with h | h <;> rcases hr with h' | h' <;> omega
            · simp only [hip, if_false]
              have hp' : p ≠ item := fun h => hip h.symm
              have hcnt : (w2.count ((w2.heap item).Path ++ " Errors") 1).heap p = w.heap p :=
                hoth p hp'
              rw [hcnt]
              exact hinv
          obtain ⟨i1, i2⟩ := ih (w2.count ((w2.heap item).Path ++ " Errors") 1)
            (if item = p then n + 1 else n) hinv'
          refine ⟨?_, ?_⟩
          · simp only [worstFailed]
            by_cases hip : item = p
            · simp only [hip, if_true, Bool.false_eq_true, if_false] at i1 ⊢
              exact i1
            · simp only [hip, if_false] at i1 ⊢
              exact i1
          · intro sd w1 b h
            rw [tickerLoop_cons] at h
            simp only [hpo, if_false, hadd] at h
            have := i2 true w1 b h
            simp only [failedSince]
            by_cases hip : item = p
            · simp only [hip, if_true, Bool.false_eq_true, if_false] at this ⊢
              exact this
            · simp only [hip, if_false] at this ⊢
              exact this
        | none =>
          simp only []
          have hinv' : (if item = p then 0 else n) = 0 ∨
              ((if item = p then 0 else n) ≤
                (((w2.setFile item { w2.heap item with retries := 0 }).count
                  ((w2.heap item).Path ++ " Restarts") 1).heap p).retries ∧
              (((w2.setFile item { w2.heap item with retries := 0 }).count
                  ((w2.heap item).Path ++ " Restarts") 1).heap p).retries ≤ maxRetries) := by
            by_cases hip : item = p
            · simp [hip]
            · simp only [hip, if_false]
              have hp' : p ≠ item := fun h => hip h.symm
              have hcnt : ((w2.setFile item { w2.heap item with retries := 0 }).count
                  ((w2.heap item).Path ++ " Restarts") 1).heap p = w.heap p := by
                simp only [World.count, World.setFile, hp', if_false]
                exact hoth p hp'
              rw [hcnt]
              exact hinv
          obtain ⟨i1, i2⟩ := ih ((w2.setFile item { w2.heap item with retries := 0 }).count
            ((w2.heap item).Path ++ " Restarts") 1) (if item = p then 0 else n) hinv'
          refine ⟨?_, ?_⟩
          · simp only [worstFailed]
            by_cases hip : item = p
            · simp only [hip, if_true] at i1 ⊢
              exact Nat.max_le.mpr ⟨hn6, i1⟩
            · simp only [hip, if_false] at i1 ⊢
              exact i1
          · intro sd w1 b h
            rw [tickerLoop_cons] at h
            simp only [hpo, if_false, hadd] at h
            have := i2 sd w1 b h
            simp only [failedSince]
            by_cases hip : item = p
            · simp only [hip, if_true] at this ⊢
              exact this
            · simp only [hip, if_false] at this ⊢
              exact this

/-- The count at the end of a log is at most the largest value it took. -/
theorem failedSince_le_worstFailed (p : FilePtr) (log : List (FilePtr × Bool)) :
    ∀ n, failedSince p n log ≤ worstFailed p n log := by
  induction log with
  | nil => intro n; simp [failedSince, worstFailed]
  | cons e rest ih =>
    intro n
    rcases e with ⟨q, ok⟩
    simp only [failedSince, worstFailed]
    split
    · split
      · exact Nat.le_trans (ih 0) (Nat.le_max_right _ _)
      · exact ih (n + 1)
    · exact ih n

/-- The loop of the ticker leaves a file whose retries are used up as it is,
and makes no attempt for it. -/
theorem tickerLoop_exhausted (env : Env) (p : FilePtr) (files : List FilePtr) :
    ∀ (w : World) (sd : Bool), maxRetries ≤ (w.heap p).retries →
      (tickerLoop env w files sd).1.heap p = w.heap p ∧
      ∀ e ∈ tickerLog env w files, e.1 ≠ p := by
  induction files with
  | nil => intro w sd _; simp [tickerLoop, tickerLog]
  | cons item rest ih =>
    intro w sd hp
    rw [tickerLoop_cons, tickerLog_cons]
    by_cases hpo : passedOver w item = true
    · simp only [hpo, if_true]
      exact ih w sd hp
    · simp only [hpo, if_false]
      have hip : p ≠ item := by
        intro h
        subst h
        simp [passedOver, hp] at hpo
      obtain ⟨-, -, b3, -⟩ := beforeRestart_heap w item
      have hoth : (addFileWatcher env (beforeRestart w item) item).1.heap p = w.heap p := by
        rw [(addFileWatcher_heap_other env (beforeRestart w item) item p hip).1, b3 p hip]
      rcases hadd : addFileWatcher env (beforeRestart w item) item with ⟨w2, o⟩
      rw [hadd] at hoth
      simp only at hoth
      cases o with
      | panicked msg =>
        refine ⟨hoth, ?_⟩
        intro e he
        simp only [Bool.false_eq_true, if_false, List.mem_singleton] at he
        subst he
        exact fun h => hip h.symm
      | blocked =>
        refine ⟨hoth, ?_⟩
        intro e he
        simp only [Bool.false_eq_true, if_false, List.mem_singleton] at he
        subst he
        exact fun h => hip h.symm
      | returned oe =>
        cases oe with
        | some err =>
          simp only []
          have h3 : (w2.count ((w2.heap item).Path ++ " Errors") 1).heap p = w.heap p := hoth
          obtain ⟨i1, i2⟩ := ih (w2.count ((w2.heap item).Path ++ " Errors") 1) true
            (by rw [h3]; exact hp)
          refine ⟨i1.trans h3, ?_⟩
          intro e he
          rcases List.mem_cons.mp he with he | he
          · subst he; exact fun h => hip h.symm
          · exact i2 e he
        | none =>
          simp only []
          have h3 : ((w2.setFile item { w2.heap item with retries := 0 }).count
              ((w2.heap item).Path ++ " Restarts") 1).heap p = w.heap p := by
            simp only [World.count, World.setFile, hip, if_false]
            exact hoth
          obtain ⟨i1, i2⟩ := ih ((w2.setFile item { w2.heap item with retries := 0 }).count
              ((w2.heap item).Path ++ " Restarts") 1) sd (by rw [h3]; exact hp)
          refine ⟨i1.trans h3, ?_⟩
          intro e he
          rcases List.mem_cons.mp he with he | he
          · subst he; exact fun h => hip h.symm
          · exact i2 e he

/-- Over ticks and other changes that leave the file alone, the count of
failed attempts for the file since its last restart stays at `maxRetries` at
most. -/
theorem ticksLog_bound (env : Env) (p : FilePtr) (items : List TickItem) :
    ∀ (w : World) (n : Nat),
      (n = 0 ∨ (n ≤ (w.heap p).retries ∧ (w.heap p).retries ≤ maxRetries)) →
      (∀ f, TickItem.other f ∈ items → ∀ v, (f v).heap p = v.heap p) →
      worstFailed p n (ticksLog env w items) ≤ maxRetries := by
  induction items with
  | nil =>
    intro w n hinv _
    simp only [ticksLog, worstFailed]
    rcases hinv with h | h <;> omega
  | cons it rest ih =>
    intro w n hinv hoth
    have hoth' : ∀ f, TickItem.other f ∈ rest → ∀ v, (f v).heap p = v.heap p :=
      fun f hf => hoth f (List.mem_cons_of_mem _ hf)
    cases it with
    | other f =>
      simp only [ticksLog]
      apply ih (f w) n _ hoth'
      rw [hoth f (List.mem_cons_self _ _) w]
      exact hinv
    | tick died =>
      simp only [ticksLog]
      cases died with
      | false =>
        simp only [fileWatcherTickerLog, fileWatcherTicker, Bool.not_false, if_true,
          List.nil_append]
        exact ih w n hinv hoth'
      | true =>
        simp only [fileWatcherTickerLog, fileWatcherTicker, Bool.not_true, Bool.false_eq_true,
          if_false]
        obtain ⟨t1, t2⟩ := tickerLog_bound env p w.files w n hinv
        apply worstFailed_append p maxRetries _ _ n t1
        rcases hloop : tickerLoop env w w.files false with ⟨w1, o⟩
        cases o with
        | returned b =>
          simp only []
          exact ih w1 _ (t2 false w1 b hloop) hoth'
        | panicked msg =>
          simp only [worstFailed]
          exact Nat.le_trans (failedSince_le_worstFailed p _ n) t1
        | blocked =>
          simp only [worstFailed]
          exact Nat.le_trans (failedSince_le_worstFailed p _ n) t1

/-- Over ticks and other changes that leave the file alone, a file whose
retries are used up stays as it is, and no attempt is made for it. -/
theorem runTicks_exhausted (env : Env) (p : FilePtr) (items : List TickItem) :
    ∀ (w : World), maxRetries ≤ (w.heap p).retries →
      (∀ f, TickItem.other f ∈ items → ∀ v, (f v).heap p = v.heap p) →
      (runTicks env w items).heap p = w.heap p ∧
      ∀ e ∈ ticksLog env w items, e.1 ≠ p := by
  induction items with
  | nil => intro w _ _; simp [runTicks, ticksLog]
  | cons it rest ih =>
    intro w hp hoth
    have hoth' : ∀ f, TickItem.other f ∈ rest → ∀ v, (f v).heap p = v.heap p :=
      fun f hf => hoth f (List.mem_cons_of_mem _ hf)
    cases it with
    | other f =>
      simp only [runTicks, ticksLog]
      have hf := hoth f (List.mem_cons_self _ _) w
      obtain ⟨i1, i2⟩ := ih (f w) (by rw [hf]; exact hp) hoth'
      exact ⟨i1.trans hf, i2⟩
    | tick died =>
      simp only [runTicks, ticksLog]
      cases died with
      | false =>
        simp only [fileWatcherTickerLog, fileWatcherTicker, Bool.not_false, if_true,
          List.nil_append]
        exact ih w hp hoth'
      | true =>
        simp only [fileWatcherTickerLog, fileWatcherTicker, Bool.not_true, Bool.false_eq_true,
          if_false]
        obtain ⟨t1, t2⟩ := tickerLoop_exhausted env p w.files w false hp
        rcases hloop : tickerLoop env w w.files false with ⟨w1, o⟩
        rw [hloop] at t1
        simp only at t1
        cases o with
        | returned b =>
          simp only []
          obtain ⟨i1, i2⟩ := ih w1 (by rw [t1]; exact hp) hoth'
          refine ⟨i1.trans t1, ?_⟩
          intro e he
          rcases List.mem_append.mp he with he | he
          · exact t2 e he
          · exact i2 e he
        | panicked msg =>
          simp only [List.append_nil]
          exact ⟨t1, t2⟩
        | blocked =>
          simp only [List.append_nil]
          exact ⟨t1, t2⟩

/-- C18: over every sequence of maintenance ticks, with whatever else happens
in between as long as it leaves the file alone, the number of restart attempts
made for a file that failed since its last restart that went through never
exceeds `maxRetries`, which is 6; and once the retries of the file are at
`maxRetries` or above, no tick makes an attempt for it or changes any of its
fields, so an inactive file stays inactive. -/
theorem bounded_retries (env : Env) (w : World) (p : FilePtr) (items : List TickItem)
    (hoth : ∀ f, TickItem.other f ∈ items → ∀ v, (f v).heap p = v.heap p) :
    maxRetries = 6 ∧
    worstFailed p 0 (ticksLog env w items) ≤ maxRetries ∧
    (maxRetries ≤ (w.heap p).retries →
      (runTicks env w items).heap p = w.heap p ∧
      (∀ e ∈ ticksLog env w items, e.1 ≠ p) ∧
      (Active w p = false → Active (runTicks env w items) p = false)) := by
  refine ⟨rfl, ticksLog_bound env p items w 0 (Or.inl rfl) hoth, ?_⟩
  intro hp
  obtain ⟨h1, h2⟩ := runTicks_exhausted env p items w hp hoth
  refine ⟨h1, h2, ?_⟩
  intro ha
  simpa [Active, h1] using ha

/-- C18 on the world of the examples with `app.log` dead and no tail opening:
over three ticks one attempt is made, it fails, and none follows. -/
theorem bounded_retries_witness :
    worstFailed 2 0 (ticksLog failEnv deadWorld
      [TickItem.tick true, TickItem.tick true, TickItem.tick true]) ≤ maxRetries :=
  (bounded_retries failEnv deadWorld 2
    [TickItem.tick true, TickItem.tick true, TickItem.tick true]
    (by intro f hf; simp at hf)).2.1

/-- Whether a file is passed over depends on the file alone. -/
theorem passedOver_congr (w v : World) (q : FilePtr) (h : w.heap q = v.heap q) :
    passedOver w q = passedOver v q := by
  simp [passedOver, Active, h]

/-- Over distinct files, the files the loop of the ticker makes an attempt for
are, in order, the first of the files that are not passed over; they are all of
them when the loop returns. -/
theorem tickerLog_filter (env : Env) (w0 : World) (files : List FilePtr) :
    ∀ (w : World) (sd : Bool), files.Nodup → (∀ q ∈ files, w.heap q = w0.heap q) →
      ∃ tl, files.filter (fun q => !passedOver w0 q) =
          (tickerLog env w files).map Prod.fst ++ tl ∧
        (∀ w1 b, tickerLoop env w files sd = (w1, Outcome.returned b) → tl = []) := by
  induction files with
  | nil => intro w sd _ _; exact ⟨[], by simp [tickerLog], fun _ _ _ => rfl⟩
  | cons item rest ih =>
    intro w sd hnd hag
    have hnd' : rest.Nodup := (List.nodup_cons.mp hnd).2
    have hni : item ∉ rest := (List.nodup_cons.mp hnd).1
    have hpo0 : passedOver w item = passedOver w0 item :=
      passedOver_congr w w0 item (hag item (List.mem_cons_self _ _))
    rw [tickerLog_cons]
    by_cases hpo : passedOver w item = true
    · have hpo' : passedOver w0 item = true := by rw [← hpo0]; exact hpo
      obtain ⟨tl, h1, h2⟩ := ih w sd hnd' (fun q hq => hag q (List.mem_cons_of_mem _ hq))
      refine ⟨tl, ?_, ?_⟩
      · simp only [hpo, if_true]
        rw [← h1]
        simp [List.filter_cons, hpo']
      · intro w1 b h
        rw [tickerLoop_cons] at h
        simp only [hpo, if_true] at h
        exact h2 w1 b h
    · have hpo' : passedOver w0 item = false := by
        rw [← hpo0]; simpa using hpo
      simp only [hpo, if_false]
      obtain ⟨-, -, b3, -⟩ := beforeRestart_heap w item
      have hoth : ∀ q ∈ rest,
          (addFileWatcher env (beforeRestart w item) item).1.heap q = w0.heap q := by
        intro q hq
        have hqi : q ≠ item := fun h => hni (h ▸ hq)
        rw [(addFileWatcher_heap_other env (beforeRestart w item) item q hqi).1, b3 q hqi]
        exact hag q (List.mem_cons_of_mem _ hq)
      rcases hadd : addFileWatcher env (beforeRestart w item) item with ⟨w2, o⟩
      rw [hadd] at hoth
      simp only at hoth
      cases o with
      | panicked msg =>
        refine ⟨rest.filter (fun q => !passedOver w0 q), ?_, ?_⟩
        · simp [List.filter_cons, hpo']
        · intro w1 b h
          rw [tickerLoop_cons] at h
          simp [hpo, hadd] at h
      | blocked =>
        refine ⟨rest.filter (fun q => !passedOver w0 q), ?_, ?_⟩
        · simp [List.filter_cons, hpo']
        · intro w1 b h
          rw [tickerLoop_cons] at h
          simp [hpo, hadd] at h
      | returned oe =>
        cases oe with
        | some err =>
          obtain ⟨tl, h1, h2⟩ := ih (w2.count ((w2.heap item).Path ++ " Errors") 1) true hnd'
            (fun q hq => hoth q hq)
          refine ⟨tl, ?_, ?_⟩
          · simp only [Bool.false_eq_true, if_false, List.map_cons, List.cons_append,
              List.filter_cons, hpo', Bool.not_false, if_true]
            exact congrArg _ h1
          · intro w1 b h
            rw [tickerLoop_cons] at h
            simp only [hpo, if_false, hadd] at h
            exact h2 w1 b h
        | none =>
          obtain ⟨tl, h1, h2⟩ := ih ((w2.setFile item { w2.heap item with retries := 0 }).count
              ((w2.heap item).Path ++ " Restarts") 1) sd hnd'
            (by
              intro q hq
              have hqi : q ≠ item := fun h => hni (h ▸ hq)
              simp only [World.count, World.setFile, hqi, if_false]
              exact hoth q hq)
          refine ⟨tl, ?_, ?_⟩
          · simp only [Bool.false_eq_true, if_false, List.map_cons, List.cons_append,
              List.filter_cons, hpo', Bool.not_false, if_true]
            exact congrArg _ h1
          · intro w1 b h
            rw [tickerLoop_cons] at h
            simp only [hpo, if_false, hadd] at h
            exact h2 w1 b h

/-- With the mutex free and the add channel there, `addFileWatcher` leaves the
files as `setup` leaves them: `setup` has run. -/
theorem addFileWatcher_runs_setup (env : Env) (w : World) (file : FilePtr) (ch : AddChan)
    (hl : w.awLocked = false) (hch : w.addWatcher = some ch) :
    (addFileWatcher env w file).1.heap = (setup env w file).1.heap ∧
    (addFileWatcher env w file).1.opens = (setup env w file).1.opens := by
  obtain ⟨f1, -, -⟩ := setup_frame env w file
  unfold addFileWatcher
  rcases hs : setup env w file with ⟨w1, o⟩
  rw [hs] at f1
  simp only at f1
  rw [hch] at f1
  cases o with
  | some err => simp [hl, hch]
  | none =>
    simp only [hl, hch, f1, Bool.false_eq_true, if_false]
    by_cases hc : ch.closed = true
    · simp [hc]
    · by_cases hb : 1 ≤ ch.buf.length
      · simp [hc, hb]
      · simp [hc, hb]

/-- C16, as the code has it: a tick with the `died` flag false returns at once
and makes no attempt. A tick with the flag true goes through the configured
files `c.files` in order and hands to `addFileWatcher`, which runs `setup`
when the mutex is free and the add channel is there, the files that are
inactive with retries below `maxRetries`: over distinct files, the attempts
made are for the first of these files, in order, and for all of them when the
tick returns; no attempt is made for a file that is active or has its retries
at `maxRetries` or above, nor for a file that is not in `c.files`. -/
theorem ticker_attempts (env : Env) (w : World) :
    (fileWatcherTicker env w false = (w, Outcome.returned false) ∧
      fileWatcherTickerLog env w false = []) ∧
    (w.files.Nodup →
      (∃ tl, w.files.filter (fun q => !Active w q && decide ((w.heap q).retries < maxRetries)) =
          (fileWatcherTickerLog env w true).map Prod.fst ++ tl ∧
        (∀ w1 b, fileWatcherTicker env w true = (w1, Outcome.returned b) → tl = [])) ∧
      (∀ e ∈ fileWatcherTickerLog env w true, e.1 ∈ w.files ∧ Active w e.1 = false ∧
        (w.heap e.1).retries < maxRetries)) ∧
    (∀ v file ch, v.awLocked = false → v.addWatcher = some ch →
      (addFileWatcher env v file).1.heap = (setup env v file).1.heap ∧
      (addFileWatcher env v file).1.opens = (setup env v file).1.opens) := by
  refine ⟨⟨by simp [fileWatcherTicker], by simp [fileWatcherTickerLog]⟩, ?_,
    fun v file ch hl hch => addFileWatcher_runs_setup env v file ch hl hch⟩
  intro hnd
  obtain ⟨tl, h1, h2⟩ := tickerLog_filter env w w.files w false hnd (fun _ _ => rfl)
  have hfil : w.files.filter (fun q => !Active w q && decide ((w.heap q).retries < maxRetries)) =
      w.files.filter (fun q => !passedOver w q) := by
    apply List.filter_congr
    intro q _
    have hd : decide ((w.heap q).retries < maxRetries) =
        !decide (maxRetries ≤ (w.heap q).retries) := by
      by_cases h : (w.heap q).retries < maxRetries
      · simp [h, Nat.not_le.mpr h]
      · simp [h, Nat.le_of_not_lt h]
    simp [passedOver, hd]
  have hlog : fileWatcherTickerLog env w true = tickerLog env w w.files := by
    simp [fileWatcherTickerLog]
  have hloop : fileWatcherTicker env w true = tickerLoop env w w.files false := by
    simp [fileWatcherTicker]
  refine ⟨⟨tl, by rw [hfil, hlog]; exact h1, by rw [hloop]; exact h2⟩, ?_⟩
  intro e he
  rw [hlog] at he
  have hm : e.1 ∈ w.files.filter (fun q => !passedOver w q) := by
    rw [h1]
    exact List.mem_append_left _ (List.mem_map_of_mem Prod.fst he)
  rw [List.mem_filter] at hm
  obtain ⟨hm1, hm2⟩ := hm
  simp only [passedOver, Bool.not_eq_true', Bool.or_eq_false_iff, decide_eq_false_iff_not,
    not_le] at hm2
  exact ⟨hm1, hm2.1, hm2.2⟩

/-- C16 on the world of the examples with `app.log` dead: the tick with the
flag true makes its one attempt for `app.log`. -/
theorem ticker_attempts_witness :
    ∃ tl, deadWorld.files.filter
        (fun q => !Active deadWorld q && decide ((deadWorld.heap q).retries < maxRetries)) =
      (fileWatcherTickerLog sampleEnv deadWorld true).map Prod.fst ++ tl ∧
      (∀ w1 b, fileWatcherTicker sampleEnv deadWorld true = (w1, Outcome.returned b) →
        tl = []) :=
  ((ticker_attempts sampleEnv deadWorld).2.1 (by decide)).1

/-- C16 as stated fails twice. With the `died` flag false, the tick makes no
attempt for `app.log`, which is configured, inactive and has 0 retries. With
the flag true, the tick makes no attempt for `any.log`, which was added at run
time and is not in `c.files`, and is inactive with 0 retries. -/
theorem tick_without_attempt :
    (2 ∈ deadWorld.files ∧ Active deadWorld 2 = false ∧
      (deadWorld.heap 2).retries < maxRetries ∧
      fileWatcherTickerLog sampleEnv deadWorld false = [] ∧
      (fileWatcherTicker sampleEnv deadWorld false).1.opens = deadWorld.opens) ∧
    (Active addedDeadWorld 3 = false ∧ (addedDeadWorld.heap 3).retries < maxRetries ∧
      fileWatcherTickerLog sampleEnv addedDeadWorld true = [] ∧
      (fileWatcherTicker sampleEnv addedDeadWorld true).1.opens = addedDeadWorld.opens) := by
  refine ⟨⟨by decide, by decide, by decide, by rfl, by rfl⟩,
    ⟨by decide, by decide, by rfl, by rfl⟩⟩

/-- The file the ticker is about to restart, as `setup` sees it. -/
theorem beforeRestart_file (env : Env) (w : World) (p : FilePtr) :
    (beforeRestart w p).heap p = { w.heap p with retries := (w.heap p).retries + 1 } ∧
    validated env ((beforeRestart w p).heap p) = validated env (w.heap p) ∧
    (beforeRestart w p).opens = w.opens ∧
    (beforeRestart w p).awLocked = w.awLocked ∧
    (beforeRestart w p).addWatcher = w.addWatcher := by
  refine ⟨by simp [beforeRestart, World.setFile, World.count],
    by simp [beforeRestart, World.setFile, World.count, validated], rfl, rfl, rfl⟩

/-- A tick over one configured file that is not passed over, in terms of
`addFileWatcher`. -/
theorem ticker_single (env : Env) (w : World) (p : FilePtr) (hf : w.files = [p])
    (hin : Active w p = false) (hr : (w.heap p).retries < maxRetries) :
    (∀ w2 err, addFileWatcher env (beforeRestart w p) p = (w2, Outcome.returned (some err)) →
      fileWatcherTicker env w true =
        (w2.count ((w2.heap p).Path ++ " Errors") 1, Outcome.returned true) ∧
      fileWatcherTickerLog env w true = [(p, false)]) ∧
    (∀ w2, addFileWatcher env (beforeRestart w p) p = (w2, Outcome.returned none) →
      fileWatcherTicker env w true =
        ((w2.setFile p { w2.heap p with retries := 0 }).count
          ((w2.heap p).Path ++ " Restarts") 1, Outcome.returned false) ∧
      fileWatcherTickerLog env w true = [(p, true)]) := by
  have hpo : passedOver w p = false := by
    simp [passedOver, hin]
    exact hr
  have hloop : fileWatcherTicker env w true = tickerLoop env w [p] false := by
    simp [fileWatcherTicker, hf]
  have hlog : fileWatcherTickerLog env w true = tickerLog env w [p] := by
    simp [fileWatcherTickerLog, hf]
  rw [hloop, hlog, tickerLoop_cons, tickerLog_cons]
  simp only [hpo, Bool.false_eq_true, if_false]
  refine ⟨?_, ?_⟩
  · intro w2 err h
    rw [h]
    simp [tickerLoop, tickerLog]
  · intro w2 h
    rw [h]
    simp [tickerLoop, tickerLog]

/-- A tick that restarts one configured file, inactive with retries below
`maxRetries`, with the mutex free and the add channel there: when the
expressions of the file compile, the tail opens
and the open add channel has room, the tick returns with the retries of the
file at 0, the file active and the file put once on the add channel; when the
file fails validation (no match expression, or an expression that does not
compile), the tick returns with the retries of the file at `maxRetries`, the
file inactive and nothing put on the add channel. -/
theorem restart_outcome (env : Env) (w : World) (p : FilePtr) (ch : AddChan)
    (hf : w.files = [p]) (hin : Active w p = false)
    (hr : (w.heap p).retries < maxRetries)
    (hl : w.awLocked = false) (hch : w.addWatcher = some ch) :
    (∀ r s t, (w.heap p).Regexp ≠ "" → env.compile (w.heap p).Regexp = some r →
      env.compile (w.heap p).Skip = some s →
      env.tailFile w.opens (validated env (w.heap p)) = some t →
      ch.closed = false → ch.buf = [] →
      (fileWatcherTicker env w true).2 = Outcome.returned false ∧
      ((fileWatcherTicker env w true).1.heap p).retries = 0 ∧
      Active (fileWatcherTicker env w true).1 p = true ∧
      (fileWatcherTicker env w true).1.addWatcher = some { ch with buf := [some p] } ∧
      fileWatcherTickerLog env w true = [(p, true)]) ∧
    (((w.heap p).Regexp = "" ∨ env.compile (w.heap p).Regexp = none ∨
        env.compile (w.heap p).Skip = none) →
      (fileWatcherTicker env w true).2 = Outcome.returned true ∧
      ((fileWatcherTicker env w true).1.heap p).retries = maxRetries ∧
      Active (fileWatcherTicker env w true).1 p = false ∧
      (fileWatcherTicker env w true).1.addWatcher = some ch ∧
      fileWatcherTickerLog env w true = [(p, false)]) := by
  obtain ⟨b1, b2, b3, b4, b5⟩ := beforeRestart_file env w p
  obtain ⟨t1, t2⟩ := ticker_single env w p hf hin hr
  have hR : ((beforeRestart w p).heap p).Regexp = (w.heap p).Regexp := by rw [b1]
  have hS : ((beforeRestart w p).heap p).Skip = (w.heap p).Skip := by rw [b1]
  have hT : ((beforeRestart w p).heap p).tail = none := by
    rw [b1]
    simpa [Active] using hin
  have hl' : (beforeRestart w p).awLocked = false := by rw [b4]; exact hl
  have hch' : (beforeRestart w p).addWatcher = some ch := by rw [b5]; exact hch
  refine ⟨?_, ?_⟩
  · intro r s t h1 h2 h3 h4 hopen hbuf
    have hs := setup_ok env (beforeRestart w p) p r s t (by rw [hR]; exact h1)
      (by rw [hR]; exact h2) (by rw [hS]; exact h3) (by rw [b2, b3]; exact h4)
    have hadd : addFileWatcher env (beforeRestart w p) p =
        ({ (setup env (beforeRestart w p) p).1 with
            addWatcher := some { ch with buf := ch.buf ++ [some p] } },
          Outcome.returned none) := by
      unfold addFileWatcher
      rw [hs]
      simp [hl', hch', World.setFile, hopen, hbuf]
    obtain ⟨e1, e2⟩ := t2 _ hadd
    rw [e1, e2, hs]
    simp [World.setFile, World.count, Active, hbuf, validated]
  · intro hbad
    have hadd : ∃ err, addFileWatcher env (beforeRestart w p) p =
        ((setup env (beforeRestart w p) p).1, Outcome.returned (some err)) ∧
        (((setup env (beforeRestart w p) p).1.heap p).retries = maxRetries ∧
          ((setup env (beforeRestart w p) p).1.heap p).tail = none ∧
          (setup env (beforeRestart w p) p).1.addWatcher = some ch) := by
      rcases setup_cases env (beforeRestart w p) p with ⟨h, e⟩ | ⟨h, hc, e⟩ |
        ⟨r, h, hc, hs, e⟩ | ⟨r, s, h, hc, hs, ht, e⟩ | ⟨r, s, t, h, hc, hs, ht, e⟩
      · refine ⟨Err.noRegexp, ?_, ?_⟩
        · unfold addFileWatcher; rw [e]; simp [hl', hch']
        · rw [e]; simp [World.setFile, hT, hch']
      · refine ⟨Err.matchCompile, ?_, ?_⟩
        · unfold addFileWatcher; rw [e]; simp [hl', hch']
        · rw [e]; simp [World.setFile, hT, hch']
      · refine ⟨Err.skipCompile, ?_, ?_⟩
        · unfold addFileWatcher; rw [e]; simp [hl', hch']
        · rw [e]; simp [World.setFile, hT, hch']
      · rw [hR] at h hc
        rw [hS] at hs
        rcases hbad with hb | hb | hb
        · exact absurd hb h
        · rw [hb] at hc; simp at hc
        · rw [hb] at hs; simp at hs
      · rw [hR] at h hc
        rw [hS] at hs
        rcases hbad with hb | hb | hb
        · exact absurd hb h
        · rw [hb] at hc; simp at hc
        · rw [hb] at hs; simp at hs
    obtain ⟨err, ha, k1, k2, k3⟩ := hadd
    obtain ⟨e1, e2⟩ := t1 _ err ha
    rw [e1, e2]
    refine ⟨rfl, ?_, ?_, ?_, rfl⟩
    · simpa [World.count] using k1
    · simpa [World.count, Active] using k2
    · simpa [World.count] using k3

/-- The world of the examples with `app.log` dead and its tail opening again:
after the tick the file is active, its retries are 0 and it is on the
add channel. -/
theorem restart_outcome_witness :
    (fileWatcherTicker sampleEnv deadWorld true).2 = Outcome.returned false ∧
    ((fileWatcherTicker sampleEnv deadWorld true).1.heap 2).retries = 0 ∧
    Active (fileWatcherTicker sampleEnv deadWorld true).1 2 = true ∧
    (fileWatcherTicker sampleEnv deadWorld true).1.addWatcher =
      some { (⟨10, [], false⟩ : AddChan) with buf := [some 2] } ∧
    fileWatcherTickerLog sampleEnv deadWorld true = [(2, true)] :=
  (restart_outcome sampleEnv deadWorld 2 ⟨10, [], false⟩ rfl (by decide) (by decide) rfl rfl).1
    ⟨"ERROR"⟩ ⟨"DEBUG"⟩ ⟨100⟩ (by decide) rfl rfl rfl rfl rfl

/-- A restart whose `setup` fails, on the examples: the one configured file
has no match expression, is inactive and has 0 retries; after the tick its
retries are 6, not 1. The same holds for `app.log` when its tail does not open
again. -/
theorem failed_restart_uses_up_retries :
    (unsetWorld.files = [5] ∧ Active unsetWorld 5 = false ∧
      (unsetWorld.heap 5).retries = 0 ∧
      (setup sampleEnv (beforeRestart unsetWorld 5) 5).2 = some Err.noRegexp ∧
      ((fileWatcherTicker sampleEnv unsetWorld true).1.heap 5).retries = 6 ∧
      ((fileWatcherTicker sampleEnv unsetWorld true).1.heap 5).retries ≠
        (unsetWorld.heap 5).retries + 1) ∧
    (deadWorld.files = [2] ∧ Active deadWorld 2 = false ∧ (deadWorld.heap 2).retries = 0 ∧
      (setup failEnv (beforeRestart deadWorld 2) 2).2 = some Err.watching ∧
      ((fileWatcherTicker failEnv deadWorld true).1.heap 2).retries = 6 ∧
      ((fileWatcherTicker failEnv deadWorld true).1.heap 2).retries ≠
        (deadWorld.heap 2).retries + 1) := by
  have h5 : ((fileWatcherTicker sampleEnv unsetWorld true).1.heap 5).retries = 6 := by rfl
  have h2 : ((fileWatcherTicker failEnv deadWorld true).1.heap 2).retries = 6 := by rfl
  refine ⟨⟨rfl, by decide, rfl, by rfl, h5, ?_⟩, ⟨rfl, by decide, rfl, by rfl, h2, ?_⟩⟩
  · rw [h5]; decide
  · rw [h2]; decide

end filewatch
end Notifiarr

namespace Notifiarr
namespace filewatch

/-- A line that fails the first test of `checkLineMatch` changes nothing. -/
theorem checkLineMatch_noMatch (env : Env) (w : World) (text : String) (p : FilePtr)
    (h : noMatch env (w.heap p) text = true) : checkLineMatch env w text p = w := by
  unfold noMatch at h
  unfold checkLineMatch
  rcases Option.eq_none_or_eq_some (w.heap p).re with hre | ⟨re, hre⟩
  · simp [hre]
  · simp only [hre] at h
    simp only [Bool.or_eq_true, beq_iff_eq, Bool.not_eq_true_eq_eq_false] at h
    rcases h with h | h <;> simp [hre, h]

/-- A line that passes the first test has a match regexp that matches it, and
is not empty. -/
theorem noMatch_false (env : Env) (f : WatchFile) (text : String)
    (h : noMatch env f text = false) :
    ∃ re, f.re = some re ∧ text ≠ "" ∧ env.MatchString re text = true := by
  unfold noMatch at h
  cases hre : f.re with
  | none => simp [hre] at h
  | some re =>
    simp only [hre, Bool.or_eq_false_iff, beq_eq_false_iff_ne, ne_eq,
      Bool.not_eq_false_eq_eq_true] at h
    exact ⟨re, rfl, h.1, h.2⟩

/-- A line that passes the first test and is skipped only adds to "Skipped". -/
theorem checkLineMatch_skipped (env : Env) (w : World) (text : String) (p : FilePtr)
    (h : noMatch env (w.heap p) text = false)
    (hs : isSkipped env (w.heap p) text = true) :
    checkLineMatch env w text p = w.count ((w.heap p).Path ++ " Skipped") 1 := by
  obtain ⟨re, hre, hne, hm⟩ := noMatch_false env _ text h
  unfold isSkipped at hs
  unfold checkLineMatch
  simp only [hre]
  cases hsk : (w.heap p).skip with
  | none => simp [hsk] at hs
  | some sk =>
    simp only [hsk] at hs
    simp [hne, hm, hs]

/-- C25, as the code has it: `checkLineMatch` discards a line at the match
stage, changing no counter, drawing no token and sending no request, if and
only if the file has no compiled match regexp, or the text of the line is
empty, or the match regexp does not match the text. -/
theorem discarded_iff_no_match (env : Env) (w : World) (text : String) (p : FilePtr) :
    ((checkLineMatch env w text p).metrics = w.metrics ∧
      (checkLineMatch env w text p).pours = w.pours ∧
      (checkLineMatch env w text p).sent = w.sent) ↔
    ((w.heap p).re = none ∨ text = "" ∨
      ∃ re, (w.heap p).re = some re ∧ env.MatchString re text = false) := by
  constructor
  · intro ⟨hmet, hpours, _⟩
    cases hn : noMatch env (w.heap p) text with
    | true =>
      unfold noMatch at hn
      cases hre : (w.heap p).re with
      | none => exact Or.inl rfl
      | some re =>
        simp only [hre, Bool.or_eq_true, beq_iff_eq, Bool.not_eq_true_eq_eq_false] at hn
        rcases hn with hn | hn
        · exact Or.inr (Or.inl hn)
        · exact Or.inr (Or.inr ⟨re, rfl, hn⟩)
    | false =>
      exfalso
      obtain ⟨re, hre, hne, hm⟩ := noMatch_false env _ text hn
      cases hs : isSkipped env (w.heap p) text with
      | true =>
        rw [checkLineMatch_skipped env w text p hn hs] at hmet
        have := congrFun hmet ((w.heap p).Path ++ " Skipped")
        simp only [World.count, Metrics.Add, if_true] at this
        cases hv : w.metrics ((w.heap p).Path ++ " Skipped") with
        | none => simp [hv] at this
        | some v => simp [hv] at this
      | false =>
        have := (checkLineMatch_pass_counts env w p text re hre hne hm hs).1
        omega
  · intro h
    have hn : noMatch env (w.heap p) text = true := by
      unfold noMatch
      rcases h with h | h | ⟨re, hre, h⟩
      · simp [h]
      · cases (w.heap p).re <;> simp [h]
      · simp [hre, h]
    rw [checkLineMatch_noMatch env w text p hn]
    exact ⟨rfl, rfl, rfl⟩

/-- C25 as stated fails on an empty line: the match regexp of `raw.log`
matches the empty text, the file has no skip pattern, and `checkLineMatch`
discards the line: no counter is set, no token is drawn, nothing is sent. -/
theorem empty_line_discarded_though_matched :
    (rawWorld.heap 6).re = some ⟨".*"⟩ ∧
    sampleEnv.MatchString ⟨".*"⟩ "" = true ∧
    (checkLineMatch sampleEnv rawWorld "" 6).metrics = rawWorld.metrics ∧
    (checkLineMatch sampleEnv rawWorld "" 6).metrics "raw.log Matched" = none ∧
    (checkLineMatch sampleEnv rawWorld "" 6).pours = rawWorld.pours ∧
    (checkLineMatch sampleEnv rawWorld "" 6).sent = rawWorld.sent :=
  ⟨rfl, rfl, rfl, rfl, rfl, rfl⟩

/-- C24, as the code has it: a request that `checkLineMatch` sends for a line
carries the path of the file, as `Line` the text of the line with leading and
trailing white space removed, and as `Matches` all matches of the match regexp
of the file in the text of the line as it was read, before trimming. -/
theorem matches_of_raw_text (env : Env) (w : World) (text : String) (p : FilePtr)
    (req : website.Request)
    (h : (checkLineMatch env w text p).sent = w.sent ++ [req]) :
    ∃ re, (w.heap p).re = some re ∧
      req.PayloadFile = (w.heap p).Path ∧
      req.PayloadLine = TrimSpace text ∧
      req.PayloadMatches = env.FindAllString re text := by
  cases hn : noMatch env (w.heap p) text with
  | true =>
    rw [checkLineMatch_noMatch env w text p hn] at h
    simp at h
  | false =>
    obtain ⟨re, hre, hne, hm⟩ := noMatch_false env _ text hn
    cases hs : isSkipped env (w.heap p) text with
    | true =>
      rw [checkLineMatch_skipped env w text p hn hs] at h
      simp [World.count] at h
    | false =>
      rw [checkLineMatch_pass env w p text re hre hne hm hs] at h
      cases hp : env.pour w.pours with
      | true =>
        simp only [hp, if_true] at h
        have hreq : req = matchRequest env (w.heap p) re text := by
          have := List.append_cancel_left h
          simp at this
          exact this.symm
        exact ⟨re, hre, by rw [hreq]; rfl, by rw [hreq]; rfl, by rw [hreq]; rfl⟩
      | false =>
        simp [hp, World.count] at h

/-- C24 on a line of the examples: the line `  ERROR here ` of `raw.log`,
whose match expression matches every text, is sent trimmed, with the untrimmed
text as its one match. -/
theorem matches_of_raw_text_witness :
    ∃ re, (rawWorld.heap 6).re = some re ∧
      (matchRequest sampleEnv rawLog ⟨".*"⟩ "  ERROR here ").PayloadFile =
        (rawWorld.heap 6).Path ∧
      (matchRequest sampleEnv rawLog ⟨".*"⟩ "  ERROR here ").PayloadLine =
        TrimSpace "  ERROR here " ∧
      (matchRequest sampleEnv rawLog ⟨".*"⟩ "  ERROR here ").PayloadMatches =
        sampleEnv.FindAllString re "  ERROR here " :=
  matches_of_raw_text sampleEnv rawWorld "  ERROR here " 6
    (matchRequest sampleEnv rawLog ⟨".*"⟩ "  ERROR here ") (by rfl)

/-- C24 as stated fails when the pattern matches white space at the ends of
the line: for the line ` ERROR ` of `raw.log` the request carries the line
`ERROR` and the one match ` ERROR `, while the matches of the expression in
the line that is sent are the one match `ERROR`. -/
theorem matches_differ_from_sent_line :
    (rawWorld.heap 6).re = some ⟨".*"⟩ ∧
    (checkLineMatch sampleEnv rawWorld " ERROR " 6).sent.map
        (fun r => (r.PayloadLine, r.PayloadMatches)) = [("ERROR", [" ERROR "])] ∧
    sampleEnv.FindAllString ⟨".*"⟩ "ERROR" = ["ERROR"] ∧
    (checkLineMatch sampleEnv rawWorld " ERROR " 6).sent.map
        (fun r => r.PayloadMatches) ≠
      (checkLineMatch sampleEnv rawWorld " ERROR " 6).sent.map
        (fun r => sampleEnv.FindAllString ⟨".*"⟩ r.PayloadLine) := by
  refine ⟨rfl, by rfl, by rfl, ?_⟩
  have h1 : (checkLineMatch sampleEnv rawWorld " ERROR " 6).sent.map
      (fun r => r.PayloadMatches) = [[" ERROR "]] := by rfl
  have h2 : (checkLineMatch sampleEnv rawWorld " ERROR " 6).sent.map
      (fun r => sampleEnv.FindAllString ⟨".*"⟩ r.PayloadLine) = [["ERROR"]] := by rfl
  rw [h1, h2]
  decide

/-- Adding to one counter leaves a counter with another name as it was. -/
theorem counter_count_ne (w : World) (key other : String) (d : Int) (h : other ≠ key) :
    (w.count key d).counter other = w.counter other := by
  simp [World.counter, World.count, Metrics.Add, h]

/-- Adding to a counter raises its value by that much. -/
theorem counter_count_self (w : World) (key : String) (d : Int) :
    (w.count key d).counter key = w.counter key + d := by
  simp [World.counter, World.count, Metrics.Add]

/-- The three ways of one line through `checkLineMatch` past the first test. -/
theorem checkLineMatch_line (env : Env) (w : World) (text : String) (p : FilePtr) :
    (noMatch env (w.heap p) text = true ∧ checkLineMatch env w text p = w) ∨
    (isSkipped env (w.heap p) text = true ∧
      checkLineMatch env w text p = w.count ((w.heap p).Path ++ " Skipped") 1) ∨
    (noMatch env (w.heap p) text = false ∧ isSkipped env (w.heap p) text = false ∧
      (checkLineMatch env w text p).pours = w.pours + 1 ∧
      (checkLineMatch env w text p).counter ((w.heap p).Path ++ " Skipped") =
        w.counter ((w.heap p).Path ++ " Skipped") ∧
      (checkLineMatch env w text p).counter ((w.heap p).Path ++ " Matched") =
        w.counter ((w.heap p).Path ++ " Matched") + 1 ∧
      (((checkLineMatch env w text p).sent = w.sent ∧
        (checkLineMatch env w text p).counter ((w.heap p).Path ++ " Dropped") =
          w.counter ((w.heap p).Path ++ " Dropped") + 1) ∨
       (sentFor (checkLineMatch env w text p) (w.heap p).Path =
          sentFor w (w.heap p).Path + 1 ∧
        (checkLineMatch env w text p).counter ((w.heap p).Path ++ " Dropped") =
          w.counter ((w.heap p).Path ++ " Dropped")))) := by
  cases hn : noMatch env (w.heap p) text with
  | true => exact Or.inl ⟨rfl, checkLineMatch_noMatch env w text p hn⟩
  | false =>
    right
    cases hs : isSkipped env (w.heap p) text with
    | true => exact Or.inl ⟨rfl, checkLineMatch_skipped env w text p hn hs⟩
    | false =>
      right
      obtain ⟨re, hre, hne, hm⟩ := noMatch_false env _ text hn
      have h := checkLineMatch_pass env w p text re hre hne hm hs
      have kSM : (w.heap p).Path ++ " Skipped" ≠ (w.heap p).Path ++ " Matched" :=
        key_ne _ _ _ (by decide)
      have kSD : (w.heap p).Path ++ " Skipped" ≠ (w.heap p).Path ++ " Dropped" :=
        key_ne _ _ _ (by decide)
      have kDM : (w.heap p).Path ++ " Dropped" ≠ (w.heap p).Path ++ " Matched" :=
        key_ne _ _ _ (by decide)
      rw [h]
      cases hp : env.pour w.pours with
      | true =>
        simp only [if_true]
        refine ⟨trivial, trivial, by simp [World.count], ?_, ?_, Or.inr ⟨?_, ?_⟩⟩
        · exact counter_count_ne w _ _ 1 kSM
        · exact counter_count_self w _ 1
        · simp [sentFor, List.filter_append, matchRequest, World.count]
        · exact counter_count_ne w _ _ 1 kDM
      | false =>
        simp only [Bool.false_eq_true, if_false]
        refine ⟨trivial, trivial, by simp [World.count], ?_, ?_, Or.inl ⟨by simp [World.count], ?_⟩⟩
        · simp [World.counter, World.count, Metrics.Add, kSM, kSD]
        · simp [World.counter, World.count, Metrics.Add, kDM.symm]
        · simp [World.counter, World.count, Metrics.Add, kDM]

/-- What one line adds to "Matched" it adds to the requests sent for the file
and to "Dropped" together. -/
theorem checkLineMatch_account (env : Env) (w : World) (text : String) (p : FilePtr) :
    (checkLineMatch env w text p).counter ((w.heap p).Path ++ " Matched") +
        (sentFor w (w.heap p).Path : Int) + w.counter ((w.heap p).Path ++ " Dropped") =
      w.counter ((w.heap p).Path ++ " Matched") +
        (sentFor (checkLineMatch env w text p) (w.heap p).Path : Int) +
        (checkLineMatch env w text p).counter ((w.heap p).Path ++ " Dropped") := by
  have kMS : (w.heap p).Path ++ " Matched" ≠ (w.heap p).Path ++ " Skipped" :=
    key_ne _ _ _ (by decide)
  have kDS : (w.heap p).Path ++ " Dropped" ≠ (w.heap p).Path ++ " Skipped" :=
    key_ne _ _ _ (by decide)
  rcases checkLineMatch_line env w text p with ⟨_, h⟩ | ⟨_, h⟩ | ⟨_, _, _, _, hM, h⟩
  · rw [h]
  · rw [h, counter_count_ne w _ _ 1 kMS, counter_count_ne w _ _ 1 kDS]
    rfl
  · rcases h with ⟨hs, hD⟩ | ⟨hs, hD⟩
    · have : sentFor (checkLineMatch env w text p) (w.heap p).Path =
          sentFor w (w.heap p).Path := by simp [sentFor, hs]
      rw [hM, hD, this]
      omega
    · rw [hM, hD, hs]
      push_cast
      omega

/-- The accounting of `checkLineMatch_account` over the lines of one file. -/
theorem checkLines_account (env : Env) (p : FilePtr) (texts : List String) :
    ∀ w : World,
      (checkLines env w texts p).heap = w.heap ∧
      (checkLines env w texts p).counter ((w.heap p).Path ++ " Matched") +
          (sentFor w (w.heap p).Path : Int) + w.counter ((w.heap p).Path ++ " Dropped") =
        w.counter ((w.heap p).Path ++ " Matched") +
          (sentFor (checkLines env w texts p) (w.heap p).Path : Int) +
          (checkLines env w texts p).counter ((w.heap p).Path ++ " Dropped") := by
  induction texts with
  | nil => intro w; exact ⟨rfl, rfl⟩
  | cons text rest ih =>
    intro w
    have hfold : checkLines env w (text :: rest) p =
        checkLines env (checkLineMatch env w text p) rest p := rfl
    have hheap := checkLineMatch_heap env w text p
    have h1 := checkLineMatch_account env w text p
    obtain ⟨a1, a2⟩ := ih (checkLineMatch env w text p)
    rw [hheap] at a2
    rw [hfold]
    exact ⟨a1.trans hheap, by omega⟩

/-- An empty line fails the first test of `checkLineMatch`. -/
theorem noMatch_empty (env : Env) (f : WatchFile) : noMatch env f "" = true := by
  unfold noMatch
  cases f.re <;> simp

/-- C30: starting with the "Matched" and "Dropped" counters of a file at zero
and no request sent for it, after any sequence of lines of that file handed to
`checkLineMatch` the "Matched" counter equals the number of requests sent for
the file plus the "Dropped" counter. For each single line, from any state: a
line that changes the "Skipped" counter leaves "Matched" and "Dropped" as they
are, sends nothing and does not call the limiter; and a line that is empty,
fails the match test or is skipped does not call the limiter and sends
nothing. -/
theorem counter_accounting (env : Env) (w : World) (p : FilePtr) (texts : List String)
    (hM : w.counter ((w.heap p).Path ++ " Matched") = 0)
    (hD : w.counter ((w.heap p).Path ++ " Dropped") = 0)
    (hS : sentFor w (w.heap p).Path = 0) :
    (checkLines env w texts p).counter ((w.heap p).Path ++ " Matched") =
      (sentFor (checkLines env w texts p) (w.heap p).Path : Int) +
        (checkLines env w texts p).counter ((w.heap p).Path ++ " Dropped") ∧
    (∀ (v : World) (text : String),
      ((checkLineMatch env v text p).counter ((v.heap p).Path ++ " Skipped") ≠
          v.counter ((v.heap p).Path ++ " Skipped") →
        (checkLineMatch env v text p).counter ((v.heap p).Path ++ " Matched") =
            v.counter ((v.heap p).Path ++ " Matched") ∧
          (checkLineMatch env v text p).counter ((v.heap p).Path ++ " Dropped") =
            v.counter ((v.heap p).Path ++ " Dropped") ∧
          (checkLineMatch env v text p).sent = v.sent ∧
          (checkLineMatch env v text p).pours = v.pours) ∧
      (text = "" ∨ noMatch env (v.heap p) text = true ∨
          isSkipped env (v.heap p) text = true →
        (checkLineMatch env v text p).pours = v.pours ∧
          (checkLineMatch env v text p).sent = v.sent)) := by
  constructor
  · have h := (checkLines_account env p texts w).2
    rw [hM, hD, hS] at h
    simp only [Nat.cast_zero, add_zero, zero_add] at h
    exact h
  · intro v text
    have kMS : (v.heap p).Path ++ " Matched" ≠ (v.heap p).Path ++ " Skipped" :=
      key_ne _ _ _ (by decide)
    have kDS : (v.heap p).Path ++ " Dropped" ≠ (v.heap p).Path ++ " Skipped" :=
      key_ne _ _ _ (by decide)
    constructor
    · intro hne
      rcases checkLineMatch_line env v text p with ⟨_, h⟩ | ⟨_, h⟩ | ⟨_, _, _, hS1, _, _⟩
      · rw [h]
        exact ⟨rfl, rfl, rfl, rfl⟩
      · rw [h]
        exact ⟨counter_count_ne v _ _ 1 kMS, counter_count_ne v _ _ 1 kDS, rfl, rfl⟩
      · exact absurd hS1 hne
    · intro h
      rcases checkLineMatch_line env v text p with ⟨_, h1⟩ | ⟨_, h1⟩ | ⟨hn, hs, _⟩
      · rw [h1]
        exact ⟨rfl, rfl⟩
      · rw [h1]
        exact ⟨rfl, rfl⟩
      · rcases h with h | h | h
        · rw [h, noMatch_empty] at hn
          exact absurd hn (by decide)
        · rw [h] at hn
          exact absurd hn (by decide)
        · rw [h] at hs
          exact absurd hs (by decide)

/-- C30 on five lines of `app.log`, with a limiter that grants every token:
two lines are matched and sent, one is skipped, one is empty and one does not
match; "Matched" stands at 2, which is the 2 requests sent plus 0 dropped. -/
theorem counter_accounting_witness :
    (checkLines sampleEnv sampleWorld
        ["ERROR a", "DEBUG ERROR", "", "nothing", "ERROR b"] 2).counter
        ((sampleWorld.heap 2).Path ++ " Matched") =
      (sentFor (checkLines sampleEnv sampleWorld
        ["ERROR a", "DEBUG ERROR", "", "nothing", "ERROR b"] 2)
          (sampleWorld.heap 2).Path : Int) +
        (checkLines sampleEnv sampleWorld
          ["ERROR a", "DEBUG ERROR", "", "nothing", "ERROR b"] 2).counter
          ((sampleWorld.heap 2).Path ++ " Dropped") ∧
    sentFor (checkLines sampleEnv sampleWorld
        ["ERROR a", "DEBUG ERROR", "", "nothing", "ERROR b"] 2) "app.log" = 2 :=
  ⟨(counter_accounting sampleEnv sampleWorld 2
      ["ERROR a", "DEBUG ERROR", "", "nothing", "ERROR b"] (by rfl) (by rfl) (by rfl)).1,
    by rfl⟩

end filewatch
end Notifiarr

namespace Notifiarr
namespace filewatch

/-- Over ticks and other changes that leave the retries of a file at
`maxRetries` or above, no attempt is made for a file whose retries are used
up. -/
theorem ticksLog_exhausted (env : Env) (p : FilePtr) (items : List TickItem) :
    ∀ (w : World), maxRetries ≤ (w.heap p).retries →
      (∀ f, TickItem.other f ∈ items → ∀ v, maxRetries ≤ (v.heap p).retries →
        maxRetries ≤ ((f v).heap p).retries) →
      ∀ e ∈ ticksLog env w items, e.1 ≠ p := by
  induction items with
  | nil => intro w _ _ e he; simp [ticksLog] at he
  | cons it rest ih =>
    intro w hp hoth
    have hoth' : ∀ f, TickItem.other f ∈ rest → ∀ v, maxRetries ≤ (v.heap p).retries →
        maxRetries ≤ ((f v).heap p).retries :=
      fun f hf => hoth f (List.mem_cons_of_mem _ hf)
    cases it with
    | other f =>
      simp only [ticksLog]
      exact ih (f w) (hoth f (List.mem_cons_self _ _) w hp) hoth'
    | tick died =>
      intro e he
      simp only [ticksLog, List.mem_append] at he
      cases hd : died with
      | false =>
        simp only [hd, fileWatcherTickerLog, fileWatcherTicker, Bool.not_false, if_true,
          List.not_mem_nil, false_or] at he
        exact ih w hp hoth' e he
      | true =>
        simp only [hd, fileWatcherTickerLog, fileWatcherTicker, Bool.not_true,
          Bool.false_eq_true, if_false] at he
        obtain ⟨t1, t2⟩ := tickerLoop_exhausted env p w.files w false hp
        rcases he with he | he
        · exact t2 e he
        · rcases hk : tickerLoop env w w.files false with ⟨w1, o⟩
          rw [hk] at he t1
          simp only at t1
          cases o with
          | returned b =>
            simp only [] at he
            exact ih w1 (by rw [t1]; exact hp) hoth' e he
          | panicked msg => simp at he
          | blocked => simp at he

/-- C22: `Stop` on a file that is not active returns nil and changes nothing.
On an active file it stops the tail in the world in which the retries of the
file are already at `maxRetries`, and returns the error of stopping the tail,
if any; either way the file is left with its retries at `maxRetries` and
otherwise as it was, no other file is changed, and over all later ticks, mixed
with other changes that do not take the retries of the file below
`maxRetries`, `fileWatcherTicker` makes no restart attempt for it. -/
theorem stop_prevents_restart (env : Env) (w : World) (p : FilePtr) :
    (Active w p = false → Stop env w p = (w, Outcome.returned false)) ∧
    (Active w p = true →
      Stop env w p = stop env (w.setFile p { w.heap p with retries := maxRetries }) p ∧
      (∃ t, (w.heap p).tail = some t ∧
        (Stop env w p).2 = Outcome.returned (env.tailStopFails w.stops t)) ∧
      (Stop env w p).1.heap p = { w.heap p with retries := maxRetries } ∧
      (∀ q, q ≠ p → (Stop env w p).1.heap q = w.heap q) ∧
      (Stop env w p).1.stops = w.stops + 1 ∧
      ∀ items : List TickItem,
        (∀ f, TickItem.other f ∈ items → ∀ v, maxRetries ≤ (v.heap p).retries →
          maxRetries ≤ ((f v).heap p).retries) →
        ∀ e ∈ ticksLog env (Stop env w p).1 items, e.1 ≠ p) := by
  constructor
  · intro h
    simp [Stop, h]
  · intro h
    have hS : Stop env w p =
        stop env (w.setFile p { w.heap p with retries := maxRetries }) p := by
      simp [Stop, h]
    obtain ⟨t, ht⟩ : ∃ t, (w.heap p).tail = some t := by
      simp only [Active] at h
      exact Option.isSome_iff_exists.mp h
    have hv : Stop env w p =
        ({ w.setFile p { w.heap p with retries := maxRetries } with stops := w.stops + 1 },
          Outcome.returned (env.tailStopFails w.stops t)) := by
      rw [hS]
      simp [stop, World.setFile, ht]
    have hheap : (Stop env w p).1.heap p = { w.heap p with retries := maxRetries } := by
      rw [hv]
      simp [World.setFile]
    refine ⟨hS, ⟨t, ht, by rw [hv]⟩, hheap, ?_, by rw [hv], ?_⟩
    · intro q hq
      rw [hv]
      simp [World.setFile, hq]
    · intro items hoth
      exact ticksLog_exhausted env p items (Stop env w p).1
        (by rw [hheap]) hoth

/-- C22 on the examples: `app.log` is stopped while active; then its source
closes and the loop deactivates it, and two ticks go through the files: no
restart is attempted. -/
theorem stop_prevents_restart_witness :
    Active sampleWorld 2 = true ∧
    ((Stop sampleEnv sampleWorld 2).1.heap 2).retries = maxRetries ∧
    ticksLog sampleEnv (Stop sampleEnv sampleWorld 2).1
      [TickItem.other (fun v => (killWatcher sampleEnv v 2).1),
        TickItem.tick true, TickItem.tick true] = [] ∧
    ∀ e ∈ ticksLog sampleEnv (Stop sampleEnv sampleWorld 2).1
      [TickItem.other (fun v => (killWatcher sampleEnv v 2).1),
        TickItem.tick true, TickItem.tick true], e.1 ≠ 2 :=
  ⟨by rfl, by rfl, by rfl,
    ((stop_prevents_restart sampleEnv sampleWorld 2).2 (by rfl)).2.2.2.2.2
      [TickItem.other (fun v => (killWatcher sampleEnv v 2).1),
        TickItem.tick true, TickItem.tick true]
      (by
        intro f hf v hv
        simp only [List.mem_cons, TickItem.other.injEq, List.mem_singleton,
          List.not_mem_nil, or_false, reduceCtorEq] at hf
        subst hf
        rw [(killWatcher_clears sampleEnv v 2).2.1 2]
        exact hv)⟩

end filewatch
end Notifiarr

namespace Notifiarr
namespace filewatch

/-- `setup` returns nil on a file that passes validation when every tail opens. -/
theorem setup_succeeds (env : Env) (w : World) (p : FilePtr)
    (hv : validates env (w.heap p) = true)
    (ht : ∀ k f, (env.tailFile k f).isSome = true) :
    (setup env w p).2 = none := by
  simp only [validates, Bool.and_eq_true, bne_iff_ne, ne_eq] at hv
  obtain ⟨⟨h1, h2⟩, h3⟩ := hv
  rcases setup_cases env w p with ⟨h, _⟩ | ⟨_, hc, _⟩ | ⟨r, _, _, hs, _⟩ |
    ⟨r, s, _, _, _, hn, _⟩ | ⟨r, s, t, _, _, _, _, e⟩
  · exact absurd h h1
  · rw [hc] at h2; simp at h2
  · rw [hs] at h3; simp at h3
  · have := ht w.opens (validated env (w.heap p))
    rw [hn] at this; simp at this
  · rw [e]

/-- With the mutex free, the add channel there and `setup` returning nil,
`addFileWatcher` comes to the send: it panics on a closed channel, blocks on a
full buffer, and otherwise puts the file in the buffer and returns nil. -/
theorem addFileWatcher_send (env : Env) (w : World) (p : FilePtr) (ch : AddChan)
    (hl : w.awLocked = false) (hch : w.addWatcher = some ch)
    (hs : (setup env w p).2 = none) :
    addFileWatcher env w p =
      if ch.closed then ((setup env w p).1, Outcome.panicked "send on closed channel")
      else if 1 ≤ ch.buf.length then ((setup env w p).1, Outcome.blocked)
      else
        ({ (setup env w p).1 with addWatcher := some { ch with buf := ch.buf ++ [some p] } },
          Outcome.returned none) := by
  obtain ⟨f1, -, -⟩ := setup_frame env w p
  unfold addFileWatcher
  rcases hsu : setup env w p with ⟨w1, o⟩
  rw [hsu] at f1 hs
  simp only at f1 hs
  subst hs
  rw [hch] at f1
  simp only [hl, hch, f1, Bool.false_eq_true, if_false]

/-- Whether a file passes validation does not depend on its retries. -/
theorem validates_retries (env : Env) (f : WatchFile) (n : Nat) :
    validates env { f with retries := n } = validates env f := rfl

/-- A turn of the loop of the ticker whose restart goes through. -/
theorem tickerLoop_restart (env : Env) (w : World) (item : FilePtr) (rest : List FilePtr)
    (sd : Bool) (w2 : World) (hpo : passedOver w item = false)
    (h : addFileWatcher env (beforeRestart w item) item = (w2, Outcome.returned none)) :
    tickerLoop env w (item :: rest) sd =
      tickerLoop env
        ((w2.setFile item { w2.heap item with retries := 0 }).count
          ((w2.heap item).Path ++ " Restarts") 1) rest sd := by
  rw [tickerLoop_cons]
  simp only [hpo, Bool.false_eq_true, if_false, h]

/-- A turn of the loop of the ticker whose restart blocks. -/
theorem tickerLoop_blocked (env : Env) (w : World) (item : FilePtr) (rest : List FilePtr)
    (sd : Bool) (w2 : World) (hpo : passedOver w item = false)
    (h : addFileWatcher env (beforeRestart w item) item = (w2, Outcome.blocked)) :
    tickerLoop env w (item :: rest) sd = (w2, Outcome.blocked) := by
  rw [tickerLoop_cons]
  simp only [hpo, Bool.false_eq_true, if_false, h]

/-- The loop of the ticker over two files that restart in one tick: the first
is put on the empty add channel, the send of the second finds the buffer full
and blocks. -/
theorem tickerLoop_two_restarts (env : Env) (w : World) (p q : FilePtr)
    (rest : List FilePtr) (sd : Bool) (ch : AddChan)
    (hl : w.awLocked = false) (hch : w.addWatcher = some ch)
    (hopen : ch.closed = false) (hbuf : ch.buf = [])
    (hpq : p ≠ q) (hp : passedOver w p = false) (hq : passedOver w q = false)
    (hvp : validates env (w.heap p) = true) (hvq : validates env (w.heap q) = true)
    (ht : ∀ k f, (env.tailFile k f).isSome = true) :
    (tickerLoop env w (p :: q :: rest) sd).2 = Outcome.blocked ∧
    (tickerLoop env w (p :: q :: rest) sd).1.addWatcher =
      some { ch with buf := [some p] } := by
  -- the first file
  obtain ⟨b1, -, b3, b4, b5⟩ := beforeRestart_file env w p
  obtain ⟨-, -, bo, -⟩ := beforeRestart_heap w p
  have hv1 : validates env ((beforeRestart w p).heap p) = true := by
    rw [b1]; exact hvp
  have hs1 := setup_succeeds env (beforeRestart w p) p hv1 ht
  have a1 : addFileWatcher env (beforeRestart w p) p =
      ({ (setup env (beforeRestart w p) p).1 with
          addWatcher := some { ch with buf := [some p] } }, Outcome.returned none) := by
    rw [addFileWatcher_send env (beforeRestart w p) p ch (b4.trans hl) (b5.trans hch) hs1]
    simp [hopen, hbuf]
  obtain ⟨f1, f2, -⟩ := setup_frame env (beforeRestart w p) p
  have ho1 := setup_heap_other env (beforeRestart w p) p q (Ne.symm hpq)
  rw [tickerLoop_restart env w p (q :: rest) sd _ hp a1]
  -- the world the second file is looked at in
  obtain ⟨w2, hw2⟩ : ∃ w2 : World, w2 =
      (World.setFile
        { (setup env (beforeRestart w p) p).1 with
          addWatcher := some { ch with buf := [some p] } } p
        { World.heap { (setup env (beforeRestart w p) p).1 with
            addWatcher := some { ch with buf := [some p] } } p with retries := 0 }).count
        ((World.heap { (setup env (beforeRestart w p) p).1 with
            addWatcher := some { ch with buf := [some p] } } p).Path ++ " Restarts") 1 :=
    ⟨_, rfl⟩
  rw [← hw2]
  have h2q : w2.heap q = w.heap q := by
    rw [hw2]
    simp only [World.count, World.setFile, Ne.symm hpq, if_false]
    rw [ho1, bo q (Ne.symm hpq)]
  have h2l : w2.awLocked = false := by
    rw [hw2]
    simp only [World.count, World.setFile]
    rw [f2, b4, hl]
  have h2c : w2.addWatcher = some { ch with buf := [some p] } := by
    rw [hw2]
    rfl
  -- the second file
  obtain ⟨c1, -, c3, c4, c5⟩ := beforeRestart_file env w2 q
  have hv2 : validates env ((beforeRestart w2 q).heap q) = true := by
    rw [c1, h2q]; exact hvq
  have hs2 := setup_succeeds env (beforeRestart w2 q) q hv2 ht
  have a2 : addFileWatcher env (beforeRestart w2 q) q =
      ((setup env (beforeRestart w2 q) q).1, Outcome.blocked) := by
    rw [addFileWatcher_send env (beforeRestart w2 q) q { ch with buf := [some p] }
      (c4.trans h2l) (c5.trans h2c) hs2]
    simp [hopen]
  obtain ⟨g1, -, -⟩ := setup_frame env (beforeRestart w2 q) q
  have hpo2 : passedOver w2 q = false := by
    rw [passedOver_congr w2 w q h2q]; exact hq
  rw [tickerLoop_blocked env w2 q rest sd _ hpo2 a2]
  exact ⟨rfl, by rw [g1, c5, h2c]⟩

/-- The step of a maintenance tick, in terms of `fileWatcherTicker`. -/
theorem loopStep_tick (env : Env) (w : World) (st : LoopState)
    (hc : 2 ≤ st.cases.length) (ht : 2 ≤ st.tails.length) :
    loopStep env w st tickEvent =
      match fileWatcherTicker env w st.died with
      | (w1, Outcome.returned died) => ⟨w1, { st with died := died }, Status.running⟩
      | (w1, Outcome.panicked msg) => ⟨w1, st, Status.panicked msg⟩
      | (w1, Outcome.blocked) => ⟨w1, st, Status.blocked⟩ := by
  have hsel : Event.selectable st.cases ⟨1, Data.time, true⟩ = true := by
    simp [Event.selectable]
    omega
  obtain ⟨item, hitem⟩ : ∃ item, st.tails[1]? = some item :=
    ⟨st.tails[1], List.getElem?_eq_getElem (by omega)⟩
  rcases hk : fileWatcherTicker env w st.died with ⟨w1, o⟩
  cases o <;> simp [tickEvent, loopStep, hsel, loopBody, hitem, hk]

/-- C26 fails when two files restart in one tick. With the mutex free and the
add channel open and empty, a tick with the `died` flag true over configured
files of which the first two are distinct, inactive with retries below
`maxRetries`, pass validation, and with every tail opening: `fileWatcherTicker`
puts the first file on the add channel and then blocks in the send of the
second, the buffer of capacity 1 being full; the step of the loop is blocked,
and the loop takes none of the items that follow, so nothing receives from the
add channel. -/
theorem second_restart_blocks (env : Env) (w : World) (p q : FilePtr)
    (rest : List FilePtr) (ch : AddChan)
    (hfiles : w.files = p :: q :: rest)
    (hl : w.awLocked = false) (hch : w.addWatcher = some ch)
    (hopen : ch.closed = false) (hbuf : ch.buf = [])
    (hpq : p ≠ q) (hp : passedOver w p = false) (hq : passedOver w q = false)
    (hvp : validates env (w.heap p) = true) (hvq : validates env (w.heap q) = true)
    (ht : ∀ k f, (env.tailFile k f).isSome = true) :
    (fileWatcherTicker env w true).2 = Outcome.blocked ∧
    (fileWatcherTicker env w true).1.addWatcher = some { ch with buf := [some p] } ∧
    ∀ (st : LoopState) (items : List Item), st.died = true →
      2 ≤ st.cases.length → 2 ≤ st.tails.length →
      (loopStep env w st tickEvent).status = Status.blocked ∧
      (loopStep env w st tickEvent).st = st ∧
      runLoop env ⟨w, st, Status.running⟩ (Item.ev tickEvent :: items) =
        (loopStep env w st tickEvent, items) := by
  obtain ⟨t1, t2⟩ := tickerLoop_two_restarts env w p q rest false ch hl hch hopen hbuf hpq
    hp hq hvp hvq ht
  have hfw : fileWatcherTicker env w true = tickerLoop env w (p :: q :: rest) false := by
    simp [fileWatcherTicker, hfiles]
  rw [hfw]
  refine ⟨t1, t2, ?_⟩
  intro st items hd hc hts
  have hstep := loopStep_tick env w st hc hts
  rw [hd, hfw] at hstep
  rcases hk : tickerLoop env w (p :: q :: rest) false with ⟨w1, o⟩
  rw [hk] at t1 hstep
  simp only at t1
  subst t1
  simp only [] at hstep
  have hst : (loopStep env w st tickEvent).status = Status.blocked := by rw [hstep]
  refine ⟨hst, by rw [hstep], ?_⟩
  rw [runLoop_cons]
  · simp only [applyItem]
    exact runLoop_of_not_running env _ items (by rw [hst]; decide)
  · rfl

/-- C26 on the examples: `app.log` and `any.log` are both configured and both
inactive with retries 0, every tail opens: the tick blocks with `app.log` in
the buffer of the add channel. -/
theorem second_restart_blocks_witness :
    (fileWatcherTicker sampleEnv twoDeadWorld true).2 = Outcome.blocked ∧
    (fileWatcherTicker sampleEnv twoDeadWorld true).1.addWatcher =
      some ⟨10, [some 2], false⟩ ∧
    (loopStep sampleEnv twoDeadWorld ⟨[10, 11], [0, 1], true⟩ tickEvent).status =
      Status.blocked :=
  ⟨(second_restart_blocks sampleEnv twoDeadWorld 2 3 [] ⟨10, [], false⟩ rfl rfl rfl rfl rfl
      (by decide) (by decide) (by decide) (by rfl) (by rfl) (by intro k f; rfl)).1,
    (second_restart_blocks sampleEnv twoDeadWorld 2 3 [] ⟨10, [], false⟩ rfl rfl rfl rfl rfl
      (by decide) (by decide) (by decide) (by rfl) (by rfl) (by intro k f; rfl)).2.1,
    ((second_restart_blocks sampleEnv twoDeadWorld 2 3 [] ⟨10, [], false⟩ rfl rfl rfl rfl rfl
      (by decide) (by decide) (by decide) (by rfl) (by rfl) (by intro k f; rfl)).2.2
        ⟨[10, 11], [0, 1], true⟩ [] rfl (by decide) (by decide)).1⟩

end filewatch
end Notifiarr

namespace Notifiarr
namespace filewatch

/-- When `SendData` never panics, the handling is `checkLineMatch`. -/
theorem checkLineMatchMay_never (env : Env) (w : World) (text : String) (p : FilePtr) :
    checkLineMatchMay env (fun _ => false) w text p =
      (checkLineMatch env w text p, Outcome.returned ()) := by
  simp only [checkLineMatchMay, checkLineMatch]
  repeat' split
  all_goals first | rfl | simp_all

/-- The handling leaves the ticker and the stop channel alone. -/
theorem checkLineMatchMay_frame (env : Env) (sendPanics : Nat → Bool) (w : World)
    (text : String) (p : FilePtr) :
    (checkLineMatchMay env sendPanics w text p).1.tickerStops = w.tickerStops ∧
    (checkLineMatchMay env sendPanics w text p).1.stopWatcher = w.stopWatcher ∧
    (checkLineMatchMay env sendPanics w text p).1.stopCloses = w.stopCloses ∧
    (checkLineMatchMay env sendPanics w text p).1.heap = w.heap := by
  simp only [checkLineMatchMay]
  repeat' split
  all_goals exact ⟨rfl, rfl, rfl, rfl⟩

/-- The handling panics exactly in the call of `SendData`: for a line that is
matched, not skipped and granted its token. -/
theorem checkLineMatchMay_panics (env : Env) (sendPanics : Nat → Bool) (w : World)
    (text : String) (p : FilePtr) (re : regexp.Regexp)
    (hre : (w.heap p).re = some re) (hne : text ≠ "")
    (hm : env.MatchString re text = true)
    (hns : isSkipped env (w.heap p) text = false)
    (hp : env.pour w.pours = true) (hs : sendPanics w.sent.length = true) :
    checkLineMatchMay env sendPanics w text p =
      ({ w.count ((w.heap p).Path ++ " Matched") 1 with pours := w.pours + 1 },
        Outcome.panicked "panic in SendData") := by
  unfold isSkipped at hns
  unfold checkLineMatchMay
  simp only [hre]
  rcases Option.eq_none_or_eq_some (w.heap p).skip with hsk | ⟨sk, hsk⟩
  · simp [hsk, hne, hm, hp, hs, World.count]
  · simp only [hsk] at hns
    simp [hsk, hne, hm, hns, hp, hs, World.count]

/-- When `SendData` never panics, the step is `loopStep`. -/
theorem loopStepMay_never (env : Env) (w : World) (st : LoopState) (ev : Event) :
    loopStepMay env (fun _ => false) w st ev = loopStep env w st ev := by
  unfold loopStepMay
  split
  · rename_i h
    simp only [Bool.and_eq_true, decide_eq_true_eq, specialCase] at h
    obtain ⟨⟨hsel, hrun⟩, hidx⟩ := h
    rcases hd : ev.data with _ | _ | p | text | _ <;> simp only [Data.text]
    rcases hi : st.tails[ev.idx]? with _ | item
    · simp [loopStep, hsel, loopBody, hi]
    · have h0 : (ev.idx == 0) = false := by simp; omega
      have h1 : ¬ ev.idx = 1 := by omega
      simp [loopStep, hsel, loopBody, hi, hd, hrun, h0, h1, onLine, checkLineMatchMay_never]
  · rfl

/-- The step of a line of a data source, where `SendData` may panic. -/
theorem loopStepMay_line (env : Env) (sendPanics : Nat → Bool) (w : World) (st : LoopState)
    (ev : Event) (item : FilePtr) (text : String)
    (hsel : ev.selectable st.cases = true) (hrun : ev.running = true)
    (hidx : specialCase ≤ ev.idx) (hdata : ev.data = Data.line text)
    (hitem : st.tails[ev.idx]? = some item) :
    loopStepMay env sendPanics w st ev = onLine env sendPanics w st item text := by
  simp [loopStepMay, hsel, hrun, hidx, hdata, Data.text, hitem]

/-- A run of the loop that is not running takes no item. -/
theorem runLoopMay_of_not_running (env : Env) (sendPanics : Nat → Bool) (c : LoopCfg)
    (items : List Item) (h : c.status ≠ Status.running) :
    runLoopMay env sendPanics c items = (c, items) := by
  cases items with
  | nil => rfl
  | cons it rest => simp [runLoopMay, h]

/-- The deferred function of `tailFiles` stops the ticker. -/
theorem tailFilesDeferred_ticker (w : World) :
    (tailFilesDeferred w).1.tickerStops = w.tickerStops + 1 := by
  simp only [tailFilesDeferred]
  repeat' split
  all_goals rfl

/-- C21, as the code has it: when the handling of a line of a data source
panics, the loop of `tailFiles` is left through that panic: nothing in the
loop recovers from it. The active set is as it was, the "Bytes" counter of the
line is not reached, none of the items that follow is taken, and the deferred
function of `tailFiles` runs: the ticker is stopped, and `tailFiles` ends in a
panic state, that of the handling or that of closing the stop channel. -/
theorem panic_leaves_loop (env : Env) (sendPanics : Nat → Bool) (w : World)
    (st : LoopState) (ev : Event) (item : FilePtr) (text msg : String) (items : List Item)
    (hsel : ev.selectable st.cases = true) (hrun : ev.running = true)
    (hidx : specialCase ≤ ev.idx) (hdata : ev.data = Data.line text)
    (hitem : st.tails[ev.idx]? = some item)
    (hpanic : (checkLineMatchMay env sendPanics
      (w.count ((w.heap item).Path ++ " Lines") 1) text item).2 = Outcome.panicked msg) :
    runLoopMay env sendPanics ⟨w, st, Status.running⟩ (Item.ev ev :: items) =
      (⟨(checkLineMatchMay env sendPanics
          (w.count ((w.heap item).Path ++ " Lines") 1) text item).1, st,
        Status.panicked msg⟩, items) ∧
    (tailFilesMay env sendPanics ⟨w, st, Status.running⟩ (Item.ev ev :: items)).2 = items ∧
    (tailFilesMay env sendPanics ⟨w, st, Status.running⟩ (Item.ev ev :: items)).1.st = st ∧
    (∃ m, (tailFilesMay env sendPanics ⟨w, st, Status.running⟩
      (Item.ev ev :: items)).1.status = Status.panicked m) ∧
    (tailFilesMay env sendPanics ⟨w, st, Status.running⟩
      (Item.ev ev :: items)).1.w.tickerStops = w.tickerStops + 1 := by
  have hstep : loopStepMay env sendPanics w st ev =
      ⟨(checkLineMatchMay env sendPanics
          (w.count ((w.heap item).Path ++ " Lines") 1) text item).1, st,
        Status.panicked msg⟩ := by
    rw [loopStepMay_line env sendPanics w st ev item text hsel hrun hidx hdata hitem]
    rcases hk : checkLineMatchMay env sendPanics
      (w.count ((w.heap item).Path ++ " Lines") 1) text item with ⟨w2, o⟩
    rw [hk] at hpanic
    simp only at hpanic
    subst hpanic
    simp only [onLine, hk]
  have hrunL : runLoopMay env sendPanics ⟨w, st, Status.running⟩ (Item.ev ev :: items) =
      (⟨(checkLineMatchMay env sendPanics
          (w.count ((w.heap item).Path ++ " Lines") 1) text item).1, st,
        Status.panicked msg⟩, items) := by
    rw [runLoopMay]
    simp only [if_true, applyItemMay, hstep]
    exact runLoopMay_of_not_running env sendPanics _ items (by simp)
  obtain ⟨f1, -, -, -⟩ := checkLineMatchMay_frame env sendPanics
    (w.count ((w.heap item).Path ++ " Lines") 1) text item
  have f1' : (checkLineMatchMay env sendPanics
      (w.count ((w.heap item).Path ++ " Lines") 1) text item).1.tickerStops =
      w.tickerStops := f1
  refine ⟨hrunL, ?_⟩
  unfold tailFilesMay
  simp only [hrunL]
  rcases hd : tailFilesDeferred (checkLineMatchMay env sendPanics
      (w.count ((w.heap item).Path ++ " Lines") 1) text item).1 with ⟨w1, o⟩
  have ht : w1.tickerStops = w.tickerStops + 1 := by
    have := congrArg (fun r => r.1.tickerStops) hd
    simp only at this
    rw [← this, ← f1']
    exact tailFilesDeferred_ticker _
  cases o with
  | none => exact ⟨rfl, rfl, ⟨msg, rfl⟩, ht⟩
  | some m1 => exact ⟨rfl, rfl, ⟨m1, rfl⟩, ht⟩

/-- C21 on the examples: `SendData` panics at its first call; the line
`ERROR one` of `app.log` is matched and granted its token, so the handling
panics and the loop is left. -/
theorem panic_leaves_loop_witness :
    (tailFilesMay sampleEnv (fun _ => true) twoCfg
      [Item.ev ⟨2, Data.line "ERROR one", true⟩,
        Item.ev ⟨3, Data.line "later line", true⟩]).2 =
      [Item.ev ⟨3, Data.line "later line", true⟩] ∧
    (tailFilesMay sampleEnv (fun _ => true) twoCfg
      [Item.ev ⟨2, Data.line "ERROR one", true⟩,
        Item.ev ⟨3, Data.line "later line", true⟩]).1.st = twoCfg.st :=
  ⟨(panic_leaves_loop sampleEnv (fun _ => true) twoWorld twoCfg.st
      ⟨2, Data.line "ERROR one", true⟩ 2 "ERROR one" "panic in SendData"
      [Item.ev ⟨3, Data.line "later line", true⟩]
      (by decide) rfl (by decide) rfl (by rfl) (by rfl)).2.1,
    (panic_leaves_loop sampleEnv (fun _ => true) twoWorld twoCfg.st
      ⟨2, Data.line "ERROR one", true⟩ 2 "ERROR one" "panic in SendData"
      [Item.ev ⟨3, Data.line "later line", true⟩]
      (by decide) rfl (by decide) rfl (by rfl) (by rfl)).2.2.1⟩

/-- C21 as stated fails: with `SendData` panicking, the line `ERROR one` of
`app.log` ends the loop in a panic state; the line of `raw.log` that follows
is left untaken and uncounted, and the deferred function has closed the stop
channel: the loop has terminated. -/
theorem panic_ends_loop :
    (tailFilesMay sampleEnv (fun _ => true) twoCfg
      [Item.ev ⟨2, Data.line "ERROR one", true⟩,
        Item.ev ⟨3, Data.line "later line", true⟩]).1.status =
      Status.panicked "panic in SendData" ∧
    (tailFilesMay sampleEnv (fun _ => true) twoCfg
      [Item.ev ⟨2, Data.line "ERROR one", true⟩,
        Item.ev ⟨3, Data.line "later line", true⟩]).2.length = 1 ∧
    (tailFilesMay sampleEnv (fun _ => true) twoCfg
      [Item.ev ⟨2, Data.line "ERROR one", true⟩,
        Item.ev ⟨3, Data.line "later line", true⟩]).1.w.metrics "raw.log Lines" = none ∧
    (tailFilesMay sampleEnv (fun _ => true) twoCfg
      [Item.ev ⟨2, Data.line "ERROR one", true⟩,
        Item.ev ⟨3, Data.line "later line", true⟩]).1.w.stopWatcher = some ⟨9, true⟩ ∧
    (tailFilesMay sampleEnv (fun _ => false) twoCfg
      [Item.ev ⟨2, Data.line "ERROR one", true⟩,
        Item.ev ⟨3, Data.line "later line", true⟩]).1.w.metrics "raw.log Lines" =
      some 1 := by
  refine ⟨by rfl, by rfl, by rfl, by rfl, by rfl⟩

end filewatch
end Notifiarr

namespace Notifiarr
namespace filewatch

/-- The files set up, by the first entry of the log. -/
theorem setUp_cons (p : FilePtr) (r : Option Err) (log : List (FilePtr × Option Err)) :
    setUp ((p, r) :: log) = if r.isNone then p :: setUp log else setUp log := by
  cases r <;> simp [setUp, List.filter_cons]

/-- Every configured file has its call of `setup`, in the order of the list. -/
theorem setupLog_fst (env : Env) (files : List FilePtr) :
    ∀ w : World, (setupLog env w files).map Prod.fst = files := by
  induction files with
  | nil => intro w; rfl
  | cons item rest ih => intro w; simp [setupLog, ih]

/-- The files set up are among the configured ones. -/
theorem setUp_subset (env : Env) (files : List FilePtr) (w : World) :
    ∀ p ∈ setUp (setupLog env w files), p ∈ files := by
  intro p hp
  have h := setupLog_fst env files w
  simp only [setUp, List.mem_map, List.mem_filter] at hp
  obtain ⟨e, ⟨he, _⟩, rfl⟩ := hp
  rw [← h]
  exact List.mem_map_of_mem _ he

/-- The loop of `run` appends to `validTails` the files whose `setup` returned
nil, in order. -/
theorem runSetups_valid (env : Env) (files : List FilePtr) :
    ∀ (w : World) (valid : List FilePtr),
      (runSetups env w files valid).2 = valid ++ setUp (setupLog env w files) := by
  induction files with
  | nil => intro w valid; simp [runSetups, setupLog, setUp]
  | cons item rest ih =>
    intro w valid
    rcases hs : setup env w item with ⟨w1, o⟩
    have h1 : (setup env w item).1 = w1 := by rw [hs]
    have h2 : (setup env w item).2 = o := by rw [hs]
    cases o with
    | some err =>
      simp only [runSetups, hs, setupLog, setUp_cons, h1, h2]
      simpa using ih w1 valid
    | none =>
      simp only [runSetups, hs, setupLog, setUp_cons, h1, h2]
      simpa using ih w1 (valid ++ [item])

/-- The world after the loop of `run` does not depend on `validTails`. -/
theorem runSetups_world (env : Env) (files : List FilePtr) :
    ∀ (w : World) (valid valid1 : List FilePtr),
      (runSetups env w files valid).1 = (runSetups env w files valid1).1 := by
  induction files with
  | nil => intro w valid valid1; rfl
  | cons item rest ih =>
    intro w valid valid1
    rcases hs : setup env w item with ⟨w1, o⟩
    cases o with
    | some err => simp only [runSetups, hs]; exact ih w1 _ _
    | none => simp only [runSetups, hs]; exact ih w1 _ _

/-- One turn of the loop of `run`, as far as the world goes. -/
theorem runSetups_cons_world (env : Env) (w : World) (item : FilePtr)
    (rest valid : List FilePtr) :
    (runSetups env w (item :: rest) valid).1 =
      (runSetups env (setup env w item).1 rest valid).1 := by
  rcases hs : setup env w item with ⟨w1, o⟩
  cases o with
  | some err => simp only [runSetups, hs]
  | none => simp only [runSetups, hs]; exact runSetups_world env rest w1 _ _

/-- The loop of `run` changes no file but the configured ones. -/
theorem runSetups_heap_other (env : Env) (files : List FilePtr) :
    ∀ (w : World) (valid : List FilePtr) (q : FilePtr), q ∉ files →
      (runSetups env w files valid).1.heap q = w.heap q := by
  induction files with
  | nil => intro w valid q _; rfl
  | cons item rest ih =>
    intro w valid q hq
    simp only [List.mem_cons, not_or] at hq
    rw [runSetups_cons_world, ih _ valid q hq.2, setup_heap_other env w item q hq.1]

/-- After `setup` has returned nil the file is active. -/
theorem setup_active (env : Env) (w : World) (p : FilePtr) (h : (setup env w p).2 = none) :
    Active (setup env w p).1 p = true := by
  rcases setup_cases env w p with ⟨_, e⟩ | ⟨_, _, e⟩ | ⟨r, _, _, _, e⟩ |
    ⟨r, s, _, _, _, _, e⟩ | ⟨r, s, t, _, _, _, _, e⟩
  · rw [e] at h; simp at h
  · rw [e] at h; simp at h
  · rw [e] at h; simp at h
  · rw [e] at h; simp at h
  · rw [e]; simp [Active, World.setFile]

/-- Over distinct files, every file the loop of `run` has set up is active
when the loop is over. -/
theorem runSetups_active (env : Env) (files : List FilePtr) :
    ∀ (w : World) (valid : List FilePtr), files.Nodup →
      ∀ p ∈ setUp (setupLog env w files), Active (runSetups env w files valid).1 p = true := by
  induction files with
  | nil => intro w valid _ p hp; simp [setupLog, setUp] at hp
  | cons item rest ih =>
    intro w valid hnd p hp
    have hni : item ∉ rest := (List.nodup_cons.mp hnd).1
    have hnd1 : rest.Nodup := (List.nodup_cons.mp hnd).2
    rw [runSetups_cons_world]
    simp only [setupLog, setUp_cons] at hp
    by_cases hok : (setup env w item).2.isNone = true
    · simp only [hok, if_true, List.mem_cons] at hp
      rcases hp with hp | hp
      · subst hp
        have h1 := runSetups_heap_other env rest (setup env w p).1 valid p hni
        simp only [Active, h1]
        exact setup_active env w p (Option.isNone_iff_eq_none.mp hok)
      · exact ih _ valid hnd1 p hp
    · simp only [hok, if_false] at hp
      exact ih _ valid hnd1 p hp

/-- The loop of `collectFileTails` past the two reserved indexes, over active
files: it returns the `Lines` channel of each file, in order, and changes
nothing but counters. -/
theorem collectLoop_data (addId tickerId : Chan) (tails : List FilePtr) :
    ∀ (w : World) (idx : Nat), 2 ≤ idx → (∀ p ∈ tails, Active w p = true) →
      ∃ w1 chans, collectLoop addId tickerId w idx tails = (w1, Outcome.returned chans) ∧
        chans.map some = tails.map (fun p => (w.heap p).tail.map Tail.Lines) ∧
        w1.heap = w.heap ∧ w1.addWatcher = w.addWatcher ∧
        w1.stopWatcher = w.stopWatcher := by
  induction tails with
  | nil => intro w idx _ _; exact ⟨w, [], rfl, rfl, rfl, rfl, rfl⟩
  | cons item rest ih =>
    intro w idx hidx hact
    have h0 : ¬ idx = 0 := by omega
    have h1 : ¬ idx = 1 := by omega
    obtain ⟨t, ht⟩ : ∃ t, (w.heap item).tail = some t :=
      Option.isSome_iff_exists.mp (hact item (List.mem_cons_self _ _))
    obtain ⟨v, hv, hvh, hva, hvs⟩ : ∃ v : World,
        v = (if (w.metrics ((w.heap item).Path ++ " Matched")).isNone then
              w.count ((w.heap item).Path ++ " Matched") 0
            else w) ∧ v.heap = w.heap ∧ v.addWatcher = w.addWatcher ∧
          v.stopWatcher = w.stopWatcher := by
      refine ⟨_, rfl, ?_, ?_, ?_⟩ <;> split <;> rfl
    have hact1 : ∀ p ∈ rest, Active v p = true := by
      intro p hp
      simp only [Active, hvh]
      exact hact p (List.mem_cons_of_mem _ hp)
    obtain ⟨w1, chans, e1, e2, e3, e4, e5⟩ := ih v (idx + 1) (by omega) hact1
    refine ⟨w1, t.Lines :: chans, ?_, ?_, e3.trans hvh, e4.trans hva, e5.trans hvs⟩
    · rw [collectLoop]
      simp only [h0, h1, if_false, ht, ← hv, e1]
    · simp only [List.map_cons, ht, Option.map_some', e2, hvh]

/-- What `setup` returns depends on the file and the number of tails opened
before, and on nothing else in the world. -/
theorem setup_result_congr (env : Env) (w v : World) (p : FilePtr)
    (hh : w.heap p = v.heap p) (ho : w.opens = v.opens) :
    (setup env w p).2 = (setup env v p).2 := by
  simp only [setup, hh, ho]
  repeat' split
  all_goals rfl

/-- Over distinct files, each call of `setup` that the loop of `run` makes
returns what `setup` returns on the file as it was configured, at some number
of tails opened before: the calls for the other files do not bear on it. -/
theorem setupLog_independent (env : Env) (w0 : World) (files : List FilePtr) :
    ∀ (w : World), files.Nodup → (∀ p ∈ files, w.heap p = w0.heap p) →
      ∀ p ∈ files, ∃ k, (p, (setup env { w0 with opens := k } p).2) ∈ setupLog env w files := by
  induction files with
  | nil => intro w _ _ p hp; simp at hp
  | cons item rest ih =>
    intro w hnd hag p hp
    have hni : item ∉ rest := (List.nodup_cons.mp hnd).1
    have hnd1 : rest.Nodup := (List.nodup_cons.mp hnd).2
    rcases List.mem_cons.mp hp with hp | hp
    · subst hp
      refine ⟨w.opens, ?_⟩
      have := setup_result_congr env w { w0 with opens := w.opens } p
        (hag p (List.mem_cons_self _ _)) rfl
      simp only [setupLog, this, List.mem_cons, true_or]
    · have hag1 : ∀ q ∈ rest, (setup env w item).1.heap q = w0.heap q := by
        intro q hq
        have hqi : q ≠ item := fun h => hni (h ▸ hq)
        rw [setup_heap_other env w item q hqi]
        exact hag q (List.mem_cons_of_mem _ hq)
      obtain ⟨k, hk⟩ := ih (setup env w item).1 hnd1 hag1 p hp
      exact ⟨k, by simp only [setupLog]; exact List.mem_cons_of_mem _ hk⟩

/-- `collectFileTails` on the two reserved files followed by active files: the
two channels are made, and the cases are the add channel, the ticker and the
`Lines` channel of each file, in order. -/
theorem collectFileTails_ok (w : World) (addId stopId tickerId : Chan) (a0 a1 : FilePtr)
    (valid : List FilePtr) (hact : ∀ p ∈ valid, Active w p = true) :
    ∃ w1 chans, collectFileTails w addId stopId tickerId (a0 :: a1 :: valid) =
        (w1, Outcome.returned (addId :: tickerId :: chans)) ∧
      chans.map some = valid.map (fun p => (w.heap p).tail.map Tail.Lines) ∧
      w1.heap = w.heap ∧ w1.addWatcher = some ⟨addId, [], false⟩ ∧
      w1.stopWatcher = some ⟨stopId, false⟩ := by
  obtain ⟨w1, chans, e1, e2, e3, e4, e5⟩ := collectLoop_data addId tickerId valid
    { w with addWatcher := some ⟨addId, [], false⟩, stopWatcher := some ⟨stopId, false⟩ }
    2 (le_refl 2) hact
  refine ⟨w1, chans, ?_, e2, e3, e4, e5⟩
  unfold collectFileTails
  rw [collectLoop]
  simp only [if_true]
  rw [collectLoop]
  simp only [Nat.zero_add, one_ne_zero, if_false, if_true, e1]

/-- C23: with the configured files distinct and the two reserved files at
addresses of their own, `cmd.run` starts the loop, running, with the `died`
flag false and with the active set made of the two reserved files followed by
the configured files whose `setup` returned nil, in the order of the
configuration; the cases are the add channel, the ticker and the `Lines`
channel of each of these files, all of which are active; both channels of the
loop are made anew. Every configured file has its call of `setup`, and what
the call returns is what `setup` returns on that file as configured, at some
number of tails opened before: a failure for one file does not keep another
from being watched. When every `setup` fails the loop is started all the same,
on the two reserved entries. -/
theorem run_active_set (env : Env) (w : World) (a0 a1 : FilePtr)
    (addId stopId tickerId : Chan)
    (hnd : w.files.Nodup) (h0 : a0 ∉ w.files) (h1 : a1 ∉ w.files) :
    ∃ w1 cases,
      cmd.run env w a0 a1 addId stopId tickerId =
        (w1, Outcome.returned (some
          ⟨w1, ⟨cases, a0 :: a1 :: setUp (setupLog env (makeReserved w a0 a1) w.files), false⟩,
            Status.running⟩)) ∧
      (setupLog env (makeReserved w a0 a1) w.files).map Prod.fst = w.files ∧
      cases.map some = some addId :: some tickerId ::
        (setUp (setupLog env (makeReserved w a0 a1) w.files)).map
          (fun p => (w1.heap p).tail.map Tail.Lines) ∧
      (∀ p ∈ setUp (setupLog env (makeReserved w a0 a1) w.files), Active w1 p = true) ∧
      w1.addWatcher = some ⟨addId, [], false⟩ ∧
      w1.stopWatcher = some ⟨stopId, false⟩ ∧
      (∀ p ∈ w.files, ∃ k, (p, (setup env { w with opens := k } p).2) ∈
        setupLog env (makeReserved w a0 a1) w.files) ∧
      ((∀ e ∈ setupLog env (makeReserved w a0 a1) w.files, e.2 ≠ none) →
        setUp (setupLog env (makeReserved w a0 a1) w.files) = []) := by
  have hfiles : (makeReserved w a0 a1).files = w.files := rfl
  have hval := runSetups_valid env w.files (makeReserved w a0 a1) [a0, a1]
  have hact := runSetups_active env w.files (makeReserved w a0 a1) [a0, a1] hnd
  obtain ⟨w1, chans, e1, e2, e3, e4, e5⟩ := collectFileTails_ok
    (runSetups env (makeReserved w a0 a1) w.files [a0, a1]).1 addId stopId tickerId a0 a1
    (setUp (setupLog env (makeReserved w a0 a1) w.files)) hact
  refine ⟨w1, addId :: tickerId :: chans, ?_, setupLog_fst env w.files _, ?_, ?_, e4, e5,
    ?_, ?_⟩
  · unfold cmd.run
    simp only [hfiles, hval, List.cons_append, List.nil_append, e1, List.length_cons]
    simp
  · simp only [List.map_cons, e2, e3]
  · intro p hp
    simp only [Active, e3]
    exact hact p hp
  · refine setupLog_independent env w w.files (makeReserved w a0 a1) hnd ?_
    intro p hp
    have hp0 : p ≠ a0 := fun h => h0 (h ▸ hp)
    have hp1 : p ≠ a1 := fun h => h1 (h ▸ hp)
    simp [makeReserved, World.setFile, hp0, hp1]
  · intro hall
    simp only [setUp, List.map_eq_nil_iff, List.filter_eq_nil_iff]
    intro e he
    have := hall e he
    cases he2 : e.2 with
    | none => exact absurd he2 this
    | some err => simp

/-- C23 on the examples: of the three configured files `app.log`, `empty.log`
and `raw.log`, the second has no match expression and fails `setup`; the loop
is started on the add channel, the ticker, `app.log` and `raw.log`. -/
theorem run_active_set_witness :
    ∃ w1 cases,
      cmd.run sampleEnv freshWorld 0 1 20 21 22 =
        (w1, Outcome.returned (some ⟨w1, ⟨cases, [0, 1, 2, 6], false⟩, Status.running⟩)) ∧
      cases.map some = [some 20, some 22, some 100, some 101] := by
  obtain ⟨w1, cases, e1, -, e3, -⟩ := run_active_set sampleEnv freshWorld 0 1 20 21 22
    (by decide) (by decide) (by decide)
  have hs : setUp (setupLog sampleEnv (makeReserved freshWorld 0 1) freshWorld.files) =
      [2, 6] := by rfl
  rw [hs] at e1 e3
  refine ⟨w1, cases, e1, ?_⟩
  rw [e3]
  have hw : (cmd.run sampleEnv freshWorld 0 1 20 21 22).1 = w1 := by rw [e1]
  rw [← hw]
  rfl

end filewatch
end Notifiarr

namespace Notifiarr
namespace mnd

/-- The leap year test of `isLeapYear` is that of Go package `time`. -/
theorem isLeapYear_eq (y : Int) : isLeapYear y = timeIsLeap y := by
  have h : (y.tmod 400 == 0) = true → (y.tmod 4 == 0) = true := by
    intro h
    have h1 : (400 : Int) ∣ y := Int.dvd_iff_tmod_eq_zero.mpr (beq_iff_eq.mp h)
    exact beq_iff_eq.mpr (Int.dvd_iff_tmod_eq_zero.mp (Dvd.dvd.trans (by norm_num) h1))
  unfold isLeapYear timeIsLeap
  generalize (y.tmod 400 == 0) = a at h ⊢
  generalize (y.tmod 4 == 0) = b at h ⊢
  generalize (y.tmod 100 != 0) = c
  cases a <;> cases b <;> cases c <;> simp at h ⊢

/-- The leap year test of `isLeapYear` is the Gregorian rule. -/
theorem isLeapYear_gregorian (y : Int) :
    isLeapYear y = true ↔ ((4 : Int) ∣ y ∧ (¬ (100 : Int) ∣ y ∨ (400 : Int) ∣ y)) := by
  rw [isLeapYear_eq]
  simp only [timeIsLeap, Bool.and_eq_true, Bool.or_eq_true, beq_iff_eq, bne_iff_ne, ne_eq,
    Int.dvd_iff_tmod_eq_zero]

/-- The bounds of a date of the calendar. -/
theorem valid_bounds (d : Date) (hv : d.valid = true) :
    1 ≤ d.Month ∧ d.Month ≤ 12 ∧ 1 ≤ d.Day ∧ d.Day ≤ daysIn d.Year d.Month := by
  simp only [Date.valid, Bool.and_eq_true, decide_eq_true_eq] at hv
  exact ⟨hv.1.1.1, hv.1.1.2, hv.1.2, hv.2⟩

/-- The months of the calendar. -/
theorem month_cases (m : Nat) (h1 : 1 ≤ m) (h2 : m ≤ 12) :
    m = 1 ∨ m = 2 ∨ m = 3 ∨ m = 4 ∨ m = 5 ∨ m = 6 ∨ m = 7 ∨ m = 8 ∨ m = 9 ∨ m = 10 ∨
      m = 11 ∨ m = 12 := by
  omega

/-- The table `daysBefore`, as far as `today` needs it. -/
theorem daysBefore_bounds (m : Nat) (h1 : 1 ≤ m) (h2 : m ≤ 12) :
    (m = 1 → daysBefore m = 0) ∧ (m = 2 → daysBefore m = 31) ∧
      (3 ≤ m → 59 ≤ daysBefore m) := by
  rcases month_cases m h1 h2 with h | h | h | h | h | h | h | h | h | h | h | h <;>
  · subst h
    refine ⟨?_, ?_, ?_⟩ <;> intro h <;> first | rfl | omega | (simp only [daysBefore]; omega)

/-- What `today` gives in a month, from what the table `daysBefore` has for
the month. -/
theorem today_month (y : Int) (m dd : Nat) (b : Nat) (hb : daysBefore m = b)
    (hjan : m = 1 → b = 0) (hfeb : m = 2 → b = 31) (hmar : 3 ≤ m → 59 ≤ b)
    (hm1 : 1 ≤ m) (h3 : 1 ≤ dd) (h4 : dd ≤ daysIn y m) :
    today ⟨y, m, dd⟩ = if m = 2 ∧ dd = 29 then 366 else ((b + dd : Nat) : Int) := by
  simp only [today, YearDay, leapDay, altLeapDay, isLeapYear_eq, hb]
  simp only [daysIn] at h4
  cases hl : timeIsLeap y
  · simp only [Bool.not_false, Bool.true_or, if_true, Bool.false_and, Bool.false_eq_true,
      if_false, Nat.add_zero]
    simp only [hl, Bool.false_eq_true, if_false] at h4
    split_ifs at h4 ⊢ <;> omega
  · simp only [hl, if_true] at h4
    simp only [Bool.not_true, Bool.false_or, Bool.true_and, decide_eq_true_eq, beq_iff_eq]
    split_ifs at h4 ⊢ <;> omega

/-- What `today` gives for a date of the calendar: 366 on February 29, and on
every other date the days of a non-leap year before the month plus the day. -/
theorem today_eq (d : Date) (hv : d.valid = true) :
    today d = if d.Month = 2 ∧ d.Day = 29 then 366
      else ((daysBefore d.Month + d.Day : Nat) : Int) := by
  obtain ⟨h1, h2, h3, h4⟩ := valid_bounds d hv
  obtain ⟨b1, b2, b3⟩ := daysBefore_bounds d.Month h1 h2
  exact today_month d.Year d.Month d.Day (daysBefore d.Month) rfl b1 b2 b3 h1 h3 h4

/-- The table `daysBefore`, month by month. -/
theorem daysBefore_table (m : Nat) (h1 : 1 ≤ m) (h2 : m ≤ 12) :
    (m = 1 ∧ daysBefore m = 0) ∨ (m = 2 ∧ daysBefore m = 31) ∨
    (m = 3 ∧ daysBefore m = 59) ∨ (m = 4 ∧ daysBefore m = 90) ∨
    (m = 5 ∧ daysBefore m = 120) ∨ (m = 6 ∧ daysBefore m = 151) ∨
    (m = 7 ∧ daysBefore m = 181) ∨ (m = 8 ∧ daysBefore m = 212) ∨
    (m = 9 ∧ daysBefore m = 243) ∨ (m = 10 ∧ daysBefore m = 273) ∨
    (m = 11 ∧ daysBefore m = 304) ∨ (m = 12 ∧ daysBefore m = 334) := by
  rcases month_cases m h1 h2 with rfl | rfl | rfl | rfl | rfl | rfl | rfl | rfl | rfl | rfl |
    rfl | rfl <;> decide

/-- The number `today` gives picks the date out, for each date the map of
`TodaysEmoji` names. -/
theorem today_named (d : Date) (hv : d.valid = true) :
    ∀ e ∈ namedDates, (today d = e.1 ↔ (d.Month = e.2.1 ∧ d.Day = e.2.2)) := by
  obtain ⟨h1, h2, h3, h4⟩ := valid_bounds d hv
  have hday : d.Day ≤ 31 ∧ (d.Month = 2 → d.Day ≤ 29) ∧
      (d.Month = 4 ∨ d.Month = 6 ∨ d.Month = 9 ∨ d.Month = 11 → d.Day ≤ 30) := by
    simp only [daysIn] at h4
    refine ⟨?_, ?_, ?_⟩
    · split_ifs at h4 <;> omega
    · intro h; simp only [h, if_true] at h4; split_ifs at h4 <;> omega
    · intro h
      have h2 : ¬ d.Month = 2 := by omega
      simp only [h2, if_false, h, if_true] at h4
      exact h4
  obtain ⟨g1, g2, g3⟩ := hday
  rw [today_eq d hv]
  intro e he
  simp only [namedDates, List.mem_cons, List.mem_singleton, List.not_mem_nil, or_false] at he
  clear h4 hv
  generalize hbm : daysBefore d.Month = b
  have ht := daysBefore_table d.Month h1 h2
  rw [hbm] at ht
  generalize d.Month = m at *
  generalize d.Day = dd at *
  rcases ht with ⟨h, hb⟩ | ⟨h, hb⟩ | ⟨h, hb⟩ | ⟨h, hb⟩ | ⟨h, hb⟩ | ⟨h, hb⟩ | ⟨h, hb⟩ |
    ⟨h, hb⟩ | ⟨h, hb⟩ | ⟨h, hb⟩ | ⟨h, hb⟩ | ⟨h, hb⟩ <;>
  · rcases he with rfl | rfl | rfl | rfl | rfl | rfl | rfl | rfl | rfl | rfl <;>
    · simp only []
      split_ifs <;> omega

/-- C28: `isLeapYear` is the Gregorian rule. For every date of the calendar,
in a leap year or not: on February 29 `today` gives 366 (`altLeapDay`); on
every other date it gives the number `YearDay` has for the same month and day
in a year that is not a leap year. So each key of the map of `TodaysEmoji` is
the number of exactly the date its comment names (1 for January 1, 45 for
February 14, 185 for July 4, 229 for August 17, 254 for September 11, 304 for
October 31, 315 for November 11, 328 for November 24, 359 for December 25, 366
for February 29), and on that date `TodaysEmoji` gives the emoji of the key. -/
theorem today_spec (d : Date) (hv : d.valid = true) :
    (isLeapYear d.Year = true ↔
      ((4 : Int) ∣ d.Year ∧ (¬ (100 : Int) ∣ d.Year ∨ (400 : Int) ∣ d.Year))) ∧
    (d.Month = 2 ∧ d.Day = 29 → today d = altLeapDay) ∧
    (¬ (d.Month = 2 ∧ d.Day = 29) →
      ∀ y, isLeapYear y = false → today d = YearDay ⟨y, d.Month, d.Day⟩) ∧
    (∀ e ∈ namedDates, (today d = e.1 ↔ (d.Month = e.2.1 ∧ d.Day = e.2.2))) ∧
    (∀ key emoji, (key, emoji) ∈ emojiTable → today d = key → TodaysEmoji d = emoji) ∧
    namedDates.map Prod.fst = emojiTable.map Prod.fst := by
  refine ⟨isLeapYear_gregorian d.Year, ?_, ?_, today_named d hv, ?_, by decide⟩
  · intro h
    rw [today_eq d hv, if_pos h]
    rfl
  · intro h y hy
    rw [today_eq d hv, if_neg h]
    rw [isLeapYear_eq] at hy
    simp [YearDay, hy]
  · intro key emoji hmem hkey
    unfold TodaysEmoji
    rw [hkey]
    simp only [emojiTable, altLeapDay, List.mem_cons, Prod.mk.injEq, List.mem_singleton,
      List.not_mem_nil, or_false] at hmem
    rcases hmem with ⟨rfl, rfl⟩ | ⟨rfl, rfl⟩ | ⟨rfl, rfl⟩ | ⟨rfl, rfl⟩ | ⟨rfl, rfl⟩ |
      ⟨rfl, rfl⟩ | ⟨rfl, rfl⟩ | ⟨rfl, rfl⟩ | ⟨rfl, rfl⟩ | ⟨rfl, rfl⟩ <;> rfl

/-- C28 on two dates: March 1 has the number 60 in the leap year 2024 as in
the year 2023, and February 29 of 2024 has the number 366. -/
theorem today_spec_witness :
    (today ⟨2024, 3, 1⟩ = YearDay ⟨2023, 3, 1⟩ ∧ today ⟨2024, 3, 1⟩ = 60) ∧
    today ⟨2024, 2, 29⟩ = altLeapDay :=
  ⟨⟨(today_spec ⟨2024, 3, 1⟩ (by decide)).2.2.1 (by decide) 2023 (by decide), by decide⟩,
    (today_spec ⟨2024, 2, 29⟩ (by decide)).2.1 ⟨rfl, rfl⟩⟩

end mnd
end Notifiarr

namespace Notifiarr
namespace website

/-- One turn of the loop of `httpClient.Do`. -/
theorem doLoop_succ (Retries : Int) (outcomes : Nat → Attempt) (fuel retry : Nat) :
    doLoop Retries outcomes (fuel + 1) retry =
      if (outcomes retry).good then
        some ⟨(match outcomes retry with
          | Attempt.response resp => some resp
          | Attempt.error _ => none), none, retry + 1, retry⟩
      else if (outcomes retry).contextError then
        some ⟨none, (match outcomes retry with
          | Attempt.response _ => none
          | Attempt.error err => some (DoErr.timedOut err)), retry + 1, retry⟩
      else if (retry : Int) = Retries then
        some ⟨(match outcomes retry with
          | Attempt.response resp => some resp
          | Attempt.error _ => none), (match outcomes retry with
          | Attempt.response _ => some DoErr.failedNon200
          | Attempt.error err => some (DoErr.failed err)), retry + 1, retry⟩
      else doLoop Retries outcomes fuel (retry + 1) := by
  rw [doLoop]
  cases ho : outcomes retry with
  | response resp =>
    cases ha : resp.accepted <;> simp [Attempt.good, Attempt.contextError, ha]
  | error err =>
    cases hc : err.isContext <;> simp [Attempt.good, Attempt.contextError, hc]

/-- More fuel does not change what the loop returns. -/
theorem doLoop_mono (Retries : Int) (outcomes : Nat → Attempt) (fuel : Nat) :
    ∀ (retry : Nat) (r : DoResult), doLoop Retries outcomes fuel retry = some r →
      doLoop Retries outcomes (fuel + 1) retry = some r := by
  induction fuel with
  | zero => intro retry r h; simp [doLoop] at h
  | succ k ih =>
    intro retry r h
    rw [doLoop_succ] at h ⊢
    split_ifs at h ⊢ <;> first | exact h | exact ih _ _ h

/-- More fuel does not change what the loop returns. -/
theorem doLoop_mono_le (Retries : Int) (outcomes : Nat → Attempt) (fuel fuel1 retry : Nat)
    (r : DoResult) (hle : fuel ≤ fuel1) (h : doLoop Retries outcomes fuel retry = some r) :
    doLoop Retries outcomes fuel1 retry = some r := by
  induction hle with
  | refl => exact h
  | step _ ih => exact doLoop_mono Retries outcomes _ retry r ih

/-- The loop of `httpClient.Do` from a value of `retry` up to `Retries`, with
fuel for the turns that are left: it returns, at the first attempt that is
good or a context error, or else at the attempt with `retry = Retries`. -/
theorem doLoop_spec (Retries : Int) (outcomes : Nat → Attempt) (fuel : Nat) :
    ∀ retry : Nat, (retry : Int) ≤ Retries → Retries + 1 ≤ (fuel : Int) + retry →
      ∃ r, doLoop Retries outcomes fuel retry = some r ∧
        retry + 1 ≤ r.attempts ∧ (r.attempts : Int) ≤ Retries + 1 ∧
        r.sleeps + 1 = r.attempts ∧
        (∀ j, retry ≤ j → j + 1 < r.attempts →
          (outcomes j).good = false ∧ (outcomes j).contextError = false) ∧
        (r.err = none ↔ (outcomes (r.attempts - 1)).good = true) ∧
        ((outcomes (r.attempts - 1)).contextError = true →
          ∃ e, r.err = some (DoErr.timedOut e)) ∧
        ((r.attempts : Int) ≤ Retries →
          (outcomes (r.attempts - 1)).good = true ∨
            (outcomes (r.attempts - 1)).contextError = true) := by
  induction fuel with
  | zero => intro retry h1 h2; omega
  | succ k ih =>
    intro retry h1 h2
    rw [doLoop_succ]
    rcases Bool.eq_false_or_eq_true (outcomes retry).good with hg | hg
    · simp only [hg, if_true]
      refine ⟨_, rfl, le_refl _, by push_cast; omega, rfl, ?_, ?_, ?_, ?_⟩
      · intro j h3 h4; simp only at h4; omega
      · simp [hg]
      · intro hc
        simp only [Nat.add_sub_cancel] at hc
        cases ho : outcomes retry with
        | response resp => simp [Attempt.contextError, ho] at hc
        | error err => simp [Attempt.good, ho] at hg
      · intro _; simp [hg]
    · rcases Bool.eq_false_or_eq_true (outcomes retry).contextError with hc | hc
      · simp only [hg, hc, if_true, Bool.false_eq_true, if_false]
        refine ⟨_, rfl, le_refl _, by push_cast; omega, rfl, ?_, ?_, ?_, ?_⟩
        · intro j h3 h4; simp only at h4; omega
        · simp only [Nat.add_sub_cancel]
          cases ho : outcomes retry with
          | response resp => simp [Attempt.contextError, ho] at hc
          | error err => simp [Attempt.good]
        · intro _
          cases ho : outcomes retry with
          | response resp => simp [Attempt.contextError, ho] at hc
          | error err => exact ⟨err, rfl⟩
        · intro _; simp [hc]
      · by_cases hr : (retry : Int) = Retries
        · simp only [hg, hc, hr, if_true, Bool.false_eq_true, if_false]
          refine ⟨_, rfl, le_refl _, by push_cast; omega, rfl, ?_, ?_, ?_, ?_⟩
          · intro j h3 h4; simp only at h4; omega
          · simp only [Nat.add_sub_cancel, hg]
            cases ho : outcomes retry with
            | response resp => simp
            | error err => simp
          · intro h
            simp only [Nat.add_sub_cancel, hc] at h
            exact absurd h (by decide)
          · intro h; simp only at h; push_cast at h; omega
        · simp only [hg, hc, hr, Bool.false_eq_true, if_false]
          obtain ⟨r, e1, e2, e3, e4, e5, e6, e7, e8⟩ := ih (retry + 1)
            (by push_cast; omega) (by push_cast; push_cast at h2; omega)
          refine ⟨r, e1, by omega, e3, e4, ?_, e6, e7, e8⟩
          intro j h3 h4
          by_cases hj : j = retry
          · subst hj
            exact ⟨hg, hc⟩
          · exact e5 j (by omega) h4

/-- C29: for `Retries` at 0 or above and any attempts, `httpClient.Do`
returns, after `Retries + 1` calls of `h.Client.Do` at most, having slept once
before each call but the first; every attempt before the one it returns at is
neither good nor a context error. The error it returns is nil exactly when the
attempt it returns at is good, that is, its response has a status below 500
and is not a 400 with content type `text/html`. It returns at the first
attempt that is good, with a nil error, or that fails with context deadline
exceeded or cancelled, with the timed-out error and without a further attempt,
when that attempt is among the first `Retries + 1`; and when none of the
`Retries + 1` attempts is good the error is not nil. -/
theorem do_returns (Retries : Int) (hR : 0 ≤ Retries) (outcomes : Nat → Attempt) :
    ∃ r, (∀ fuel, Retries.toNat + 1 ≤ fuel → httpClient.Do Retries outcomes fuel = some r) ∧
      1 ≤ r.attempts ∧ (r.attempts : Int) ≤ Retries + 1 ∧
      r.sleeps + 1 = r.attempts ∧
      (∀ j, j + 1 < r.attempts →
        (outcomes j).good = false ∧ (outcomes j).contextError = false) ∧
      (r.err = none ↔ (outcomes (r.attempts - 1)).good = true) ∧
      (∀ k : Nat, (k : Int) ≤ Retries →
        (∀ j, j < k → (outcomes j).good = false ∧ (outcomes j).contextError = false) →
        ((outcomes k).good = true → r.attempts = k + 1 ∧ r.err = none) ∧
        ((outcomes k).contextError = true →
          r.attempts = k + 1 ∧ ∃ e, r.err = some (DoErr.timedOut e))) ∧
      ((∀ k : Nat, (k : Int) ≤ Retries → (outcomes k).good = false) → r.err ≠ none) := by
  obtain ⟨r, e1, e2, e3, e4, e5, e6, e7, e8⟩ := doLoop_spec Retries outcomes
    (Retries.toNat + 1) 0 (by simpa using hR) (by push_cast; omega)
  have hfirst : ∀ k : Nat, (k : Int) ≤ Retries →
      (∀ j, j < k → (outcomes j).good = false ∧ (outcomes j).contextError = false) →
      ((outcomes k).good = true ∨ (outcomes k).contextError = true) →
      r.attempts = k + 1 := by
    intro k hk hbefore hdec
    rcases Nat.lt_trichotomy (r.attempts - 1) k with h | h | h
    · have hle : (r.attempts : Int) ≤ Retries := by omega
      have hb := hbefore _ h
      rcases e8 hle with h8 | h8
      · rw [hb.1] at h8; exact absurd h8 (by decide)
      · rw [hb.2] at h8; exact absurd h8 (by decide)
    · omega
    · have hb := e5 k (Nat.zero_le _) (by omega)
      rcases hdec with h8 | h8
      · rw [hb.1] at h8; exact absurd h8 (by decide)
      · rw [hb.2] at h8; exact absurd h8 (by decide)
  refine ⟨r, ?_, by omega, e3, e4, fun j hj => e5 j (Nat.zero_le _) hj, e6, ?_, ?_⟩
  · intro fuel hf
    exact doLoop_mono_le Retries outcomes _ fuel 0 r hf e1
  · intro k hk hbefore
    constructor
    · intro hg
      have ha := hfirst k hk hbefore (Or.inl hg)
      refine ⟨ha, e6.mpr ?_⟩
      rw [ha, Nat.add_sub_cancel]
      exact hg
    · intro hc
      have ha := hfirst k hk hbefore (Or.inr hc)
      refine ⟨ha, e7 ?_⟩
      rw [ha, Nat.add_sub_cancel]
      exact hc
  · intro hall hnone
    have hg := e6.mp hnone
    have hk : ((r.attempts - 1 : Nat) : Int) ≤ Retries := by omega
    rw [hall _ hk] at hg
    exact absurd hg (by decide)

/-- C29 on the attempts of the examples, with `Retries` at 3: a 502, an error,
then a 200: `Do` returns at the third attempt with a nil error. -/
theorem do_returns_witness :
    httpClient.Do 3 sampleOutcomes 4 =
      some ⟨some ⟨200, "application/json"⟩, none, 3, 2⟩ ∧
    ∃ r, (∀ fuel, (3 : Int).toNat + 1 ≤ fuel → httpClient.Do 3 sampleOutcomes fuel = some r) ∧
      1 ≤ r.attempts ∧ (r.attempts : Int) ≤ 3 + 1 := by
  refine ⟨by decide, ?_⟩
  obtain ⟨r, h1, h2, h3, -⟩ := do_returns 3 (by decide) sampleOutcomes
  exact ⟨r, h1, h2, h3⟩

end website
end Notifiarr

namespace Notifiarr
namespace client

/-- In a list without repetitions, `reflect.Select` finds a channel at the
index it stands at. -/
theorem indexOf_of_getElem? (l : List Chan) (hnd : l.Nodup) (i : Nat) (a : Chan)
    (h : l[i]? = some a) : l.indexOf a = i ∧ i < l.length := by
  obtain ⟨hi, ha⟩ := List.getElem?_eq_some_iff.mp h
  subst ha
  exact ⟨List.indexOf_getElem hnd i hi, hi⟩

/-- A click on the channel at index `i` of the cases runs `timers[i]`. -/
theorem menuStep_click (timers : List Timer) (cases : List Chan) (ran : List Timer)
    (hnd : cases.Nodup) (i : Nat) (b : Chan) (t : Timer)
    (hb : cases[i]? = some b) (ht : timers[i]? = some t) :
    menuStep timers cases ran (MenuEvent.click b) =
      ⟨cases, ran ++ [t], MenuStatus.running⟩ := by
  obtain ⟨h1, h2⟩ := indexOf_of_getElem? cases hnd i b hb
  simp [menuStep, MenuEvent.chan, h1, h2, ht]

/-- A closed channel at index `i` of the cases is removed from the cases; the
loop returns when it was the last. -/
theorem menuStep_closed (timers : List Timer) (cases : List Chan) (ran : List Timer)
    (hnd : cases.Nodup) (i : Nat) (a : Chan) (ha : cases[i]? = some a) :
    menuStep timers cases ran (MenuEvent.closed a) =
      ⟨cases.eraseIdx i, ran,
        if cases.length ≤ 1 then MenuStatus.returned else MenuStatus.running⟩ := by
  obtain ⟨h1, h2⟩ := indexOf_of_getElem? cases hnd i a ha
  have hl : (cases.eraseIdx i).length = cases.length - 1 := by
    rw [List.length_eraseIdx, if_pos h2]
  simp only [menuStep, MenuEvent.chan, h1, h2, if_true, hl]
  by_cases hc : cases.length ≤ 1
  · have : cases.length - 1 < 1 := by omega
    simp [hc, this]
  · have : ¬ cases.length - 1 < 1 := by omega
    simp [hc, this]

/-- What one turn of the loop does to the cases: a closed channel among the
cases is erased from them and the loop returns when none is left; in every
other turn the cases stay and the loop does not return. -/
theorem menuStep_cases (timers : List Timer) (cases : List Chan) (ran : List Timer)
    (ev : MenuEvent) (hne : cases ≠ []) :
    ((∃ ch, ev = MenuEvent.closed ch ∧ ch ∈ cases ∧
        (menuStep timers cases ran ev).cases = cases.erase ch ∧
        ((menuStep timers cases ran ev).status = MenuStatus.returned ∨
          (menuStep timers cases ran ev).status = MenuStatus.running)) ∨
      ((menuStep timers cases ran ev).cases = cases ∧
        (menuStep timers cases ran ev).status ≠ MenuStatus.returned ∧
        ((menuStep timers cases ran ev).status = MenuStatus.running →
          ∃ ch, ev = MenuEvent.click ch))) ∧
    ((menuStep timers cases ran ev).status = MenuStatus.returned ↔
      (menuStep timers cases ran ev).cases = []) := by
  unfold menuStep
  by_cases hi : cases.indexOf ev.chan < cases.length
  · have hmem : ev.chan ∈ cases := List.indexOf_lt_length.mp hi
    cases ev with
    | click ch =>
      simp only [hi, if_true]
      cases timers[cases.indexOf (MenuEvent.click ch).chan]? with
      | none => simp [hne]
      | some t => simp [hne]
    | closed ch =>
      simp only [MenuEvent.chan] at hi hmem ⊢
      simp only [hi, if_true]
      have he : cases.eraseIdx (cases.indexOf ch) = cases.erase ch :=
        List.eraseIdx_indexOf_eq_erase ch cases
      rw [he]
      by_cases hl : (cases.erase ch).length < 1
      · have hnil : cases.erase ch = [] := List.length_eq_zero.mp (by omega)
        simp only [hl, if_true]
        exact ⟨Or.inl ⟨ch, rfl, hmem, rfl, Or.inl trivial⟩, by simp [hnil]⟩
      · have hnn : cases.erase ch ≠ [] := by
          intro h; rw [h] at hl; simp at hl
        simp only [hl, if_false]
        exact ⟨Or.inl ⟨ch, rfl, hmem, rfl, Or.inr trivial⟩, by simp [hnn]⟩
  · simp [hi, hne]

/-- A loop that is not running takes no event. -/
theorem menuLoop_of_not_running (timers : List Timer) (c : MenuCfg) (events : List MenuEvent)
    (h : c.status ≠ MenuStatus.running) : menuLoop timers c events = c := by
  cases events with
  | nil => rfl
  | cons ev rest => simp [menuLoop, h]

/-- Over any events, from cases without repetitions: the loop has returned
exactly when no case is left; the cases left are among those it started with,
each channel that is gone has been found closed, and while the loop is running
no channel that is left has been found closed. -/
theorem menuLoop_inv (timers : List Timer) (events : List MenuEvent) :
    ∀ c : MenuCfg, c.cases.Nodup → (c.status = MenuStatus.returned ↔ c.cases = []) →
      ((menuLoop timers c events).status = MenuStatus.returned ↔
        (menuLoop timers c events).cases = []) ∧
      (menuLoop timers c events).cases.Nodup ∧
      (∀ ch ∈ (menuLoop timers c events).cases, ch ∈ c.cases) ∧
      (∀ ch ∈ c.cases, ch ∉ (menuLoop timers c events).cases →
        MenuEvent.closed ch ∈ events) ∧
      (c.status = MenuStatus.running →
        (menuLoop timers c events).status = MenuStatus.running →
        ∀ ch ∈ (menuLoop timers c events).cases, MenuEvent.closed ch ∉ events) := by
  induction events with
  | nil =>
    intro c hnd hiff
    exact ⟨hiff, hnd, fun _ h => h, fun ch h1 h2 => absurd h1 h2, fun _ _ _ _ h => by simp at h⟩
  | cons ev rest ih =>
    intro c hnd hiff
    by_cases hr : c.status = MenuStatus.running
    · have hne : c.cases ≠ [] := by
        intro h
        have := hiff.mpr h
        rw [hr] at this
        exact absurd this (by decide)
      have hloop : menuLoop timers c (ev :: rest) =
          menuLoop timers (menuStep timers c.cases c.ran ev) rest := by
        simp [menuLoop, hr]
      rw [hloop]
      obtain ⟨hstep, hiff1⟩ := menuStep_cases timers c.cases c.ran ev hne
      rcases hstep with ⟨ch0, hev, hmem, hcases, hst⟩ | ⟨hcases, hnr, hclick⟩
      · have hnd1 : (menuStep timers c.cases c.ran ev).cases.Nodup := by
          rw [hcases]; exact hnd.erase ch0
        obtain ⟨i1, i2, i3, i4, i5⟩ := ih _ hnd1 hiff1
        refine ⟨i1, i2, ?_, ?_, ?_⟩
        · intro ch h
          have := i3 ch h
          rw [hcases] at this
          exact List.mem_of_mem_erase this
        · intro ch h1 h2
          by_cases hc : ch = ch0
          · subst hc; rw [hev]; exact List.mem_cons_self _ _
          · have h3 : ch ∈ (menuStep timers c.cases c.ran ev).cases := by
              rw [hcases]; exact (List.mem_erase_of_ne hc).mpr h1
            exact List.mem_cons_of_mem _ (i4 ch h3 h2)
        · intro _ hrun ch hch
          have hs1 : (menuStep timers c.cases c.ran ev).status = MenuStatus.running := by
            by_contra hn
            rw [menuLoop_of_not_running timers _ rest hn] at hrun
            exact hn hrun
          have h5 := i5 hs1 hrun ch hch
          intro hin
          rcases List.mem_cons.mp hin with h | h
          · rw [hev] at h
            have hc : ch = ch0 := by injection h
            subst hc
            have := i3 ch hch
            rw [hcases] at this
            exact (List.Nodup.mem_erase_iff hnd).mp this |>.1 rfl
          · exact h5 h
      · have hnd1 : (menuStep timers c.cases c.ran ev).cases.Nodup := by
          rw [hcases]; exact hnd
        obtain ⟨i1, i2, i3, i4, i5⟩ := ih _ hnd1 hiff1
        refine ⟨i1, i2, ?_, ?_, ?_⟩
        · intro ch h
          have := i3 ch h
          rw [hcases] at this
          exact this
        · intro ch h1 h2
          have h3 : ch ∈ (menuStep timers c.cases c.ran ev).cases := by
            rw [hcases]; exact h1
          exact List.mem_cons_of_mem _ (i4 ch h3 h2)
        · intro _ hrun ch hch
          have hs1 : (menuStep timers c.cases c.ran ev).status = MenuStatus.running := by
            by_contra hn
            rw [menuLoop_of_not_running timers _ rest hn] at hrun
            exact hn hrun
          have h5 := i5 hs1 hrun ch hch
          obtain ⟨ch1, hev⟩ := hclick hs1
          intro hin
          rcases List.mem_cons.mp hin with h | h
          · rw [hev] at h; injection h
          · exact h5 h
    · rw [menuLoop_of_not_running timers c _ hr]
      exact ⟨hiff, hnd, fun _ h => h, fun ch h1 h2 => absurd h1 h2,
        fun h => absurd h hr⟩

/-- C27 fails after a channel has been closed. With one channel for each
timer, all distinct: a click on the channel made for timer `j` runs
`timers[j]` as long as no channel has been closed; once the channel of an
earlier timer `i` has been closed and removed from the cases, the same click
runs `timers[j - 1]`, the cases having moved up by one while `timers` stays as
it is. Over any events the loop has returned exactly when no case is left;
each channel that is gone from the cases has been found closed, and while the
loop is running no channel left in the cases has been found closed. -/
theorem click_after_close_runs_previous (timers : List Timer) (chans : List Chan)
    (hlen : chans.length = timers.length) (hnd : chans.Nodup)
    (i j : Nat) (a b : Chan) (hij : i < j)
    (ha : chans[i]? = some a) (hb : chans[j]? = some b) :
    (∃ t, timers[j]? = some t ∧
      buildDynamicTimerMenus timers chans [MenuEvent.click b] =
        ⟨chans, [t], MenuStatus.running⟩) ∧
    (∃ t, timers[j - 1]? = some t ∧
      buildDynamicTimerMenus timers chans [MenuEvent.closed a, MenuEvent.click b] =
        ⟨chans.eraseIdx i, [t], MenuStatus.running⟩) ∧
    (∀ events : List MenuEvent,
      ((buildDynamicTimerMenus timers chans events).status = MenuStatus.returned ↔
        (buildDynamicTimerMenus timers chans events).cases = []) ∧
      (∀ ch ∈ chans, ch ∉ (buildDynamicTimerMenus timers chans events).cases →
        MenuEvent.closed ch ∈ events) ∧
      ((buildDynamicTimerMenus timers chans events).status = MenuStatus.running →
        ∀ ch ∈ (buildDynamicTimerMenus timers chans events).cases,
          MenuEvent.closed ch ∉ events)) := by
  obtain ⟨hj, -⟩ := List.getElem?_eq_some_iff.mp hb
  have hne : ¬ timers.length = 0 := by omega
  have hbuild : ∀ events, buildDynamicTimerMenus timers chans events =
      menuLoop timers ⟨chans, [], MenuStatus.running⟩ events := by
    intro events
    simp [buildDynamicTimerMenus, hne]
  have hcne : chans ≠ [] := by
    intro h; rw [h] at hj; simp at hj
  refine ⟨?_, ?_, ?_⟩
  · have hjt : j < timers.length := by omega
    refine ⟨timers[j], List.getElem?_eq_getElem hjt, ?_⟩
    rw [hbuild]
    simp only [menuLoop, if_true]
    rw [menuStep_click timers chans [] hnd j b timers[j] hb (List.getElem?_eq_getElem hjt)]
    rfl
  · have hjt : j - 1 < timers.length := by omega
    refine ⟨timers[j - 1], List.getElem?_eq_getElem hjt, ?_⟩
    rw [hbuild]
    have hlen2 : ¬ chans.length ≤ 1 := by omega
    have hb1 : (chans.eraseIdx i)[j - 1]? = some b := by
      rw [List.getElem?_eraseIdx_of_ge chans i (j - 1) (by omega)]
      have : j - 1 + 1 = j := by omega
      rw [this]
      exact hb
    simp only [menuLoop, if_true]
    rw [menuStep_closed timers chans [] hnd i a ha]
    simp only [hlen2, if_false, if_true]
    rw [menuStep_click timers (chans.eraseIdx i) [] (hnd.eraseIdx i) (j - 1) b timers[j - 1]
      hb1 (List.getElem?_eq_getElem hjt)]
    rfl
  · intro events
    rw [hbuild]
    obtain ⟨i1, -, -, i4, i5⟩ := menuLoop_inv timers events
      ⟨chans, [], MenuStatus.running⟩ hnd (by simp [hcne])
    exact ⟨i1, i4, i5 rfl⟩

/-- C27 on two timers: the channel 30 is made for `alpha` and 31 for `beta`;
after channel 30 has been closed, a click on channel 31 runs `alpha`. -/
theorem click_after_close_runs_previous_witness :
    (∃ t, [Timer.mk "alpha", Timer.mk "beta"][1 - 1]? = some t ∧
      buildDynamicTimerMenus [⟨"alpha"⟩, ⟨"beta"⟩] [30, 31]
          [MenuEvent.closed 30, MenuEvent.click 31] =
        ⟨[30, 31].eraseIdx 0, [t], MenuStatus.running⟩) ∧
    buildDynamicTimerMenus [⟨"alpha"⟩, ⟨"beta"⟩] [30, 31]
        [MenuEvent.closed 30, MenuEvent.click 31] =
      ⟨[31], [⟨"alpha"⟩], MenuStatus.running⟩ ∧
    buildDynamicTimerMenus [⟨"alpha"⟩, ⟨"beta"⟩] [30, 31] [MenuEvent.click 31] =
      ⟨[30, 31], [⟨"beta"⟩], MenuStatus.running⟩ :=
  ⟨(click_after_close_runs_previous [⟨"alpha"⟩, ⟨"beta"⟩] [30, 31] rfl (by decide) 0 1 30 31
      (by decide) rfl rfl).2.1, by decide, by decide⟩

end client
end Notifiarr

namespace Notifiarr
namespace filewatch

/-- A tick over one configured file that is passed over makes no attempt and
changes nothing. -/
theorem ticker_passed_over (env : Env) (v : World) (p : FilePtr) (hf : v.files = [p])
    (hpo : passedOver v p = true) :
    fileWatcherTickerLog env v true = [] ∧
    fileWatcherTicker env v true = (v, Outcome.returned false) := by
  constructor
  · simp only [fileWatcherTickerLog, Bool.not_true, Bool.false_eq_true, if_false, hf]
    rw [tickerLog_cons]
    simp [hpo, tickerLog]
  · simp only [fileWatcherTicker, Bool.not_true, Bool.false_eq_true, if_false, hf]
    rw [tickerLoop_cons]
    simp [hpo, tickerLoop]

/-- C17 fails on a restart whose tail does not open. At a tick that restarts
one configured file, inactive with retries `r` below `maxRetries`, with the
mutex free and the add channel there, whose two expressions compile and whose
tail fails to open: the tick returns with `stilldead` true, the file inactive
and nothing put on the add channel, and with the retries of the file at
`maxRetries`, which is not `r + 1` as long as `r + 1` is below `maxRetries`.
The tick that follows, with the `died` flag true, passes the file over: it
makes no attempt and changes nothing, so the file has had one retry in all. -/
theorem failed_open_ends_retries (env : Env) (w : World) (p : FilePtr) (ch : AddChan)
    (r s : regexp.Regexp)
    (hf : w.files = [p]) (hin : Active w p = false)
    (hr : (w.heap p).retries < maxRetries)
    (hl : w.awLocked = false) (hch : w.addWatcher = some ch)
    (h1 : (w.heap p).Regexp ≠ "") (h2 : env.compile (w.heap p).Regexp = some r)
    (h3 : env.compile (w.heap p).Skip = some s)
    (h4 : env.tailFile w.opens (validated env (w.heap p)) = none) :
    (fileWatcherTicker env w true).2 = Outcome.returned true ∧
    ((fileWatcherTicker env w true).1.heap p).retries = maxRetries ∧
    ((w.heap p).retries + 1 < maxRetries →
      ((fileWatcherTicker env w true).1.heap p).retries ≠ (w.heap p).retries + 1) ∧
    Active (fileWatcherTicker env w true).1 p = false ∧
    (fileWatcherTicker env w true).1.addWatcher = some ch ∧
    fileWatcherTickerLog env w true = [(p, false)] ∧
    fileWatcherTickerLog env (fileWatcherTicker env w true).1 true = [] ∧
    fileWatcherTicker env (fileWatcherTicker env w true).1 true =
      ((fileWatcherTicker env w true).1, Outcome.returned false) := by
  obtain ⟨b1, b2, b3, b4, b5⟩ := beforeRestart_file env w p
  obtain ⟨t1, -⟩ := ticker_single env w p hf hin hr
  have hR : ((beforeRestart w p).heap p).Regexp = (w.heap p).Regexp := by rw [b1]
  have hS : ((beforeRestart w p).heap p).Skip = (w.heap p).Skip := by rw [b1]
  have hl1 : (beforeRestart w p).awLocked = false := by rw [b4]; exact hl
  have hch1 : (beforeRestart w p).addWatcher = some ch := by rw [b5]; exact hch
  have hs := setup_watching env (beforeRestart w p) p r s (by rw [hR]; exact h1)
    (by rw [hR]; exact h2) (by rw [hS]; exact h3) (by rw [b2, b3]; exact h4)
  obtain ⟨f1, -, f3⟩ := setup_frame env (beforeRestart w p) p
  have hadd : addFileWatcher env (beforeRestart w p) p =
      ((setup env (beforeRestart w p) p).1, Outcome.returned (some Err.watching)) := by
    unfold addFileWatcher
    rw [hs]
    simp [hl1, hch1]
  obtain ⟨e1, e2⟩ := t1 _ Err.watching hadd
  have k1 : ((setup env (beforeRestart w p) p).1.heap p).retries = maxRetries := by
    rw [hs]; simp [World.setFile, World.count, validated]
  have k2 : ((setup env (beforeRestart w p) p).1.heap p).tail = none := by
    rw [hs]; simp [World.setFile, World.count]
  have hret : ((fileWatcherTicker env w true).1.heap p).retries = maxRetries := by
    rw [e1]; simpa [World.count] using k1
  have hfiles : (fileWatcherTicker env w true).1.files = [p] := by
    rw [e1]
    simp only [World.count]
    rw [f3]
    exact hf
  have hpo : passedOver (fileWatcherTicker env w true).1 p = true := by
    simp [passedOver, hret]
  refine ⟨by rw [e1], hret, ?_, ?_, ?_, e2, ?_, ?_⟩
  · intro hlt
    rw [hret]
    omega
  · rw [e1]; simpa [World.count, Active] using k2
  · rw [e1]
    simp only [World.count]
    rw [f1]
    exact hch1
  · exact (ticker_passed_over env _ p hfiles hpo).1
  · exact (ticker_passed_over env _ p hfiles hpo).2

/-- C17 on the examples: `app.log` is inactive with 0 retries and its tail
does not open again; after one tick its retries are 6, not 1, and the next
tick makes no attempt. -/
theorem failed_open_ends_retries_witness :
    (deadWorld.heap 2).retries = 0 ∧
    ((fileWatcherTicker failEnv deadWorld true).1.heap 2).retries = maxRetries ∧
    ((fileWatcherTicker failEnv deadWorld true).1.heap 2).retries ≠
      (deadWorld.heap 2).retries + 1 ∧
    fileWatcherTickerLog failEnv (fileWatcherTicker failEnv deadWorld true).1 true = [] :=
  ⟨rfl,
    (failed_open_ends_retries failEnv deadWorld 2 ⟨10, [], false⟩ ⟨"ERROR"⟩ ⟨"DEBUG"⟩
      rfl (by decide) (by decide) rfl rfl (by decide) rfl rfl rfl).2.1,
    (failed_open_ends_retries failEnv deadWorld 2 ⟨10, [], false⟩ ⟨"ERROR"⟩ ⟨"DEBUG"⟩
      rfl (by decide) (by decide) rfl rfl (by decide) rfl rfl rfl).2.2.1 (by decide),
    (failed_open_ends_retries failEnv deadWorld 2 ⟨10, [], false⟩ ⟨"ERROR"⟩ ⟨"DEBUG"⟩
      rfl (by decide) (by decide) rfl rfl (by decide) rfl rfl rfl).2.2.2.2.2.2.1⟩

/-- The loop of the ticker makes attempts for configured files only. -/
theorem tickerLog_mem_files (env : Env) (files : List FilePtr) :
    ∀ (w : World), ∀ e ∈ tickerLog env w files, e.1 ∈ files := by
  induction files with
  | nil => intro w e he; simp [tickerLog] at he
  | cons item rest ih =>
    intro w e he
    rw [tickerLog_cons] at he
    by_cases hpo : passedOver w item = true
    · simp only [hpo, if_true] at he
      exact List.mem_cons_of_mem _ (ih w e he)
    · simp only [hpo, if_false] at he
      rcases hadd : addFileWatcher env (beforeRestart w item) item with ⟨w2, o⟩
      rw [hadd] at he
      cases o with
      | panicked msg =>
        simp only [Bool.false_eq_true, if_false, List.mem_singleton] at he
        subst he; exact List.mem_cons_self _ _
      | blocked =>
        simp only [Bool.false_eq_true, if_false, List.mem_singleton] at he
        subst he; exact List.mem_cons_self _ _
      | returned oe =>
        cases oe with
        | some err =>
          simp only [] at he
          rcases List.mem_cons.mp he with he | he
          · subst he; exact List.mem_cons_self _ _
          · exact List.mem_cons_of_mem _ (ih _ e he)
        | none =>
          simp only [] at he
          rcases List.mem_cons.mp he with he | he
          · subst he; exact List.mem_cons_self _ _
          · exact List.mem_cons_of_mem _ (ih _ e he)

/-- C19, as the code has it: when a data source reports closed, after the step
the file of that source has no tail handle and is not active, whatever
stopping its tail did, its retries are as they were, and the entry of the
source is gone from both lists; the file is in the tails no more when it stood
at no other index. When the file had its tail handle the loop keeps running
and its `died` flag is true exactly when stopping the tail returned an error.
With the flag false the next tick returns at once and attempts nothing. With
the flag true the next tick goes through the configured files: it makes no
attempt for the file when the file is not among the configured files or its
retries are at `maxRetries` or above; it does make an attempt for the file
when the file is among the configured files, these are distinct, its retries
are below `maxRetries` and the tick returns. -/
theorem closed_source_deactivated (env : Env) (w : World) (st : LoopState) (ev : Event)
    (item : FilePtr) (hsel : ev.selectable st.cases = true) (hc : ev.isClose = true)
    (hlen : st.cases.length = st.tails.length)
    (hitem : st.tails[ev.idx]? = some item) :
    ((loopStep env w st ev).w.heap item).tail = none ∧
    Active (loopStep env w st ev).w item = false ∧
    ((loopStep env w st ev).w.heap item).retries = (w.heap item).retries ∧
    (loopStep env w st ev).st.tails = st.tails.eraseIdx ev.idx ∧
    (loopStep env w st ev).st.cases = st.cases.eraseIdx ev.idx ∧
    ((∀ j, j ≠ ev.idx → st.tails[j]? ≠ some item) → item ∉ (loopStep env w st ev).st.tails) ∧
    (∀ t, (w.heap item).tail = some t →
      (loopStep env w st ev).status = Status.running ∧
      ((loopStep env w st ev).st.died = true ↔ env.tailStopFails w.stops t = true) ∧
      ((loopStep env w st ev).st.died = false →
        fileWatcherTicker env (loopStep env w st ev).w (loopStep env w st ev).st.died =
          ((loopStep env w st ev).w, Outcome.returned false) ∧
        fileWatcherTickerLog env (loopStep env w st ev).w
          (loopStep env w st ev).st.died = []) ∧
      ((loopStep env w st ev).st.died = true →
        fileWatcherTicker env (loopStep env w st ev).w (loopStep env w st ev).st.died =
          tickerLoop env (loopStep env w st ev).w (loopStep env w st ev).w.files false ∧
        (item ∉ w.files ∨ maxRetries ≤ (w.heap item).retries →
          ∀ e ∈ fileWatcherTickerLog env (loopStep env w st ev).w
            (loopStep env w st ev).st.died, e.1 ≠ item) ∧
        (item ∈ w.files → w.files.Nodup → (w.heap item).retries < maxRetries →
          ∀ w1 b, fileWatcherTicker env (loopStep env w st ev).w
              (loopStep env w st ev).st.died = (w1, Outcome.returned b) →
            item ∈ (fileWatcherTickerLog env (loopStep env w st ev).w
              (loopStep env w st ev).st.died).map Prod.fst))) := by
  obtain ⟨hw, hret⟩ := loopStep_close_eq env w st ev hsel hc item hitem
  obtain ⟨k1, k2, k3⟩ := killWatcher_clears env w item
  obtain ⟨e1, e2⟩ := loopStep_close env w st ev hsel hc hlen
  have hfiles : (loopStep env w st ev).w.files = w.files := by rw [hw]; exact k3
  have hretr : ((loopStep env w st ev).w.heap item).retries = (w.heap item).retries := by
    rw [hw]; exact k2 item
  have hact : Active (loopStep env w st ev).w item = false := by simp [Active, hw, k1]
  refine ⟨by rw [hw]; exact k1, hact, hretr, e2, e1, ?_, ?_⟩
  · intro huniq hmem
    rw [e2, List.mem_eraseIdx_iff_getElem?] at hmem
    obtain ⟨j, hj, hjt⟩ := hmem
    exact huniq j hj hjt
  · intro t ht
    obtain ⟨s1, s2⟩ := hret _ (killWatcher_returns env w item t ht)
    refine ⟨s1, by rw [s2], ?_, ?_⟩
    · intro hd
      simp [fileWatcherTicker, fileWatcherTickerLog, hd]
    · intro hd
      have hlog : fileWatcherTickerLog env (loopStep env w st ev).w
          (loopStep env w st ev).st.died =
          tickerLog env (loopStep env w st ev).w w.files := by
        simp [fileWatcherTickerLog, hd, hfiles]
      have htick : fileWatcherTicker env (loopStep env w st ev).w
          (loopStep env w st ev).st.died =
          tickerLoop env (loopStep env w st ev).w w.files false := by
        simp [fileWatcherTicker, hd, hfiles]
      refine ⟨by rw [htick, hfiles], ?_, ?_⟩
      · intro hno e he
        rw [hlog] at he
        rcases hno with hno | hno
        · intro heq
          exact hno (heq ▸ tickerLog_mem_files env w.files _ e he)
        · exact (tickerLoop_exhausted env item w.files (loopStep env w st ev).w false
            (by rw [hretr]; exact hno)).2 e he
      · intro hmem hnd hlt w1 b hres
        rw [hlog]
        rw [htick] at hres
        obtain ⟨tl, hfil, htl⟩ := tickerLog_filter env (loopStep env w st ev).w w.files
          (loopStep env w st ev).w false hnd (fun _ _ => rfl)
        have hnil := htl w1 b hres
        rw [hnil, List.append_nil] at hfil
        rw [← hfil]
        refine List.mem_filter.mpr ⟨hmem, ?_⟩
        have hlt' : ¬ maxRetries ≤ ((loopStep env w st ev).w.heap item).retries := by
          rw [hretr]; omega
        simp [passedOver, hact, hlt']

/-- C19 on the loop of the examples, where stopping a tail returns an error:
`app.log` reports closed; after the step it is inactive and the `died` flag is
true, and the next tick makes an attempt for it. -/
theorem closed_source_deactivated_witness :
    Active (loopStep stopFailEnv sampleWorld sampleCfg.st ⟨2, Data.zero, false⟩).w 2 = false ∧
    (loopStep stopFailEnv sampleWorld sampleCfg.st ⟨2, Data.zero, false⟩).st.died = true ∧
    2 ∈ (fileWatcherTickerLog stopFailEnv
      (loopStep stopFailEnv sampleWorld sampleCfg.st ⟨2, Data.zero, false⟩).w
      (loopStep stopFailEnv sampleWorld sampleCfg.st ⟨2, Data.zero, false⟩).st.died).map
        Prod.fst :=
  ⟨(closed_source_deactivated stopFailEnv sampleWorld sampleCfg.st ⟨2, Data.zero, false⟩ 2
      (by decide) (by decide) (by decide) (by decide)).2.1,
    by rfl,
    (((closed_source_deactivated stopFailEnv sampleWorld sampleCfg.st ⟨2, Data.zero, false⟩ 2
      (by decide) (by decide) (by decide) (by decide)).2.2.2.2.2.2 ⟨12⟩ rfl).2.2.2
        (by rfl)).2.2 (by decide) (by decide) (by decide)
      (fileWatcherTicker stopFailEnv
        (loopStep stopFailEnv sampleWorld sampleCfg.st ⟨2, Data.zero, false⟩).w
        (loopStep stopFailEnv sampleWorld sampleCfg.st ⟨2, Data.zero, false⟩).st.died).1
      false (by rfl)⟩

/-- C19 as stated fails in its last part, twice. A file added at run time,
`any.log`, reports closed and stopping its tail returns an error: the `died`
flag is true and the file is inactive with 0 retries, but it is not among the
configured files and the next tick makes no attempt for it. And `app.log`,
which is configured, reports closed with an error on stopping its tail, then
`raw.log` reports closed without one: the second close sets the flag to false,
and the next tick returns at once, with `app.log` inactive at 0 retries and no
tail opened. -/
theorem closed_but_not_retried :
    ((loopStep stopFailEnv sampleWorld addedCfg.st ⟨3, Data.zero, false⟩).st.died = true ∧
      Active (loopStep stopFailEnv sampleWorld addedCfg.st ⟨3, Data.zero, false⟩).w 3 =
        false ∧
      ((loopStep stopFailEnv sampleWorld addedCfg.st ⟨3, Data.zero, false⟩).w.heap 3).retries
        = 0 ∧
      fileWatcherTickerLog stopFailEnv
        (loopStep stopFailEnv sampleWorld addedCfg.st ⟨3, Data.zero, false⟩).w true = []) ∧
    ((loopStep firstStopFailEnv twoWorld twoCfg.st ⟨2, Data.zero, false⟩).st.died = true ∧
      (runLoop firstStopFailEnv twoCfg
        [Item.ev ⟨2, Data.zero, false⟩, Item.ev ⟨2, Data.zero, false⟩]).1.status =
        Status.running ∧
      (runLoop firstStopFailEnv twoCfg
        [Item.ev ⟨2, Data.zero, false⟩, Item.ev ⟨2, Data.zero, false⟩]).1.st.died = false ∧
      2 ∈ (runLoop firstStopFailEnv twoCfg
        [Item.ev ⟨2, Data.zero, false⟩, Item.ev ⟨2, Data.zero, false⟩]).1.w.files ∧
      Active (runLoop firstStopFailEnv twoCfg
        [Item.ev ⟨2, Data.zero, false⟩, Item.ev ⟨2, Data.zero, false⟩]).1.w 2 = false ∧
      ((runLoop firstStopFailEnv twoCfg
        [Item.ev ⟨2, Data.zero, false⟩, Item.ev ⟨2, Data.zero, false⟩]).1.w.heap 2).retries
        = 0 ∧
      fileWatcherTickerLog firstStopFailEnv
        (runLoop firstStopFailEnv twoCfg
          [Item.ev ⟨2, Data.zero, false⟩, Item.ev ⟨2, Data.zero, false⟩]).1.w
        (runLoop firstStopFailEnv twoCfg
          [Item.ev ⟨2, Data.zero, false⟩, Item.ev ⟨2, Data.zero, false⟩]).1.st.died = [] ∧
      (runLoop firstStopFailEnv twoCfg
        [Item.ev ⟨2, Data.zero, false⟩, Item.ev ⟨2, Data.zero, false⟩,
          Item.ev tickEvent]).1.w.opens = 0) := by
  refine ⟨⟨by rfl, by rfl, by rfl, by rfl⟩,
    ⟨by rfl, by rfl, by rfl, by decide, by rfl, by rfl, by rfl, by rfl⟩⟩

end filewatch
end Notifiarr
